import Mathlib

/-!
Verification of the deterministic extraction core of the email-parser
repository: section segmentation, per-field pattern matching, value
normalization (dates, booleans, phone numbers), checkbox extraction,
attachment parsing, schema validation, the fuzzy-fill post-processor and
the parser registry.  Python code is shallowly embedded: strings are
`String`/`List Char`, dictionaries are association lists, regular
expressions are interpreted by a small prioritized-backtracking engine,
and `datetime.strptime` is modelled directive-by-directive after
CPython's `_strptime`.
-/

/-! ## Character and string helpers (Python `str` semantics) -/

/-- Lower-case one character, as Python `str.lower` does on ASCII input. -/
def lowerC (c : Char) : Char := c.toLower

/-- Lower-case a character list. -/
def lowerL (s : List Char) : List Char := s.map lowerC

/-- Lower-case a string, as Python `str.lower`. -/
def lowerS (s : String) : String := String.mk (lowerL s.data)

/-- Python regex `\s` / `str.strip` whitespace: space, tab, LF, CR, VT, FF. -/
def isSpaceC (c : Char) : Bool :=
  c == ' ' || c == '\t' || c == '\n' || c == '\r' || c == '\x0b' || c == '\x0c'

/-- Python regex `\d` on ASCII input. -/
def isDigitC (c : Char) : Bool := c.isDigit

/-- Python regex `\w` on ASCII input: letters, digits, underscore. -/
def isWordC (c : Char) : Bool := c.isAlphanum || c == '_'

/-- Strip leading and trailing whitespace from a character list. -/
def stripL (s : List Char) : List Char :=
  ((s.dropWhile isSpaceC).reverse.dropWhile isSpaceC).reverse

/-- Python `str.strip()`. -/
def pyStrip (s : String) : String := String.mk (stripL s.data)

/-- Line-break characters recognized by Python `str.splitlines`. -/
def isLineBreakC (c : Char) : Bool :=
  c == '\n' || c == '\r' || c == '\x0b' || c == '\x0c' ||
  c == '\x1c' || c == '\x1d' || c == '\x1e' || c == '\x85' ||
  c == '\u2028' || c == '\u2029'

/-- Worker for `pyLines`; `acc` holds the current line reversed. -/
def splitlinesAux : List Char → List Char → List (List Char)
  | [], acc => if acc.isEmpty then [] else [acc.reverse]
  | '\r' :: '\n' :: rest, acc => acc.reverse :: splitlinesAux rest []
  | c :: rest, acc =>
      if isLineBreakC c then acc.reverse :: splitlinesAux rest []
      else splitlinesAux rest (c :: acc)

/-- Python `str.splitlines()`: no trailing empty line for a trailing newline. -/
def pyLines (s : String) : List String :=
  (splitlinesAux s.data []).map String.mk

/-- Python `str.capitalize()`: first character upper-cased, rest lower-cased. -/
def pyCapitalize (s : String) : String :=
  match s.data with
  | [] => ""
  | c :: rest => String.mk (c.toUpper :: lowerL rest)

/-- `"\n".join(lines)`. -/
def joinNL (lines : List String) : String := String.intercalate "\n" lines

/-! ## Phone normalization

Embeds `RuleBasedParser.format_phone_number` (rule_based_parser.py:554-571):
strip non-digits with `re.sub(r"\D", "", phone)`; 10 digits are rendered
`(XXX) XXX-XXXX`; 11 digits starting with `1` are rendered
`+1 (XXX) XXX-XXXX`; anything else is returned unchanged. -/

def format_phone_number (phone : String) : String :=
  let digits := phone.data.filter isDigitC
  if digits.length = 10 then
    "(" ++ String.mk (digits.take 3) ++ ") " ++ String.mk ((digits.drop 3).take 3)
      ++ "-" ++ String.mk (digits.drop 6)
  else if digits.length = 11 ∧ digits.take 1 = ['1'] then
    "+1 (" ++ String.mk ((digits.drop 1).take 3) ++ ") "
      ++ String.mk ((digits.drop 4).take 3) ++ "-" ++ String.mk (digits.drop 7)
  else phone

example : format_phone_number "5551234567" = "(555) 123-4567" := by decide
example : format_phone_number "1-555-123-4567" = "+1 (555) 123-4567" := by decide
example : format_phone_number "12345" = "12345" := by decide

/-! ## A prioritized-backtracking regex engine

The parser's patterns are compiled with `re.IGNORECASE | re.DOTALL` and used
via `pattern.search(text)`.  The engine below interprets a small regex AST
with Python's leftmost-then-backtracking-priority semantics: `mtch` returns
all matches at the current position as a list ordered by backtracking
priority (earlier alternatives and greedier repetitions first), and
`reSearch` scans positions left to right, returning the first position's
highest-priority match.  Character repetitions are restricted to character
classes, which covers every pattern in the parser's configuration. -/

/-- Regex AST.  `lit` is a case-insensitive literal (`re.IGNORECASE`);
`rep lo hi p` is the greedy `p{lo,hi}` over a character class (with
`hi = none` for an unbounded `p{lo,}`); `grp i r` is capture group `i`. -/
inductive RE where
  | eps : RE
  | lit : String → RE
  | cls : (Char → Bool) → RE
  | rep : Nat → Option Nat → (Char → Bool) → RE
  | seq : RE → RE → RE
  | alt : RE → RE → RE
  | grp : Nat → RE → RE

/-- Captured groups of one match: group index paired with captured text. -/
abbrev Caps := List (Nat × List Char)

/-- Case-insensitive literal match at the start of `s`:
the consumed input prefix and the rest. -/
def litMatch (pat : List Char) (s : List Char) : Option (List Char × List Char) :=
  let p := s.take pat.length
  if p.length = pat.length ∧ lowerL p = lowerL pat then some (p, s.drop pat.length)
  else none

/-- Candidate repetition counts for greedy `p{lo,hi}` at the start of `s`,
longest first. -/
def repCands (lo : Nat) (hi : Option Nat) (p : Char → Bool) (s : List Char) : List Nat :=
  let run := (s.takeWhile p).length
  let top := match hi with
    | some h => min h run
    | none => run
  ((List.range (top + 1)).reverse).filter (fun n => lo ≤ n)

/-- All matches of `r` at the start of `s` in backtracking-priority order:
(consumed input, captured groups, remaining input). -/
def mtch : RE → List Char → List (List Char × Caps × List Char)
  | .eps, s => [([], [], s)]
  | .lit pat, s =>
      match litMatch pat.data s with
      | some (c, rest) => [(c, [], rest)]
      | none => []
  | .cls p, s =>
      match s with
      | [] => []
      | c :: rest => if p c then [([c], [], rest)] else []
  | .rep lo hi p, s =>
      (repCands lo hi p s).map (fun n => (s.take n, [], s.drop n))
  | .seq a b, s =>
      (mtch a s).flatMap (fun m1 =>
        (mtch b m1.2.2).map (fun m2 => (m1.1 ++ m2.1, m1.2.1 ++ m2.2.1, m2.2.2)))
  | .alt a b, s => mtch a s ++ mtch b s
  | .grp i r, s =>
      (mtch r s).map (fun m => (m.1, m.2.1 ++ [(i, m.1)], m.2.2))

/-- `pattern.search`: scan candidate start positions left to right and
return the captures of the first match found. -/
def searchFrom (r : RE) : List Char → Option Caps
  | [] =>
      match mtch r [] with
      | m :: _ => some m.2.1
      | [] => none
  | c :: t =>
      match mtch r (c :: t) with
      | m :: _ => some m.2.1
      | [] => searchFrom r t

/-- `pattern.search(text)` on a string. -/
def reSearch (r : RE) (s : String) : Option Caps := searchFrom r s.data

/-- `match.group(i)` as a character list (empty when the group is absent;
every group of the configured patterns participates whenever the pattern
matches). -/
def capVal (caps : Caps) (i : Nat) : List Char :=
  match caps.find? (fun g => g.fst = i) with
  | some g => g.snd
  | none => []

/-- `match.group(1)` of the first search result, as a string. -/
def searchCap1 (pat : RE) (text : String) : Option String :=
  (reSearch pat text).map (fun caps => String.mk (capVal caps 1))

/-- Right-nested sequencing of a pattern list. -/
def reSeqL : List RE → RE
  | [] => .eps
  | [r] => r
  | r :: rs => .seq r (reSeqL rs)

/-- `\s*`. -/
def ws0 : RE := .rep 0 none isSpaceC

/-- `(.*)` as capture group `i`, under `re.DOTALL`. -/
def capAll (i : Nat) : RE := .grp i (.rep 0 none (fun _ => true))

/-- The common field pattern `r"<label>\s*:\s*(.*)"`. -/
def simplePat (label : String) : RE := reSeqL [.lit label, ws0, .lit ":", ws0, capAll 1]

example : searchCap1 (simplePat "Handler") "x Handler :  Jane Doe" = some "Jane Doe" := by decide
example : searchCap1 (simplePat "Handler") "no such field" = none := by decide

/-! ## The default pattern configuration

Transcription of `RuleBasedParser.default_config` (rule_based_parser.py:148-270).
Each `RE` term mirrors one configured pattern string, compiled with
`re.IGNORECASE | re.DOTALL`. -/

/-- Configured section headers, in order. -/
def section_headers : List String :=
  ["Requesting Party", "Insured Information", "Adjuster Information",
   "Assignment Information", "Assignment Type",
   "Additional details/Special Instructions", "Attachment(s)"]

/-- `[xX]`. -/
def xXC (c : Char) : Bool := c == 'x' || c == 'X'

/-- The character class slash-or-hyphen from the date capture. -/
def slashDashC (c : Char) : Bool := c == '/' || c == '-'

/-- `[\d\s\-().]` (body of the phone-number capture). -/
def phoneBodyC (c : Char) : Bool :=
  isDigitC c || isSpaceC c || c == '-' || c == '(' || c == ')' || c == '.'

/-- `[\w\.-]` (local and domain parts of the email capture). -/
def emailC (c : Char) : Bool := isWordC c || c == '.' || c == '-'

/-- The date capture group: 1-2 digits, slash-or-hyphen, 1-2 digits,
slash-or-hyphen, 2-4 digits. -/
def dateCapture : RE :=
  .grp 1 (reSeqL [.rep 1 (some 2) isDigitC, .cls slashDashC,
                  .rep 1 (some 2) isDigitC, .cls slashDashC,
                  .rep 2 (some 4) isDigitC])

/-- `r"Wind\s*\[\s*([xX])\s*\]"` and its three siblings. -/
def checkboxPat (label : String) : RE :=
  reSeqL [.lit label, ws0, .lit "[", ws0, .grp 1 (.cls xXC), ws0, .lit "]"]

/-- `r"Other\s*\[\s*([xX])\s*\]\s*-\s*provide details\s*:\s*(.*)"`. -/
def otherPat : RE :=
  reSeqL [.lit "Other", ws0, .lit "[", ws0, .grp 1 (.cls xXC), ws0, .lit "]",
          ws0, .lit "-", ws0, .lit "provide details", ws0, .lit ":", ws0, capAll 2]

/-- `patterns["Requesting Party"]`. -/
def rpPatterns : List (String × RE) :=
  [("Insurance Company", simplePat "Insurance Company"),
   ("Handler", simplePat "Handler"),
   ("Carrier Claim Number", simplePat "Carrier Claim Number")]

/-- `additional_patterns["Requesting Party"]`. -/
def rpAdditional : List (String × RE) :=
  [("Policy #", reSeqL [.lit "Policy", ws0, .lit "Number", ws0, .lit ":", ws0,
                        .grp 1 (.rep 1 none isWordC)]),
   ("Carrier Claim Number", reSeqL [.lit "Claim", ws0, .lit "Number", ws0,
                                    .lit ":", ws0, capAll 1])]

/-- `patterns["Insured Information"]`. -/
def insPatterns : List (String × RE) :=
  [("Name", simplePat "Name"),
   ("Contact #", simplePat "Contact #"),
   ("Loss Address", simplePat "Loss Address"),
   ("Public Adjuster", simplePat "Public Adjuster"),
   ("Owner or Tenant",
    reSeqL [.lit "Is the insured an Owner or a Tenant of the loss location?", ws0,
            .grp 1 (.alt (.lit "Yes") (.alt (.lit "No")
                      (.alt (.lit "Owner") (.lit "Tenant"))))])]

/-- `additional_patterns` has no "Insured Information" entry. -/
def insAdditional : List (String × RE) := []

/-- `patterns["Adjuster Information"]`. -/
def adjPatterns : List (String × RE) :=
  [("Adjuster Name", simplePat "Adjuster Name"),
   ("Adjuster Phone Number",
    reSeqL [.lit "Adjuster Phone Number", ws0, .lit ":", ws0,
            .grp 1 (reSeqL [.alt (.lit "+") .eps, .cls isDigitC,
                            .rep 7 none phoneBodyC, .cls isDigitC])]),
   ("Adjuster Email",
    reSeqL [.lit "Adjuster Email", ws0, .lit ":", ws0,
            .grp 1 (reSeqL [.rep 1 none emailC, .lit "@", .rep 1 none emailC,
                            .lit ".", .rep 1 none isWordC])]),
   ("Job Title", simplePat "Job Title"),
   ("Address", simplePat "Address"),
   ("Policy #", reSeqL [.lit "Policy #", ws0, .lit ":", ws0,
                        .grp 1 (.rep 1 none isWordC)])]

/-- `additional_patterns` has no "Adjuster Information" entry. -/
def adjAdditional : List (String × RE) := []

/-- `patterns["Assignment Information"]`. -/
def aiPatterns : List (String × RE) :=
  [("Date of Loss/Occurrence",
    reSeqL [.lit "Date of Loss/Occurrence", ws0, .lit ":", ws0, dateCapture]),
   ("Cause of loss", simplePat "Cause of loss"),
   ("Facts of Loss", simplePat "Facts of Loss"),
   ("Loss Description", simplePat "Loss Description"),
   ("Residence Occupied During Loss",
    reSeqL [.lit "Residence Occupied During Loss", ws0, .lit ":", ws0,
            .grp 1 (.alt (.lit "Yes") (.lit "No"))]),
   ("Was Someone home at time of damage",
    reSeqL [.lit "Was Someone home at time of damage", ws0, .lit ":", ws0,
            .grp 1 (.alt (.lit "Yes") (.lit "No"))]),
   ("Repair or Mitigation Progress", simplePat "Repair or Mitigation Progress"),
   ("Type", simplePat "Type"),
   ("Inspection type", simplePat "Inspection type")]

/-- `additional_patterns["Assignment Information"]`:
the date-of-loss pattern with an optional "/Occurrence" suffix and the
same date capture group. -/
def aiAdditional : List (String × RE) :=
  [("Date of Loss/Occurrence",
    reSeqL [.lit "Date of Loss", .alt (.lit "/Occurrence") .eps, ws0, .lit ":",
            ws0, dateCapture])]

/-- `patterns["Assignment Type"]`. -/
def atPatterns : List (String × RE) :=
  [("Wind", checkboxPat "Wind"),
   ("Structural", checkboxPat "Structural"),
   ("Hail", checkboxPat "Hail"),
   ("Foundation", checkboxPat "Foundation"),
   ("Other", otherPat)]

/-- `r"Additional details/Special Instructions\s*:\s*(.*)"`. -/
def adPat : RE := simplePat "Additional details/Special Instructions"

/-- `r"Attachment\(s\)\s*:\s*(.*)"`. -/
def attachPat : RE := simplePat "Attachment(s)"

/-- Configured positive boolean tokens (`boolean_values["positive"]`,
rule_based_parser.py:98-125; loaded in `__init__` from the default config). -/
def boolean_values_positive : List String :=
  ["yes", "y", "true", "t", "1", "x", "[x]", "[X]", "(x)", "(X)"]

/-- Configured negative boolean tokens (`boolean_values["negative"]`). -/
def boolean_values_negative : List String :=
  ["no", "n", "false", "f", "0", "[ ]", "()", "[N/A]", "(N/A)"]

/-! ## JSON values and association-list dictionaries -/

/-- JSON-like values: the shape of every parser's output dictionary. -/
inductive Json where
  | str : String → Json
  | bool : Bool → Json
  | arr : List Json → Json
  | obj : List (String × Json) → Json

/-- `dict.get` on an association list (first binding wins; `aset` keeps
keys unique, matching Python `dict` semantics). -/
def aget (kvs : List (String × Json)) (k : String) : Option Json :=
  match kvs.find? (fun kv => kv.fst == k) with
  | some kv => some kv.snd
  | none => none

/-- `dict[k] = v`: update in place if the key exists, else append. -/
def aset (kvs : List (String × Json)) (k : String) (v : Json) : List (String × Json) :=
  if kvs.any (fun kv => kv.fst == k) then
    kvs.map (fun kv => if kv.fst == k then (k, v) else kv)
  else kvs ++ [(k, v)]

/-- `dict.update(new)`. -/
def dictUpdate (kvs new : List (String × Json)) : List (String × Json) :=
  new.foldl (fun acc kv => aset acc kv.fst kv.snd) kvs

/-- `aget` on string-valued dictionaries (used by the segmenter). -/
def sget (kvs : List (String × String)) (k : String) : Option String :=
  match kvs.find? (fun kv => kv.fst == k) with
  | some kv => some kv.snd
  | none => none

/-- `aset` on string-valued dictionaries. -/
def sset (kvs : List (String × String)) (k : String) (v : String) :
    List (String × String) :=
  if kvs.any (fun kv => kv.fst == k) then
    kvs.map (fun kv => if kv.fst == k then (k, v) else kv)
  else kvs ++ [(k, v)]

/-! ## Section segmentation

Embeds `RuleBasedParser.split_into_sections` (rule_based_parser.py:329-372)
and the compiled `section_pattern` (lines 64-66):
`^(<header1>|...|<header7>):?\s*$` with `re.IGNORECASE`, matched against each
stripped line.  No configured header is a prefix of another and none contains
a colon, so a stripped line matches exactly when, case-insensitively, it
equals a header or a header followed by one colon; `group(1)` is the line
with the trailing colon removed, in the line's original casing. -/

/-- `section_pattern.match(line)` on an already-stripped line, returning
`group(1)`. -/
def headerGroup (line : String) : Option String :=
  if section_headers.any (fun h => lowerS line == lowerS h) then some line
  else if section_headers.any (fun h => lowerS line == lowerS h ++ ":") then
    some (String.mk line.data.dropLast)
  else none

/-- Loop state of `split_into_sections`: the sections dictionary, the
current section header, and the content buffer. -/
structure SplitState where
  sections : List (String × String)
  current : Option String
  buf : List String

/-- One iteration of the line loop of `split_into_sections`. -/
def splitStep (st : SplitState) (rawLine : String) : SplitState :=
  let line := pyStrip rawLine
  if line = "" then st
  else
    match headerGroup line with
    | some g =>
        let secs := match st.current with
          | some cur => sset st.sections cur (pyStrip (joinNL st.buf))
          | none => st.sections
        { sections := sset secs g "", current := some g, buf := [] }
    | none =>
        match st.current with
        | some _ => { st with buf := st.buf ++ [line] }
        | none => st

/-- `RuleBasedParser.split_into_sections`. -/
def split_into_sections (email_content : String) : List (String × String) :=
  let st := (pyLines email_content).foldl splitStep ⟨[], none, []⟩
  let secs := match st.current with
    | some cur =>
        if st.buf.isEmpty then st.sections
        else sset st.sections cur (pyStrip (joinNL st.buf))
    | none => st.sections
  section_headers.foldl
    (fun acc h => if acc.any (fun kv => kv.fst == h) then acc else acc ++ [(h, "")])
    secs

example : split_into_sections "junk\nAdjuster Information\nAdjuster Phone Number: 5551234567\n" =
    [("Adjuster Information", "Adjuster Phone Number: 5551234567"),
     ("Requesting Party", ""), ("Insured Information", ""),
     ("Assignment Information", ""), ("Assignment Type", ""),
     ("Additional details/Special Instructions", ""), ("Attachment(s)", "")] := by decide

/-- `RuleBasedParser.snake_case` (rule_based_parser.py:322-327):
`re.sub(r"[^\w\s]", "", text)` then strip, lower-case, and collapse
whitespace runs to single underscores. -/
def snakeCaseAux : Bool → List Char → List Char
  | _, [] => []
  | prevSpace, c :: rest =>
      if isSpaceC c then
        if prevSpace then snakeCaseAux true rest
        else '_' :: snakeCaseAux true rest
      else lowerC c :: snakeCaseAux false rest

/-- `RuleBasedParser.snake_case`. -/
def snake_case (text : String) : String :=
  String.mk (snakeCaseAux false (stripL (text.data.filter (fun c => isWordC c || isSpaceC c))))

example : snake_case "Requesting Party" = "requesting_party" := by decide
example : snake_case "Additional details/Special Instructions" =
    "additional_detailsspecial_instructions" := by decide
example : snake_case "Attachment(s)" = "attachments" := by decide

/-! ## Value normalization helpers used by the extractors -/

/-- The pervasive `value if value else "N/A"` idiom. -/
def naIfEmpty (v : String) : String := if v = "" then "N/A" else v

/-- `value.capitalize() if value.lower() in vocab else "N/A"` (the
owner/tenant and yes/no normalizations,
rule_based_parser.py:491-496 and 592-598). -/
def capitalizeIfIn (vocab : List String) (value : String) : String :=
  if vocab.contains (lowerS value) then pyCapitalize value else "N/A"

/-! ## `datetime.strptime` and date normalization

Embeds `RuleBasedParser.parse_date` (rule_based_parser.py:629-653) and the
configured `date_formats` list (lines 226-244).  Each format string is
modelled directive-by-directive after CPython's `_strptime`: a format is a
regex built from per-directive character patterns (`%Y` is exactly four
digits, `%m` is `1[0-2]|0[1-9]|[1-9]`, and so on, with `re.IGNORECASE`),
matched against the whole input (`format_regex.match` plus the
"unconverted data remains" check); the first full match in backtracking
order supplies the field values, and the subsequent `datetime` construction
raises `ValueError` — treated as a failed format — when the values do not
form a real date (or the seconds exceed 59). -/

/-- Parsed field values of one `strptime` call. -/
structure Tm where
  year : Nat
  month : Nat
  day : Nat
  hour : Nat
  minute : Nat
  second : Nat
deriving DecidableEq, Repr

/-- A directive-level parser: prioritized list of (value, rest) splits. -/
def DirP (α : Type) := List Char → List (α × List Char)

/-- Sequencing of directive parsers, preserving backtracking priority. -/
def pAndThen {α β : Type} (p : DirP α) (f : α → DirP β) : DirP β :=
  fun s => (p s).flatMap (fun ar => f ar.fst ar.snd)

/-- A parser consuming nothing. -/
def pPure {α : Type} (a : α) : DirP α := fun s => [(a, s)]

/-- A literal format character (case-insensitive, as `re.IGNORECASE`). -/
def pLitC (ch : Char) : DirP Unit
  | c :: rest => if lowerC c = lowerC ch then [((), rest)] else []
  | [] => []

/-- Whitespace in a format string becomes `\s+` (greedy). -/
def pWS1 : DirP Unit := fun s =>
  let run := (s.takeWhile isSpaceC).length
  ((List.range (run + 1)).reverse).filterMap
    (fun n => if 1 ≤ n then some ((), s.drop n) else none)

/-- Numeric value of a digit character. -/
def digitVal (c : Char) : Nat := c.toNat - '0'.toNat

/-- `%Y`: exactly four digits. -/
def pYear4 : DirP Nat
  | a :: b :: c :: d :: rest =>
      if isDigitC a ∧ isDigitC b ∧ isDigitC c ∧ isDigitC d then
        [(digitVal a * 1000 + digitVal b * 100 + digitVal c * 10 + digitVal d, rest)]
      else []
  | _ => []

/-- `%m`: `1[0-2]|0[1-9]|[1-9]`, alternatives in this order. -/
def pMonth2 : DirP Nat := fun s =>
  (match s with
   | a :: b :: rest =>
       if a = '1' ∧ '0' ≤ b ∧ b ≤ '2' then [(10 + digitVal b, rest)] else []
   | _ => []) ++
  (match s with
   | a :: b :: rest =>
       if a = '0' ∧ '1' ≤ b ∧ b ≤ '9' then [(digitVal b, rest)] else []
   | _ => []) ++
  (match s with
   | a :: rest => if '1' ≤ a ∧ a ≤ '9' then [(digitVal a, rest)] else []
   | _ => [])

/-- `%d`: `3[01]|[12]\d|0[1-9]|[1-9]`, alternatives in this order. -/
def pDay2 : DirP Nat := fun s =>
  (match s with
   | a :: b :: rest =>
       if a = '3' ∧ '0' ≤ b ∧ b ≤ '1' then [(30 + digitVal b, rest)] else []
   | _ => []) ++
  (match s with
   | a :: b :: rest =>
       if ('1' ≤ a ∧ a ≤ '2') ∧ isDigitC b then
         [(digitVal a * 10 + digitVal b, rest)]
       else []
   | _ => []) ++
  (match s with
   | a :: b :: rest =>
       if a = '0' ∧ '1' ≤ b ∧ b ≤ '9' then [(digitVal b, rest)] else []
   | _ => []) ++
  (match s with
   | a :: rest => if '1' ≤ a ∧ a ≤ '9' then [(digitVal a, rest)] else []
   | _ => [])

/-- `%H`: `2[0-3]|[0-1]\d|\d`. -/
def pHour2 : DirP Nat := fun s =>
  (match s with
   | a :: b :: rest =>
       if a = '2' ∧ '0' ≤ b ∧ b ≤ '3' then [(20 + digitVal b, rest)] else []
   | _ => []) ++
  (match s with
   | a :: b :: rest =>
       if ('0' ≤ a ∧ a ≤ '1') ∧ isDigitC b then
         [(digitVal a * 10 + digitVal b, rest)]
       else []
   | _ => []) ++
  (match s with
   | a :: rest => if isDigitC a then [(digitVal a, rest)] else []
   | _ => [])

/-- `%M`: `[0-5]\d|\d`. -/
def pMin2 : DirP Nat := fun s =>
  (match s with
   | a :: b :: rest =>
       if ('0' ≤ a ∧ a ≤ '5') ∧ isDigitC b then
         [(digitVal a * 10 + digitVal b, rest)]
       else []
   | _ => []) ++
  (match s with
   | a :: rest => if isDigitC a then [(digitVal a, rest)] else []
   | _ => [])

/-- `%S`: `6[0-1]|[0-5]\d|\d` (leap seconds pass the regex but fail the
`datetime` constructor). -/
def pSec2 : DirP Nat := fun s =>
  (match s with
   | a :: b :: rest =>
       if a = '6' ∧ '0' ≤ b ∧ b ≤ '1' then [(60 + digitVal b, rest)] else []
   | _ => []) ++
  (match s with
   | a :: b :: rest =>
       if ('0' ≤ a ∧ a ≤ '5') ∧ isDigitC b then
         [(digitVal a * 10 + digitVal b, rest)]
       else []
   | _ => []) ++
  (match s with
   | a :: rest => if isDigitC a then [(digitVal a, rest)] else []
   | _ => [])

/-- `%f`: one to six digits, greedy. -/
def pFrac : DirP Unit := fun s =>
  let run := min 6 (s.takeWhile isDigitC).length
  ((List.range (run + 1)).reverse).filterMap
    (fun n => if 1 ≤ n then some ((), s.drop n) else none)

/-- English month names; no name is a prefix of another, so alternation
order cannot change which one matches. -/
def monthNames : List String :=
  ["january", "february", "march", "april", "may", "june", "july",
   "august", "september", "october", "november", "december"]

/-- Abbreviated month names. -/
def monthAbbrevs : List String :=
  ["jan", "feb", "mar", "apr", "may", "jun", "jul", "aug", "sep", "oct",
   "nov", "dec"]

/-- Match one name from a list case-insensitively, yielding its 1-based
index. -/
def pNameFrom (names : List String) : DirP Nat := fun s =>
  names.enum.flatMap (fun p =>
    match litMatch p.snd.data s with
    | some cr => [(p.fst + 1, cr.snd)]
    | none => [])

/-- `%B`. -/
def pMonthName : DirP Nat := pNameFrom monthNames

/-- `%b`. -/
def pMonthAbbrev : DirP Nat := pNameFrom monthAbbrevs

/-- A format parser produces prioritized (values, rest) splits. -/
def FmtP := DirP Tm

/-- Build a `Tm` from a date with zeroed time fields. -/
def tmOfYmd (y m d : Nat) : Tm :=
  { year := y, month := m, day := d, hour := 0, minute := 0, second := 0 }

/-- `"%m/%d/%Y"`. -/
def fmt_mdY : FmtP :=
  pAndThen pMonth2 (fun m => pAndThen (pLitC '/') (fun _ =>
    pAndThen pDay2 (fun d => pAndThen (pLitC '/') (fun _ =>
      pAndThen pYear4 (fun y => pPure (tmOfYmd y m d))))))

/-- `"%d/%m/%Y"`. -/
def fmt_dmY : FmtP :=
  pAndThen pDay2 (fun d => pAndThen (pLitC '/') (fun _ =>
    pAndThen pMonth2 (fun m => pAndThen (pLitC '/') (fun _ =>
      pAndThen pYear4 (fun y => pPure (tmOfYmd y m d))))))

/-- `"%Y-%m-%d"`. -/
def fmt_Ymd : FmtP :=
  pAndThen pYear4 (fun y => pAndThen (pLitC '-') (fun _ =>
    pAndThen pMonth2 (fun m => pAndThen (pLitC '-') (fun _ =>
      pAndThen pDay2 (fun d => pPure (tmOfYmd y m d))))))

/-- `"%B %d, %Y"`. -/
def fmt_BdY : FmtP :=
  pAndThen pMonthName (fun m => pAndThen pWS1 (fun _ =>
    pAndThen pDay2 (fun d => pAndThen (pLitC ',') (fun _ =>
      pAndThen pWS1 (fun _ => pAndThen pYear4 (fun y => pPure (tmOfYmd y m d)))))))

/-- `"%b %d, %Y"`. -/
def fmt_bdY : FmtP :=
  pAndThen pMonthAbbrev (fun m => pAndThen pWS1 (fun _ =>
    pAndThen pDay2 (fun d => pAndThen (pLitC ',') (fun _ =>
      pAndThen pWS1 (fun _ => pAndThen pYear4 (fun y => pPure (tmOfYmd y m d)))))))

/-- `"%d %B %Y"`. -/
def fmt_dBY : FmtP :=
  pAndThen pDay2 (fun d => pAndThen pWS1 (fun _ =>
    pAndThen pMonthName (fun m => pAndThen pWS1 (fun _ =>
      pAndThen pYear4 (fun y => pPure (tmOfYmd y m d))))))

/-- `"%d %b %Y"`. -/
def fmt_dbY : FmtP :=
  pAndThen pDay2 (fun d => pAndThen pWS1 (fun _ =>
    pAndThen pMonthAbbrev (fun m => pAndThen pWS1 (fun _ =>
      pAndThen pYear4 (fun y => pPure (tmOfYmd y m d))))))

/-- `"%Y/%m/%d"`. -/
def fmt_Ymd_slash : FmtP :=
  pAndThen pYear4 (fun y => pAndThen (pLitC '/') (fun _ =>
    pAndThen pMonth2 (fun m => pAndThen (pLitC '/') (fun _ =>
      pAndThen pDay2 (fun d => pPure (tmOfYmd y m d))))))

/-- `"%d-%m-%Y"`. -/
def fmt_dmY_dash : FmtP :=
  pAndThen pDay2 (fun d => pAndThen (pLitC '-') (fun _ =>
    pAndThen pMonth2 (fun m => pAndThen (pLitC '-') (fun _ =>
      pAndThen pYear4 (fun y => pPure (tmOfYmd y m d))))))

/-- `"%Y.%m.%d"`. -/
def fmt_Ymd_dot : FmtP :=
  pAndThen pYear4 (fun y => pAndThen (pLitC '.') (fun _ =>
    pAndThen pMonth2 (fun m => pAndThen (pLitC '.') (fun _ =>
      pAndThen pDay2 (fun d => pPure (tmOfYmd y m d))))))

/-- `"%d.%m.%Y"`. -/
def fmt_dmY_dot : FmtP :=
  pAndThen pDay2 (fun d => pAndThen (pLitC '.') (fun _ =>
    pAndThen pMonth2 (fun m => pAndThen (pLitC '.') (fun _ =>
      pAndThen pYear4 (fun y => pPure (tmOfYmd y m d))))))

/-- `"%m-%d-%Y"`. -/
def fmt_mdY_dash : FmtP :=
  pAndThen pMonth2 (fun m => pAndThen (pLitC '-') (fun _ =>
    pAndThen pDay2 (fun d => pAndThen (pLitC '-') (fun _ =>
      pAndThen pYear4 (fun y => pPure (tmOfYmd y m d))))))

/-- `"%Y%m%d"`. -/
def fmt_Ymd_compact : FmtP :=
  pAndThen pYear4 (fun y => pAndThen pMonth2 (fun m =>
    pAndThen pDay2 (fun d => pPure (tmOfYmd y m d))))

/-- `"%B %-d, %Y"` and `"%b %-d, %Y"`: CPython's `_strptime` rejects the
`-` directive with `ValueError("'-' is a bad directive ...")`, which the
`except ValueError` in `parse_date` treats as a failed format. -/
def fmtBadDirective : FmtP := fun _ => []

/-- `"%Y-%m-%dT%H:%M:%S"`. -/
def fmt_YmdHMS : FmtP :=
  pAndThen pYear4 (fun y => pAndThen (pLitC '-') (fun _ =>
    pAndThen pMonth2 (fun m => pAndThen (pLitC '-') (fun _ =>
      pAndThen pDay2 (fun d => pAndThen (pLitC 'T') (fun _ =>
        pAndThen pHour2 (fun hh => pAndThen (pLitC ':') (fun _ =>
          pAndThen pMin2 (fun mi => pAndThen (pLitC ':') (fun _ =>
            pAndThen pSec2 (fun ss => pPure
              { year := y, month := m, day := d,
                hour := hh, minute := mi, second := ss })))))))))))

/-- `"%Y-%m-%dT%H:%M:%S.%fZ"`. -/
def fmt_YmdHMSfZ : FmtP :=
  pAndThen pYear4 (fun y => pAndThen (pLitC '-') (fun _ =>
    pAndThen pMonth2 (fun m => pAndThen (pLitC '-') (fun _ =>
      pAndThen pDay2 (fun d => pAndThen (pLitC 'T') (fun _ =>
        pAndThen pHour2 (fun hh => pAndThen (pLitC ':') (fun _ =>
          pAndThen pMin2 (fun mi => pAndThen (pLitC ':') (fun _ =>
            pAndThen pSec2 (fun ss => pAndThen (pLitC '.') (fun _ =>
              pAndThen pFrac (fun _ => pAndThen (pLitC 'Z') (fun _ => pPure
                { year := y, month := m, day := d,
                  hour := hh, minute := mi, second := ss }))))))))))))))

/-- The configured `date_formats` list, in order (rule_based_parser.py:226-244). -/
def date_formats : List FmtP :=
  [fmt_mdY, fmt_dmY, fmt_Ymd, fmt_BdY, fmt_bdY, fmt_dBY, fmt_dbY,
   fmt_Ymd_slash, fmt_dmY_dash, fmt_Ymd_dot, fmt_dmY_dot, fmt_mdY_dash,
   fmt_Ymd_compact, fmtBadDirective, fmtBadDirective, fmt_YmdHMS, fmt_YmdHMSfZ]

/-- Gregorian leap year, as `datetime`. -/
def isLeapYear (y : Nat) : Bool := y % 4 = 0 && (y % 100 ≠ 0 || y % 400 = 0)

/-- Days in a month, as `datetime`. -/
def daysInMonth (y m : Nat) : Nat :=
  [31, if isLeapYear y then 29 else 28, 31, 30, 31, 30, 31, 31, 30, 31, 30, 31].getD (m - 1) 0

/-- The `datetime(year, month, day, hour, minute, second)` constructor
checks; the directive patterns already bound month at 12, hour at 23 and
minute at 59, and a four-digit year at 9999. -/
def tmValid (t : Tm) : Bool :=
  1 ≤ t.year && 1 ≤ t.month && t.month ≤ 12 && 1 ≤ t.day &&
  t.day ≤ daysInMonth t.year t.month && t.hour ≤ 23 && t.minute ≤ 59 &&
  t.second ≤ 59

/-- One `datetime.strptime(s, fmt)` call: the first full regex match in
backtracking order supplies the values, then the constructor checks run. -/
def strptimeRun (f : FmtP) (s : String) : Option Tm :=
  match (f s.data).find? (fun r => r.snd.isEmpty) with
  | some r => if tmValid r.fst then some r.fst else none
  | none => none

/-- `datetime.strftime("%Y-%m-%d")` zero-pads month and day; glibc's `%Y`
renders the year without padding (years below 1000 keep fewer digits). -/
def pad2 (n : Nat) : String := if n < 10 then "0" ++ toString n else toString n

/-- Canonical date rendering used by `parse_date`. -/
def renderYmd (y m d : Nat) : String := toString y ++ "-" ++ pad2 m ++ "-" ++ pad2 d

/-- The format loop of `RuleBasedParser.parse_date`. -/
def parseDateGo : List FmtP → String → String
  | [], s => s
  | f :: fs, s =>
      match strptimeRun f s with
      | some t => renderYmd t.year t.month t.day
      | none => parseDateGo fs s

/-- `RuleBasedParser.parse_date`: try each configured format in order;
render the first success as `YYYY-MM-DD`; otherwise return the input. -/
def parse_date (date_str : String) : String := parseDateGo date_formats date_str

example : parse_date "03/14/2023" = "2023-03-14" := by decide
example : parse_date "14/03/2023" = "2023-03-14" := by decide
example : parse_date "2023-03-14" = "2023-03-14" := by decide
example : parse_date "March 14, 2023" = "2023-03-14" := by decide
example : parse_date "02/29/2023" = "02/29/2023" := by decide
example : parse_date "02/29/2024" = "2024-02-29" := by decide
example : parse_date "N/A" = "N/A" := by decide
example : parse_date "2023-03-14T05:06:07" = "2023-03-14" := by decide


/-! ## Section extractors

Transcriptions of `RuleBasedParser.extract_requesting_party`,
`extract_insured_information`, `extract_adjuster_information`,
`extract_assignment_information`, `extract_assignment_type`,
`extract_additional_details_special_instructions` and
`extract_attachments` (rule_based_parser.py:434-775). -/

/-- Look up a field's additional pattern. -/
def alookupRE (kvs : List (String × RE)) (k : String) : Option RE :=
  match kvs.find? (fun kv => kv.fst == k) with
  | some kv => some kv.snd
  | none => none

/-- `alt_match.group(1).strip() if alt_match else "N/A"`. -/
def additionalValue (apat : RE) (text : String) : String :=
  match searchCap1 apat text with
  | some araw => pyStrip araw
  | none => "N/A"

/-- The requesting-party branch for a primary match with an empty stripped
group: retry the additional pattern when one is configured. -/
def primaryEmptyRetry (additional : List (String × RE)) (key text value : String) :
    String :=
  if value = "" then
    (match alookupRE additional key with
     | some apat => additionalValue apat text
     | none => value)
  else value

/-- The shared no-primary-match branch: use the additional pattern when one
is configured, else `"N/A"`. -/
def noMatchValue (additional : List (String × RE)) (key text : String) : String :=
  match alookupRE additional key with
  | some apat => naIfEmpty (additionalValue apat text)
  | none => "N/A"

/-- `RuleBasedParser.extract_requesting_party` (lines 434-473): on a primary
match whose stripped group is empty, the additional pattern is retried;
on no primary match, the additional pattern (when configured) is used;
empty values become `"N/A"`. -/
def extract_requesting_party (text : String) : List (String × Json) :=
  [("Requesting Party", Json.obj (rpPatterns.map (fun kp =>
    (kp.fst, Json.str (
      match searchCap1 kp.snd text with
      | some raw => naIfEmpty (primaryEmptyRetry rpAdditional kp.fst text (pyStrip raw))
      | none => noMatchValue rpAdditional kp.fst text)))))]

/-- `RuleBasedParser.extract_insured_information` (lines 475-513): the
owner/tenant value is `value.capitalize()` when its lower-casing is one of
yes/no/owner/tenant and `"N/A"` otherwise; `additional_patterns` has no
entry for this section. -/
def extract_insured_information (text : String) : List (String × Json) :=
  [("Insured Information", Json.obj (insPatterns.map (fun kp =>
    (kp.fst, Json.str (
      match searchCap1 kp.snd text with
      | some raw =>
          naIfEmpty (if kp.fst = "Owner or Tenant" then
            capitalizeIfIn ["yes", "no", "owner", "tenant"] (pyStrip raw)
          else pyStrip raw)
      | none => noMatchValue insAdditional kp.fst text)))))]

/-- `RuleBasedParser.extract_adjuster_information` (lines 515-552): phone
numbers go through `format_phone_number`, emails are lower-cased;
`additional_patterns` has no entry for this section. -/
def extract_adjuster_information (text : String) : List (String × Json) :=
  [("Adjuster Information", Json.obj (adjPatterns.map (fun kp =>
    (kp.fst, Json.str (
      match searchCap1 kp.snd text with
      | some raw =>
          naIfEmpty (if kp.fst = "Adjuster Phone Number" then
            format_phone_number (pyStrip raw)
          else if kp.fst = "Adjuster Email" then lowerS (pyStrip raw)
          else pyStrip raw)
      | none => noMatchValue adjAdditional kp.fst text)))))]

/-- The yes/no normalization of the two boolean-ish assignment fields
(lines 592-598): `value.capitalize() if value.lower() in ["yes", "no"]
else "N/A"`. -/
def yesNoOrNA (value : String) : String := capitalizeIfIn ["yes", "no"] value

/-- Field transform of `extract_assignment_information`, keyed by field. -/
def aiTransform (key value : String) : String :=
  if key = "Date of Loss/Occurrence" then parse_date value
  else if key = "Residence Occupied During Loss"
      ∨ key = "Was Someone home at time of damage" then yesNoOrNA value
  else value

/-- The additional-pattern branch of `extract_assignment_information`
(lines 601-626): an unmatched additional pattern yields the string
`"N/A"`, which is truthy in Python and therefore also flows through the
field transform. -/
def aiAdditionalBranch (key text : String) : String :=
  match alookupRE aiAdditional key with
  | some apat =>
      let value := additionalValue apat text
      if value ≠ "" then aiTransform key value else "N/A"
  | none => "N/A"

/-- `RuleBasedParser.extract_assignment_information` (lines 573-627). -/
def extract_assignment_information (text : String) : List (String × Json) :=
  [("Assignment Information", Json.obj (aiPatterns.map (fun kp =>
    (kp.fst, Json.str (
      match searchCap1 kp.snd text with
      | some raw => naIfEmpty (aiTransform kp.fst (pyStrip raw))
      | none => aiAdditionalBranch kp.fst text)))))]

/-- `RuleBasedParser.extract_assignment_type` (lines 655-688): each simple
flag is set exactly when its checkbox pattern matches; `Other` records the
checked box and the stripped second capture group (`match.lastindex` is
always 2 when `otherPat` matches, since its trailing `(.*)` group always
participates). -/
def extract_assignment_type (text : String) : List (String × Json) :=
  [("Assignment Type", Json.obj
    [("Wind", Json.bool (reSearch (checkboxPat "Wind") text).isSome),
     ("Structural", Json.bool (reSearch (checkboxPat "Structural") text).isSome),
     ("Hail", Json.bool (reSearch (checkboxPat "Hail") text).isSome),
     ("Foundation", Json.bool (reSearch (checkboxPat "Foundation") text).isSome),
     ("Other",
      match reSearch otherPat text with
      | some caps =>
          Json.obj [("Checked", Json.bool true),
                    ("Details", Json.str (naIfEmpty (pyStrip (String.mk (capVal caps 2)))))]
      | none =>
          Json.obj [("Checked", Json.bool false), ("Details", Json.str "N/A")])])]

/-- `RuleBasedParser.extract_additional_details_special_instructions`
(lines 690-715).  Note: `parse` looks this method up under the name
`extract_additional_detailsspecial_instructions` (the slash is removed
before the space-to-underscore replacement in `snake_case`), so the
dispatch never finds it and this section always takes its default. -/
def extract_additional_details_special_instructions (text : String) :
    List (String × Json) :=
  match searchCap1 adPat text with
  | some raw =>
      [("Additional details/Special Instructions", Json.str (naIfEmpty (pyStrip raw)))]
  | none => [("Additional details/Special Instructions", Json.str "N/A")]

/-- `RuleBasedParser.is_valid_attachment` (lines 756-759). -/
def is_valid_attachment (attachment : String) : Bool :=
  [".pdf", ".docx", ".xlsx", ".zip", ".png", ".jpg"].any (fun ext =>
    let l := lowerL attachment.data
    decide (ext.data.length ≤ l.length) &&
    decide (l.drop (l.length - ext.data.length) = ext.data))

/-- `RuleBasedParser.is_valid_url` (lines 761-775) compiles its URL pattern
at every call.  The pattern closes the non-capturing group opened before the
IP alternative at `...22[0-3])\.` a second time after `...25[0-5])`, leaving
the closing parenthesis after the domain alternative unmatched, so
`re.compile` raises `re.error("unbalanced parenthesis")` on every call and
the method never returns. -/
def is_valid_url (_attachment : String) : Except String Bool :=
  Except.error "re.error: unbalanced parenthesis at position 208"

/-- `re.split(r",|;|\n|•|–|-", s)` delimiters. -/
def attachDelimC (c : Char) : Bool :=
  c == ',' || c == ';' || c == '\n' || c == '•' || c == '–' || c == '-'

/-- `re.split` on single-character delimiters (keeps empty pieces). -/
def splitDelimsAux : List Char → List Char → List (List Char)
  | [], acc => [acc.reverse]
  | c :: rest, acc =>
      if attachDelimC c then acc.reverse :: splitDelimsAux rest []
      else splitDelimsAux rest (c :: acc)

/-- Token split of the attachments blob. -/
def splitDelims (s : String) : List String :=
  (splitDelimsAux s.data []).map String.mk

/-- The filtering comprehension of `extract_attachments` (lines 737-745),
evaluated left to right: empty tokens are dropped without further checks;
a token with a valid extension is kept; otherwise `is_valid_url` is
consulted — which raises. -/
def validateTokens : List String → Except String (List String)
  | [] => Except.ok []
  | att :: rest =>
      let t := pyStrip att
      if t = "" then validateTokens rest
      else if is_valid_attachment t then
        (validateTokens rest).map (fun l => t :: l)
      else
        match is_valid_url t with
        | Except.ok true => (validateTokens rest).map (fun l => t :: l)
        | Except.ok false => validateTokens rest
        | Except.error e => Except.error e

/-- `RuleBasedParser.extract_attachments` (lines 717-754); the error case
is the `re.error` escaping from `is_valid_url`. -/
def extract_attachments (text : String) : Except String (List (String × Json)) :=
  match searchCap1 attachPat text with
  | some raw =>
      let attachments := pyStrip raw
      if lowerS attachments ≠ "n/a" ∧ attachments ≠ "" then
        match validateTokens (splitDelims attachments) with
        | Except.ok kept => Except.ok [("Attachment(s)", Json.arr (kept.map Json.str))]
        | Except.error e => Except.error e
      else Except.ok [("Attachment(s)", Json.arr [])]
  | none => Except.ok [("Attachment(s)", Json.arr [])]

/-- `RuleBasedParser.default_section_data` (lines 374-432); the comparison
against the canonical section names is case-sensitive, so a header matched
in a different casing falls through to the empty dictionary. -/
def default_section_data (sectionName : String) : List (String × Json) :=
  if sectionName = "Requesting Party" then
    [("Requesting Party", Json.obj
      [("Insurance Company", Json.str "N/A"), ("Handler", Json.str "N/A"),
       ("Carrier Claim Number", Json.str "N/A")])]
  else if sectionName = "Insured Information" then
    [("Insured Information", Json.obj
      [("Name", Json.str "N/A"), ("Contact #", Json.str "N/A"),
       ("Loss Address", Json.str "N/A"), ("Public Adjuster", Json.str "N/A"),
       ("Owner or Tenant", Json.str "N/A")])]
  else if sectionName = "Adjuster Information" then
    [("Adjuster Information", Json.obj
      [("Adjuster Name", Json.str "N/A"), ("Adjuster Phone Number", Json.str "N/A"),
       ("Adjuster Email", Json.str "N/A"), ("Job Title", Json.str "N/A"),
       ("Address", Json.str "N/A"), ("Policy #", Json.str "N/A")])]
  else if sectionName = "Assignment Information" then
    [("Assignment Information", Json.obj
      [("Date of Loss/Occurrence", Json.str "N/A"), ("Cause of loss", Json.str "N/A"),
       ("Facts of Loss", Json.str "N/A"), ("Loss Description", Json.str "N/A"),
       ("Residence Occupied During Loss", Json.str "N/A"),
       ("Was Someone home at time of damage", Json.str "N/A"),
       ("Repair or Mitigation Progress", Json.str "N/A"), ("Type", Json.str "N/A"),
       ("Inspection type", Json.str "N/A")])]
  else if sectionName = "Assignment Type" then
    [("Assignment Type", Json.obj
      [("Wind", Json.bool false), ("Structural", Json.bool false),
       ("Hail", Json.bool false), ("Foundation", Json.bool false),
       ("Other", Json.obj [("Checked", Json.bool false), ("Details", Json.str "N/A")])])]
  else if sectionName = "Additional details/Special Instructions" then
    [("Additional details/Special Instructions", Json.str "N/A")]
  else if sectionName = "Attachment(s)" then
    [("Attachment(s)", Json.arr [])]
  else []

/-- The per-section dispatch of `RuleBasedParser.parse` (lines 289-302):
`getattr(self, "extract_" + snake_case(section), None)`, the per-section
`except` (lines 295-297) that degrades an extractor exception to
`default_section_data`, and the missing-method default.  Among the
extractors, only `extract_attachments` can raise (the `re.error` from
`is_valid_url`); `extract_additional_details_special_instructions` is never
found because `snake_case` yields `additional_detailsspecial_instructions`,
so additional-details sections always take the missing-method default. -/
def sectionDispatch (sectionName content : String) : List (String × Json) :=
  let sc := snake_case sectionName
  if sc = "requesting_party" then extract_requesting_party content
  else if sc = "insured_information" then extract_insured_information content
  else if sc = "adjuster_information" then extract_adjuster_information content
  else if sc = "assignment_information" then extract_assignment_information content
  else if sc = "assignment_type" then extract_assignment_type content
  else if sc = "attachments" then
    (match extract_attachments content with
     | Except.ok data => data
     | Except.error _ => default_section_data sectionName)
  else default_section_data sectionName

/-! ## Schema validation

Embeds `validate_json` and `assignment_schema`
(src/utils/validation.py:6-121): presence of every required key and
primitive type conformance; extra keys are allowed; the `Entities` object
may hold any labels, each mapping to an array of strings. -/

/-- A string-typed property. -/
def fieldIsStr (kvs : List (String × Json)) (k : String) : Bool :=
  match aget kvs k with
  | some (Json.str _) => true
  | _ => false

/-- A boolean-typed property. -/
def fieldIsBool (kvs : List (String × Json)) (k : String) : Bool :=
  match aget kvs k with
  | some (Json.bool _) => true
  | _ => false

/-- A required object-typed property whose listed fields are all strings. -/
def strObjField (d : List (String × Json)) (k : String) (fields : List String) : Bool :=
  match aget d k with
  | some (Json.obj sub) => fields.all (fun f => fieldIsStr sub f)
  | _ => false

/-- A string JSON value. -/
def isStrJ : Json → Bool
  | Json.str _ => true
  | _ => false

/-- `validate_json(parsed_data)` against `assignment_schema`, as a Boolean
(the validator's message is immaterial to control flow). -/
def validate_json (record : Json) : Bool :=
  match record with
  | Json.obj d =>
      strObjField d "Requesting Party"
        ["Insurance Company", "Handler", "Carrier Claim Number"] &&
      strObjField d "Insured Information"
        ["Name", "Contact #", "Loss Address", "Public Adjuster", "Owner or Tenant"] &&
      strObjField d "Adjuster Information"
        ["Adjuster Name", "Adjuster Phone Number", "Adjuster Email", "Job Title",
         "Address", "Policy #"] &&
      strObjField d "Assignment Information"
        ["Date of Loss/Occurrence", "Cause of loss", "Facts of Loss",
         "Loss Description", "Residence Occupied During Loss",
         "Was Someone home at time of damage", "Repair or Mitigation Progress",
         "Type", "Inspection type"] &&
      (match aget d "Assignment Type" with
       | some (Json.obj atd) =>
           (["Wind", "Structural", "Hail", "Foundation"].all (fun f => fieldIsBool atd f)) &&
           (match aget atd "Other" with
            | some (Json.obj od) => fieldIsBool od "Checked" && fieldIsStr od "Details"
            | _ => false)
       | _ => false) &&
      fieldIsStr d "Additional details/Special Instructions" &&
      (match aget d "Attachment(s)" with
       | some (Json.arr xs) => xs.all isStrJ
       | _ => false) &&
      (match aget d "Entities" with
       | some (Json.obj ents) =>
           ents.all (fun kv =>
             match kv.snd with
             | Json.arr xs => xs.all isStrJ
             | _ => false)
       | _ => false)
  | _ => false

/-! ## The parse pipeline -/

/-- The validation gate at the end of `RuleBasedParser.parse`
(lines 312-320): a record rejected by `validate_json` makes `parse` raise
`ValueError` — the declared `fallback_to_llm_parser` (lines 807-821) is
never invoked. -/
def validationGate (record : Json) : Except String Json :=
  if validate_json record then Except.ok record
  else Except.error "JSON Schema Validation Error"

/-- `RuleBasedParser.parse` (lines 272-320), parameterized by the spaCy
entity extractor (an external collaborator of type
`text -> {label: [strings]}`). -/
def ruleBasedParse (extractEntities : String → List (String × List String))
    (email_content : String) : Except String Json :=
  let sections := split_into_sections email_content
  let extracted := sections.foldl
    (fun acc kv => dictUpdate acc (sectionDispatch kv.fst kv.snd)) []
  let extracted :=
    if (aget extracted "Additional details/Special Instructions").isSome then extracted
    else dictUpdate extracted
      (default_section_data "Additional details/Special Instructions")
  let extracted := aset extracted "Entities"
    (Json.obj ((extractEntities email_content).map (fun le =>
      (le.fst, Json.arr (le.snd.map Json.str)))))
  validationGate (Json.obj extracted)

/-- Property lookup on a JSON object. -/
def getField : Json → String → Option Json
  | Json.obj kvs, k => aget kvs k
  | _, _ => none

/-- Two-level lookup: section object, then field. -/
def getField2 (j : Json) (k1 k2 : String) : Option Json :=
  match getField j k1 with
  | some sub => getField sub k2
  | none => none

/-- Field lookup on a parse result. -/
def resField (res : Except String Json) (k : String) : Option Json :=
  match res with
  | Except.ok r => getField r k
  | Except.error _ => none

/-- Section-field lookup on a parse result. -/
def resField2 (res : Except String Json) (k1 k2 : String) : Option Json :=
  match res with
  | Except.ok r => getField2 r k1 k2
  | Except.error _ => none

example :
    resField2 (ruleBasedParse (fun _ => [])
        "Adjuster Information\nAdjuster Phone Number: 5551234567\n")
      "Adjuster Information" "Adjuster Phone Number" =
    some (Json.str "(555) 123-4567") := rfl

example :
    resField2 (ruleBasedParse (fun _ => [])
        "Assignment Type\nWind [X]\nHail [ ]\n")
      "Assignment Type" "Wind" = some (Json.bool true) := rfl

example :
    resField2 (ruleBasedParse (fun _ => [])
        "Assignment Type\nWind [X]\nHail [ ]\n")
      "Assignment Type" "Hail" = some (Json.bool false) := rfl

example :
    resField2 (ruleBasedParse (fun _ => [])
        "Assignment Information\nDate of Loss/Occurrence: 03/14/2023\n")
      "Assignment Information" "Date of Loss/Occurrence" =
    some (Json.str "2023-03-14") := rfl

example :
    resField (ruleBasedParse (fun _ => []) "hello world, no sections here")
      "Attachment(s)" = some (Json.arr []) := rfl

example :
    resField2 (ruleBasedParse (fun _ => [])
        "Assignment Information\nResidence Occupied During Loss: maybe\n")
      "Assignment Information" "Residence Occupied During Loss" =
    some (Json.str "N/A") := rfl

/-! ## The fuzzy-fill post-processor

Embeds `HybridParser.fuzzy_match_fields` (hybrid_parser.py:972-999) with its
default configuration (`fuzzy_match_fields` and `known_values`,
hybrid_parser.py:340-376).  `fuzz.partial_ratio` is an external similarity
collaborator, passed in as a parameter `sim` scoring lower-cased candidate
against lower-cased text on a 0-100 scale.  Python's
`max(xs, key=k, default=None)` keeps the earliest maximum. -/

/-- Default `fuzzy_match_fields` configuration. -/
def fuzzy_match_fields_config : List String :=
  ["Insurance Company", "Handler", "Adjuster Name", "Policy #"]

/-- Default `known_values` configuration. -/
def known_values : List (String × List String) :=
  [("Insurance Company", ["State Farm", "Allstate", "Geico", "Progressive", "Nationwide"]),
   ("Handler", ["John Doe", "Jane Smith", "Emily Davis"]),
   ("Adjuster Name", ["Michael Brown", "Sarah Johnson", "David Wilson"]),
   ("Policy #", ["ABC123", "XYZ789", "DEF456"])]

/-- `known_values.get(field, [])`. -/
def knownValuesFor (kvs : List (String × List String)) (k : String) : List String :=
  match kvs.find? (fun kv => kv.fst == k) with
  | some kv => kv.snd
  | none => []

/-- `max(xs, key=score, default=None)`: the earliest entry with the
highest score. -/
def pyMax (score : String → Nat) : List String → Option String
  | [] => none
  | x :: xs => some (xs.foldl (fun best y => if score y > score best then y else best) x)

/-- One iteration of the field loop of `fuzzy_match_fields`: fields whose
current value is not the string `"N/A"` (including absent fields, where
`dict.get` yields `None`) are left alone; otherwise the best-scoring known
value replaces `"N/A"` exactly when it is truthy (non-empty) and scores
strictly above 80. -/
def fuzzyStep (sim : String → String → Nat) (text : String)
    (pd : List (String × Json)) (field : String) : List (String × Json) :=
  match aget pd field with
  | some (Json.str v) =>
      if v = "N/A" then
        match pyMax (fun x => sim (lowerS x) (lowerS text)) (knownValuesFor known_values field) with
        | some best =>
            if best ≠ "" ∧ sim (lowerS best) (lowerS text) > 80 then
              aset pd field (Json.str best)
            else pd
        | none => pd
      else pd
  | _ => pd

/-- `HybridParser.fuzzy_match_fields`. -/
def fuzzy_match_fields (sim : String → String → Nat) (text : String)
    (parsed_data : List (String × Json)) : List (String × Json) :=
  fuzzy_match_fields_config.foldl (fuzzyStep sim text) parsed_data

/-! ## Parser registry and `EmailParser.parse_email`

Embeds `ParserOption` (parser_options.py:5-17), `ParserRegistry`
(parser_registry.py:8-50, with the two module-level registrations) and
`EmailParser.parse_email` (email_parsing.py:15-31). -/

/-- The `ParserOption` enumeration. -/
inductive ParserOption where
  | rule_based : ParserOption
  | local_llm : ParserOption
  | llm : ParserOption
  | hybrid_parser_option : ParserOption
deriving DecidableEq

/-- A Python value passed to `ParserRegistry.get_parser`: either a
`ParserOption` member or a plain string (as `EmailParser.parse_email`
passes). -/
inductive RegistryArg where
  | enumMember : ParserOption → RegistryArg
  | pyStr : String → RegistryArg

/-- The error kinds `get_parser` can raise. -/
inductive RegistryError where
  | typeError : String → RegistryError
  | valueError : String → RegistryError
deriving DecidableEq

/-- `ParserRegistry._registry` after the two module-level
`register_parser` calls (parser_registry.py:49-50); parser classes are
identified by name. -/
def registryParsers : List (ParserOption × String) :=
  [(ParserOption.rule_based, "RuleBasedParser"),
   (ParserOption.local_llm, "LocalLLMParser")]

/-- `ParserRegistry.get_parser` (parser_registry.py:30-42), embedded as
`get_parser_fn`: any argument
that is not a `ParserOption` instance raises `TypeError`; an unregistered
option raises `ValueError`; otherwise the registered class is returned. -/
def get_parser_fn : RegistryArg → Except RegistryError String
  | RegistryArg.enumMember o =>
      (match registryParsers.find? (fun kv => kv.fst = o) with
       | some kv => Except.ok kv.snd
       | none => Except.error (RegistryError.valueError "Parser not registered for option"))
  | RegistryArg.pyStr _ =>
      Except.error (RegistryError.typeError
        "Parser option must be an instance of ParserOption Enum.")

/-- `EmailParser.parse_email` (email_parsing.py:15-31): the string
`parser_option` argument is forwarded directly to
`ParserRegistry.get_parser`; the rest of the method (instantiate the
returned class, parse, re-validate) is abstracted as `runStrategy`. -/
def parse_email (runStrategy : String → String → Except RegistryError Json)
    (email_content parser_option : String) : Except RegistryError Json :=
  match get_parser_fn (RegistryArg.pyStr parser_option) with
  | Except.error e => Except.error e
  | Except.ok cls => runStrategy cls email_content

/-! ## Helper lemmas about characters -/

/-- `Char.ofNat` of a small scalar keeps its value. -/
theorem toNat_ofNat_small (n : Nat) (h : n < 55296) : (Char.ofNat n).toNat = n := by
  have hv : n.isValidChar := Or.inl h
  rw [Char.ofNat, dif_pos hv]
  rfl

/-- `Char.toLower` either fixes a character or shifts an upper-case basic
latin letter by 32. -/
theorem lowerC_shift (c : Char) :
    lowerC c = c ∨
    (65 ≤ c.toNat ∧ c.toNat ≤ 90 ∧ lowerC c = Char.ofNat (c.toNat + 32)) := by
  unfold lowerC Char.toLower
  by_cases h : c.toNat ≥ 65 ∧ c.toNat ≤ 90
  · exact Or.inr ⟨h.1, h.2, by rw [if_pos h]⟩
  · exact Or.inl (by rw [if_neg h])

/-- Characters whose lower-casing is a lower-case letter `l` are `l` itself
or its upper-case counterpart (code point `l - 32`). -/
theorem eq_of_lowerC_letter (c l u : Char)
    (hu : u.toNat + 32 = l.toNat) (h : lowerC c = l) : c = l ∨ c = u := by
  rcases lowerC_shift c with h0 | ⟨h1, h2, h3⟩
  · rw [h0] at h
    exact Or.inl h
  · right
    rw [h3] at h
    have h4 : c.toNat + 32 = l.toNat := by
      have h5 := congrArg Char.toNat h
      rwa [toNat_ofNat_small (c.toNat + 32) (by omega)] at h5
    have h6 : c.toNat = u.toNat := by omega
    have h7 : Char.ofNat c.toNat = Char.ofNat u.toNat := by rw [h6]
    rwa [Char.ofNat_toNat, Char.ofNat_toNat] at h7

/-- Characters whose lower-casing is a non-letter (code point outside both
the upper-case and the shifted lower-case letter ranges) are fixed. -/
theorem eq_of_lowerC_nonletter (c t : Char) (ht : t.toNat < 97 ∨ 122 < t.toNat)
    (h : lowerC c = t) : c = t := by
  rcases lowerC_shift c with h0 | ⟨h1, h2, h3⟩
  · rwa [h0] at h
  · exfalso
    rw [h3] at h
    have h4 := congrArg Char.toNat h
    rw [toNat_ofNat_small (c.toNat + 32) (by omega)] at h4
    omega

/-! ## C10: the registry's argument type check -/

/-- C10: every `get_parser` argument that is not a `ParserOption` member —
in particular every plain string — raises `TypeError`, and
`EmailParser.parse_email`, which forwards its string `parser_option`
straight to `get_parser`, therefore raises `TypeError` on every call,
never reaching a registered parser (for any continuation `runStrategy`). -/
theorem C10_get_parser_type_error :
    (∀ arg : RegistryArg, (∀ o : ParserOption, arg ≠ RegistryArg.enumMember o) →
      get_parser_fn arg = Except.error (RegistryError.typeError
        "Parser option must be an instance of ParserOption Enum.")) ∧
    (∀ (runStrategy : String → String → Except RegistryError Json)
       (email_content parser_option : String),
      parse_email runStrategy email_content parser_option =
        Except.error (RegistryError.typeError
          "Parser option must be an instance of ParserOption Enum.")) := by
  constructor
  · intro arg h
    cases arg with
    | enumMember o => exact absurd rfl (h o)
    | pyStr s => rfl
  · intro runStrategy email_content parser_option
    rfl

/-- Witness for C10 at the concrete argument `"rule_based"`. -/
theorem C10_get_parser_type_error_witness :
    get_parser_fn (RegistryArg.pyStr "rule_based") =
      Except.error (RegistryError.typeError
        "Parser option must be an instance of ParserOption Enum.") :=
  C10_get_parser_type_error.1 (RegistryArg.pyStr "rule_based")
    (fun _o h => RegistryArg.noConfusion h)

/-! ## C2: validation failure raises instead of falling back

`RuleBasedParser.parse` ends in the gate of lines 312-320: a record
rejected by `validate_json` makes it raise
`ValueError("JSON Schema Validation Error: ...")`.  The method
`fallback_to_llm_parser` (lines 807-821), documented as the "fallback
mechanism to use LocalLLMParser if rule-based parsing fails", is never
called anywhere: on validation failure the error propagates to the caller
and no fallback result is returned. -/

/-- C2: whenever the assembled record fails schema validation, the parse
tail raises (returns the validation error) rather than returning any
fallback strategy's result. -/
theorem C2_validation_failure_raises (record : Json)
    (h : validate_json record = false) :
    validationGate record = Except.error "JSON Schema Validation Error" := by
  simp [validationGate, h]

/-- Witness for C2 at the concrete schema-invalid record `{}`. -/
theorem C2_validation_failure_raises_witness :
    validate_json (Json.obj []) = false ∧
    validationGate (Json.obj []) = Except.error "JSON Schema Validation Error" :=
  ⟨rfl, C2_validation_failure_raises (Json.obj []) rfl⟩

/-! ## C3: phone normalization -/

/-- C3: `format_phone_number` strips all non-digit characters; exactly 10
remaining digits yield `(XXX) XXX-XXXX`; exactly 11 remaining digits led
by `1` yield `+1 (XXX) XXX-XXXX`; any other digit count returns the input
unmodified.  In the pipeline, an email whose Adjuster Information section
contains `Adjuster Phone Number: 5551234567` yields the field value
`(555) 123-4567`. -/
theorem C3_phone_normalization :
    (∀ s : String,
      ((s.data.filter isDigitC).length = 10 →
        format_phone_number s =
          "(" ++ String.mk ((s.data.filter isDigitC).take 3) ++ ") " ++
          String.mk (((s.data.filter isDigitC).drop 3).take 3) ++ "-" ++
          String.mk ((s.data.filter isDigitC).drop 6)) ∧
      ((s.data.filter isDigitC).length = 11 ∧ (s.data.filter isDigitC).take 1 = ['1'] →
        format_phone_number s =
          "+1 (" ++ String.mk (((s.data.filter isDigitC).drop 1).take 3) ++ ") " ++
          String.mk (((s.data.filter isDigitC).drop 4).take 3) ++ "-" ++
          String.mk ((s.data.filter isDigitC).drop 7)) ∧
      ((s.data.filter isDigitC).length ≠ 10 →
        ¬((s.data.filter isDigitC).length = 11 ∧ (s.data.filter isDigitC).take 1 = ['1']) →
        format_phone_number s = s)) ∧
    resField2 (ruleBasedParse (fun _ => [])
        "Adjuster Information\nAdjuster Phone Number: 5551234567\n")
      "Adjuster Information" "Adjuster Phone Number" =
      some (Json.str "(555) 123-4567") := by
  constructor
  · intro s
    refine ⟨fun h10 => ?_, fun h11 => ?_, fun h10 h11 => ?_⟩
    · simp only [format_phone_number]
      rw [if_pos h10]
    · have h10 : ¬(s.data.filter isDigitC).length = 10 := by
        rw [h11.1]; omega
      simp only [format_phone_number]
      rw [if_neg h10, if_pos h11]
    · simp only [format_phone_number]
      rw [if_neg h10, if_neg h11]
  · rfl

/-- Witness for C3: the three digit-count branches at concrete inputs. -/
theorem C3_phone_normalization_witness :
    format_phone_number "555-123-4567" = "(555) 123-4567" ∧
    format_phone_number "+1 555 123 4567" = "+1 (555) 123-4567" ∧
    format_phone_number "12345" = "12345" := by
  refine ⟨?_, ?_, ?_⟩
  · exact ((C3_phone_normalization.1 "555-123-4567").1 (by decide))
  · exact ((C3_phone_normalization.1 "+1 555 123 4567").2.1 (by decide))
  · exact ((C3_phone_normalization.1 "12345").2.2 (by decide) (by decide))

/-! ## C4: date normalization -/

/-- The first successful parse over the configured format list. -/
def firstDateSuccess (s : String) : Option Tm :=
  date_formats.findSome? (fun f => strptimeRun f s)

/-- The format loop tries each format in order and returns the first
success, else the input. -/
theorem parseDateGo_findSome (fs : List FmtP) (s : String) :
    parseDateGo fs s =
      match fs.findSome? (fun f => strptimeRun f s) with
      | some t => renderYmd t.year t.month t.day
      | none => s := by
  induction fs with
  | nil => rfl
  | cons f fs ih =>
      cases h : strptimeRun f s with
      | some t => simp [parseDateGo, List.findSome?_cons, h]
      | none => simp [parseDateGo, List.findSome?_cons, h, ih]

/-- C4: `parse_date` tries each configured layout in order and renders the
first successful parse as `YYYY-MM-DD`; when no layout parses it returns
the input unchanged (it is a total function — never raises); in particular
`03/14/2023` normalizes to `2023-03-14`. -/
theorem C4_date_normalization :
    (∀ (s : String) (t : Tm), firstDateSuccess s = some t →
        parse_date s = renderYmd t.year t.month t.day) ∧
    (∀ s : String, firstDateSuccess s = none → parse_date s = s) ∧
    parse_date "03/14/2023" = "2023-03-14" := by
  refine ⟨?_, ?_, rfl⟩
  · intro s t h
    rw [parse_date, parseDateGo_findSome, firstDateSuccess] at *
    rw [h]
  · intro s h
    rw [parse_date, parseDateGo_findSome, firstDateSuccess] at *
    rw [h]

/-- Witness for C4: both branches at concrete inputs. -/
theorem C4_date_normalization_witness :
    firstDateSuccess "14/03/2023" =
      some { year := 2023, month := 3, day := 14, hour := 0, minute := 0, second := 0 } ∧
    parse_date "14/03/2023" = "2023-03-14" ∧
    firstDateSuccess "not a date" = none ∧
    parse_date "not a date" = "not a date" := by
  refine ⟨rfl, ?_, rfl, ?_⟩
  · exact C4_date_normalization.1 "14/03/2023"
      { year := 2023, month := 3, day := 14, hour := 0, minute := 0, second := 0 } rfl
  · exact C4_date_normalization.2.1 "not a date" rfl

/-! ## C6: boolean-from-text normalization -/

/-- `pyCapitalize` on a cons-shaped string. -/
theorem pyCapitalize_cons (v : String) (a : Char) (rest : List Char)
    (h : v.data = a :: rest) : pyCapitalize v = String.mk (a.toUpper :: lowerL rest) := by
  unfold pyCapitalize
  rw [h]

/-- A string whose lower-casing is `"yes"` capitalizes to `"Yes"`. -/
theorem pyCapitalize_of_lower_yes (v : String) (h : lowerS v = "yes") :
    pyCapitalize v = "Yes" := by
  have hd : lowerL v.data = ['y', 'e', 's'] := congrArg String.data h
  cases hv : v.data with
  | nil => rw [hv] at hd; simp [lowerL] at hd
  | cons a tail =>
      cases tail with
      | nil => rw [hv] at hd; simp [lowerL] at hd
      | cons b tail2 =>
          cases tail2 with
          | nil => rw [hv] at hd; simp [lowerL] at hd
          | cons c tail3 =>
              cases tail3 with
              | cons d tail4 => rw [hv] at hd; simp [lowerL] at hd
              | nil =>
                  rw [hv] at hd
                  simp only [lowerL, List.map_cons, List.map_nil, List.cons.injEq,
                    and_true] at hd
                  obtain ⟨h1, h2, h3⟩ := hd
                  rw [pyCapitalize_cons v a [b, c] hv]
                  rcases eq_of_lowerC_letter a 'y' 'Y' (by decide) h1 with rfl | rfl <;>
                    simp [lowerL, h2, h3]

/-- A string whose lower-casing is `"no"` capitalizes to `"No"`. -/
theorem pyCapitalize_of_lower_no (v : String) (h : lowerS v = "no") :
    pyCapitalize v = "No" := by
  have hd : lowerL v.data = ['n', 'o'] := congrArg String.data h
  cases hv : v.data with
  | nil => rw [hv] at hd; simp [lowerL] at hd
  | cons a tail =>
      cases tail with
      | nil => rw [hv] at hd; simp [lowerL] at hd
      | cons b tail2 =>
          cases tail2 with
          | cons c tail3 => rw [hv] at hd; simp [lowerL] at hd
          | nil =>
              rw [hv] at hd
              simp only [lowerL, List.map_cons, List.map_nil, List.cons.injEq,
                and_true] at hd
              obtain ⟨h1, h2⟩ := hd
              rw [pyCapitalize_cons v a [b] hv]
              rcases eq_of_lowerC_letter a 'n' 'N' (by decide) h1 with rfl | rfl <;>
                simp [lowerL, h2]

/-- The yes/no normalization only ever produces `"Yes"`, `"No"` or `"N/A"`. -/
theorem yesNoOrNA_range (v : String) :
    yesNoOrNA v = "Yes" ∨ yesNoOrNA v = "No" ∨ yesNoOrNA v = "N/A" := by
  unfold yesNoOrNA capitalizeIfIn
  by_cases h : lowerS v = "yes"
  · left
    rw [if_pos (by simp [h]), pyCapitalize_of_lower_yes v h]
  · by_cases h2 : lowerS v = "no"
    · right; left
      rw [if_pos (by simp [h2]), pyCapitalize_of_lower_no v h2]
    · right; right
      rw [if_neg (by simp [h, h2])]

/-- C6 counterexample: `"true"` is in the configured positive token set,
yet the parsed "Residence Occupied During Loss" value for the input
`Residence Occupied During Loss: true` is the string `"N/A"` — not the
boolean `true` that a membership test against the positive set would give.
The `boolean_values` sets are loaded in `__init__` but never consulted by
any extraction path. -/
theorem C6_counterexample :
    boolean_values_positive.contains "true" = true ∧
    resField2 (ruleBasedParse (fun _ => [])
        "Assignment Information\nResidence Occupied During Loss: true\n")
      "Assignment Information" "Residence Occupied During Loss" =
      some (Json.str "N/A") := ⟨rfl, rfl⟩

/-- The residence-occupied field of the section extractor, reduced to its
match on the primary pattern. -/
theorem resField_reduction (text : String) :
    getField2 (Json.obj (extract_assignment_information text))
      "Assignment Information" "Residence Occupied During Loss" =
    some (Json.str (
      match searchCap1 (reSeqL [RE.lit "Residence Occupied During Loss", ws0,
          RE.lit ":", ws0, RE.grp 1 (RE.alt (RE.lit "Yes") (RE.lit "No"))]) text with
      | some raw =>
          naIfEmpty (aiTransform "Residence Occupied During Loss" (pyStrip raw))
      | none => aiAdditionalBranch "Residence Occupied During Loss" text)) := rfl

/-- The someone-home field of the section extractor, reduced likewise. -/
theorem wasField_reduction (text : String) :
    getField2 (Json.obj (extract_assignment_information text))
      "Assignment Information" "Was Someone home at time of damage" =
    some (Json.str (
      match searchCap1 (reSeqL [RE.lit "Was Someone home at time of damage", ws0,
          RE.lit ":", ws0, RE.grp 1 (RE.alt (RE.lit "Yes") (RE.lit "No"))]) text with
      | some raw =>
          naIfEmpty (aiTransform "Was Someone home at time of damage" (pyStrip raw))
      | none => aiAdditionalBranch "Was Someone home at time of damage" text)) := rfl

/-- C6 amended: the boolean-ish assignment fields are not normalized by the
configured positive/negative token sets; instead the primary pattern only
captures `Yes`/`No` (case-insensitively), and the captured value is
normalized by the hardcoded test `value.capitalize() if value.lower() in
["yes", "no"] else "N/A"` — so the stored value is always one of the
strings `"Yes"`, `"No"`, `"N/A"` (never a boolean); a value outside the
vocabulary, such as `maybe`, yields `"N/A"` without an exception. -/
theorem C6_amended :
    (∀ text : String, ∃ v : String,
        getField2 (Json.obj (extract_assignment_information text))
          "Assignment Information" "Residence Occupied During Loss" =
          some (Json.str v) ∧ (v = "Yes" ∨ v = "No" ∨ v = "N/A")) ∧
    (∀ text : String, ∃ v : String,
        getField2 (Json.obj (extract_assignment_information text))
          "Assignment Information" "Was Someone home at time of damage" =
          some (Json.str v) ∧ (v = "Yes" ∨ v = "No" ∨ v = "N/A")) ∧
    resField2 (ruleBasedParse (fun _ => [])
        "Assignment Information\nResidence Occupied During Loss: maybe\n")
      "Assignment Information" "Residence Occupied During Loss" =
      some (Json.str "N/A") := by
  refine ⟨?_, ?_, rfl⟩
  · intro text
    rw [resField_reduction]
    cases h : searchCap1 (reSeqL [RE.lit "Residence Occupied During Loss", ws0,
        RE.lit ":", ws0, RE.grp 1 (RE.alt (RE.lit "Yes") (RE.lit "No"))]) text with
    | none => exact ⟨"N/A", rfl, Or.inr (Or.inr rfl)⟩
    | some raw =>
        have ht : aiTransform "Residence Occupied During Loss" (pyStrip raw) =
            yesNoOrNA (pyStrip raw) := rfl
        rcases yesNoOrNA_range (pyStrip raw) with hv | hv | hv <;>
          exact ⟨_, rfl, by simp [ht, hv, naIfEmpty]⟩
  · intro text
    rw [wasField_reduction]
    cases h : searchCap1 (reSeqL [RE.lit "Was Someone home at time of damage", ws0,
        RE.lit ":", ws0, RE.grp 1 (RE.alt (RE.lit "Yes") (RE.lit "No"))]) text with
    | none => exact ⟨"N/A", rfl, Or.inr (Or.inr rfl)⟩
    | some raw =>
        have ht : aiTransform "Was Someone home at time of damage" (pyStrip raw) =
            yesNoOrNA (pyStrip raw) := rfl
        rcases yesNoOrNA_range (pyStrip raw) with hv | hv | hv <;>
          exact ⟨_, rfl, by simp [ht, hv, naIfEmpty]⟩

/-! ## C8: the fuzzy-fill post-processor -/

/-- Updating key `k` does not change `find?` for a different key (map branch). -/
theorem find?_map_ne (kvs : List (String × Json)) (k k' : String) (v : Json)
    (h : k' ≠ k) :
    (kvs.map (fun kv => if kv.fst == k then (k, v) else kv)).find?
        (fun kv => kv.fst == k') =
      kvs.find? (fun kv => kv.fst == k') := by
  induction kvs with
  | nil => rfl
  | cons kv rest ih =>
      by_cases hk : kv.fst = k
      · have hg : (if (kv.fst == k) = true then (k, v) else kv) = (k, v) := by simp [hk]
        rw [List.map_cons, hg,
          List.find?_cons_of_neg _ (by simp; exact fun hh => h hh.symm),
          List.find?_cons_of_neg _ (by simp [hk]; exact fun hh => h hh.symm)]
        exact ih
      · have hg : (if (kv.fst == k) = true then (k, v) else kv) = kv := by simp [hk]
        rw [List.map_cons, hg]
        by_cases hx : kv.fst = k'
        · rw [List.find?_cons_of_pos _ (by simp [hx]), List.find?_cons_of_pos _ (by simp [hx])]
        · rw [List.find?_cons_of_neg _ (by simp [hx]), List.find?_cons_of_neg _ (by simp [hx])]
          exact ih

/-- Appending a binding for key `k` does not change `find?` for a
different key. -/
theorem find?_append_ne (kvs : List (String × Json)) (k k' : String) (v : Json)
    (h : k' ≠ k) :
    (kvs ++ [(k, v)]).find? (fun kv => kv.fst == k') =
      kvs.find? (fun kv => kv.fst == k') := by
  induction kvs with
  | nil =>
      simp only [List.nil_append]
      rw [List.find?_cons_of_neg _ (by simp; exact fun hh => h hh.symm)]
  | cons kv rest ih =>
      by_cases hx : kv.fst = k'
      · rw [List.cons_append, List.find?_cons_of_pos _ (by simp [hx]),
          List.find?_cons_of_pos _ (by simp [hx])]
      · rw [List.cons_append, List.find?_cons_of_neg _ (by simp [hx]),
          List.find?_cons_of_neg _ (by simp [hx])]
        exact ih

/-- `dict[k] = v` then `dict.get(k2)` for `k2 ≠ k` is the old lookup. -/
theorem aget_aset_ne (kvs : List (String × Json)) (k k' : String) (v : Json)
    (h : k' ≠ k) : aget (aset kvs k v) k' = aget kvs k' := by
  unfold aset aget
  by_cases he : kvs.any (fun kv => kv.fst == k) = true
  · rw [if_pos he, find?_map_ne kvs k k' v h]
  · rw [if_neg he, find?_append_ne kvs k k' v h]

/-- Updating key `k` makes `find?` at `k` return the new binding (map branch). -/
theorem find?_map_self (kvs : List (String × Json)) (k : String) (v : Json)
    (he : kvs.any (fun kv => kv.fst == k) = true) :
    (kvs.map (fun kv => if kv.fst == k then (k, v) else kv)).find?
        (fun kv => kv.fst == k) = some (k, v) := by
  induction kvs with
  | nil => simp at he
  | cons kv rest ih =>
      by_cases hk : kv.fst = k
      · have hg : (if (kv.fst == k) = true then (k, v) else kv) = (k, v) := by simp [hk]
        rw [List.map_cons, hg, List.find?_cons_of_pos _ (by simp)]
      · have hg : (if (kv.fst == k) = true then (k, v) else kv) = kv := by simp [hk]
        rw [List.map_cons, hg, List.find?_cons_of_neg _ (by simp [hk])]
        apply ih
        simpa [List.any_cons, hk] using he

/-- Appending a binding for a previously absent key makes `find?` at `k`
return it. -/
theorem find?_append_self (kvs : List (String × Json)) (k : String) (v : Json)
    (he : ¬kvs.any (fun kv => kv.fst == k) = true) :
    (kvs ++ [(k, v)]).find? (fun kv => kv.fst == k) = some (k, v) := by
  induction kvs with
  | nil =>
      simp only [List.nil_append]
      rw [List.find?_cons_of_pos _ (by simp)]
  | cons kv rest ih =>
      have hk : ¬kv.fst = k := by
        intro hh
        exact he (by simp [List.any_cons, hh])
      rw [List.cons_append, List.find?_cons_of_neg _ (by simp [hk])]
      apply ih
      intro hh
      exact he (by simp [List.any_cons, hh])

/-- `dict[k] = v` then `dict.get(k)` is the new value. -/
theorem aget_aset_self (kvs : List (String × Json)) (k : String) (v : Json) :
    aget (aset kvs k v) k = some v := by
  unfold aset aget
  by_cases he : kvs.any (fun kv => kv.fst == k) = true
  · rw [if_pos he, find?_map_self kvs k v he]
  · rw [if_neg he, find?_append_self kvs k v he]

/-- One fuzzy step never changes the lookup of a different field. -/
theorem fuzzyStep_other (sim : String → String → Nat) (text : String)
    (pd : List (String × Json)) (field f : String) (h : f ≠ field) :
    aget (fuzzyStep sim text pd field) f = aget pd f := by
  unfold fuzzyStep
  split
  · split
    · split
      · split
        · exact aget_aset_ne pd field f _ h
        · rfl
      · rfl
    · rfl
  · rfl

/-- A fuzzy step at a field whose current value is not the string `"N/A"`
is the identity. -/
theorem fuzzyStep_not_na (sim : String → String → Nat) (text : String)
    (pd : List (String × Json)) (field : String)
    (h : aget pd field ≠ some (Json.str "N/A")) :
    fuzzyStep sim text pd field = pd := by
  unfold fuzzyStep
  split
  · rename_i v heq
    have hv : ¬v = "N/A" := fun hh => h (by rw [heq, hh])
    rw [if_neg hv]
  · rfl

/-- A fuzzy step at an `"N/A"`-valued field updates that field's lookup to
the best known value exactly when it is truthy and scores above 80. -/
theorem fuzzyStep_na_lookup (sim : String → String → Nat) (text : String)
    (pd : List (String × Json)) (f : String)
    (hna : aget pd f = some (Json.str "N/A")) :
    aget (fuzzyStep sim text pd f) f =
      match pyMax (fun x => sim (lowerS x) (lowerS text))
          (knownValuesFor known_values f) with
      | some best =>
          if best ≠ "" ∧ sim (lowerS best) (lowerS text) > 80 then some (Json.str best)
          else some (Json.str "N/A")
      | none => some (Json.str "N/A") := by
  unfold fuzzyStep
  simp only [hna, if_true]
  split
  · split
    · exact aget_aset_self pd f (Json.str _)
    · exact hna
  · exact hna

/-- Folding fuzzy steps preserves the lookup of a field that is not
currently `"N/A"`. -/
theorem fuzzyFold_preserve_not_na (sim : String → String → Nat) (text : String)
    (fields : List String) (pd : List (String × Json)) (f : String)
    (h : aget pd f ≠ some (Json.str "N/A")) :
    aget (fields.foldl (fuzzyStep sim text) pd) f = aget pd f := by
  induction fields generalizing pd with
  | nil => rfl
  | cons fld rest ih =>
      rw [List.foldl_cons]
      by_cases hf : f = fld
      · subst hf
        rw [fuzzyStep_not_na sim text pd f h]
        exact ih pd h
      · have hstep := fuzzyStep_other sim text pd fld f hf
        have h2 : aget (fuzzyStep sim text pd fld) f ≠ some (Json.str "N/A") := by
          rw [hstep]; exact h
        rw [ih _ h2, hstep]

/-- Folding fuzzy steps over fields not containing `f` preserves `f`. -/
theorem fuzzyFold_preserve_notmem (sim : String → String → Nat) (text : String)
    (fields : List String) (pd : List (String × Json)) (f : String)
    (h : f ∉ fields) :
    aget (fields.foldl (fuzzyStep sim text) pd) f = aget pd f := by
  induction fields generalizing pd with
  | nil => rfl
  | cons fld rest ih =>
      rw [List.foldl_cons]
      have hf : f ≠ fld := fun hh => h (hh ▸ List.mem_cons_self _ _)
      have hrest : f ∉ rest := fun hh => h (List.mem_cons_of_mem _ hh)
      rw [ih _ hrest, fuzzyStep_other sim text pd fld f hf]

/-- Folding fuzzy steps over a duplicate-free field list containing `f`,
starting from a record where `f` is `"N/A"`, yields exactly the
single-step update for `f`. -/
theorem fuzzyFold_replace (sim : String → String → Nat) (text : String)
    (fields : List String) (pd : List (String × Json)) (f : String)
    (hmem : f ∈ fields) (hnodup : fields.Nodup)
    (hna : aget pd f = some (Json.str "N/A")) :
    aget (fields.foldl (fuzzyStep sim text) pd) f =
      match pyMax (fun x => sim (lowerS x) (lowerS text))
          (knownValuesFor known_values f) with
      | some best =>
          if best ≠ "" ∧ sim (lowerS best) (lowerS text) > 80 then some (Json.str best)
          else some (Json.str "N/A")
      | none => some (Json.str "N/A") := by
  induction fields generalizing pd with
  | nil => exact absurd hmem (List.not_mem_nil f)
  | cons fld rest ih =>
      rw [List.foldl_cons]
      by_cases hf : f = fld
      · subst hf
        have hrest : f ∉ rest := (List.nodup_cons.mp hnodup).1
        rw [fuzzyFold_preserve_notmem sim text rest _ f hrest]
        exact fuzzyStep_na_lookup sim text pd f hna
      · have hmem2 : f ∈ rest := by
          rcases List.mem_cons.mp hmem with hh | hh
          · exact absurd hh hf
          · exact hh
        have hna2 : aget (fuzzyStep sim text pd fld) f = some (Json.str "N/A") := by
          rw [fuzzyStep_other sim text pd fld f hf]; exact hna
        exact ih _ hmem2 (List.nodup_cons.mp hnodup).2 hna2

/-- The fold of Python `max(xs, key=score)` stays within `x :: xs`. -/
theorem foldl_max_mem (score : String → Nat) (xs : List String) (x : String) :
    xs.foldl (fun best y => if score y > score best then y else best) x ∈ x :: xs := by
  induction xs generalizing x with
  | nil => simp
  | cons z zs ih =>
      rw [List.foldl_cons]
      have ih2 := ih (if score z > score x then z else x)
      rcases List.mem_cons.mp ih2 with h | h
      · rw [h]
        by_cases hc : score z > score x
        · rw [if_pos hc]
          exact List.mem_cons_of_mem _ (List.mem_cons_self _ _)
        · rw [if_neg hc]
          exact List.mem_cons_self _ _
      · exact List.mem_cons_of_mem _ (List.mem_cons_of_mem _ h)

/-- The fold of Python `max(xs, key=score)` dominates every element. -/
theorem foldl_max_ge (score : String → Nat) (xs : List String) (x : String) :
    ∀ y ∈ x :: xs,
      score y ≤ score (xs.foldl (fun best y => if score y > score best then y else best) x) := by
  induction xs generalizing x with
  | nil =>
      intro y hy
      rcases List.mem_cons.mp hy with rfl | hy2
      · exact Nat.le_refl _
      · exact absurd hy2 (List.not_mem_nil y)
  | cons z zs ih =>
      intro y hy
      rw [List.foldl_cons]
      have hstep : score x ≤ score (if score z > score x then z else x) := by
        by_cases hc : score z > score x
        · rw [if_pos hc]; omega
        · rw [if_neg hc]
      have hstepz : score z ≤ score (if score z > score x then z else x) := by
        by_cases hc : score z > score x
        · rw [if_pos hc]
        · rw [if_neg hc]; omega
      rcases List.mem_cons.mp hy with rfl | hy2
      · exact le_trans hstep (ih _ _ (List.mem_cons_self _ _))
      rcases List.mem_cons.mp hy2 with rfl | hy3
      · exact le_trans hstepz (ih _ _ (List.mem_cons_self _ _))
      · exact ih _ y (List.mem_cons_of_mem _ hy3)

/-- C8: the fuzzy-fill post-processor modifies only configured fields whose
current value is the string `"N/A"`; every other field's lookup is
unchanged; an `"N/A"` field is replaced exactly by the earliest
highest-scoring `known_values` entry, and only when it is non-empty and its
score strictly exceeds 80 — otherwise the field stays `"N/A"`; and
`pyMax` indeed returns a maximal element of the candidate list. -/
theorem C8_fuzzy_fill :
    (∀ (sim : String → String → Nat) (text : String) (pd : List (String × Json))
       (f : String), aget pd f ≠ some (Json.str "N/A") →
        aget (fuzzy_match_fields sim text pd) f = aget pd f) ∧
    (∀ (sim : String → String → Nat) (text : String) (pd : List (String × Json))
       (f : String), f ∉ fuzzy_match_fields_config →
        aget (fuzzy_match_fields sim text pd) f = aget pd f) ∧
    (∀ (sim : String → String → Nat) (text : String) (pd : List (String × Json))
       (f : String), f ∈ fuzzy_match_fields_config →
        aget pd f = some (Json.str "N/A") →
        aget (fuzzy_match_fields sim text pd) f =
          match pyMax (fun x => sim (lowerS x) (lowerS text))
              (knownValuesFor known_values f) with
          | some best =>
              if best ≠ "" ∧ sim (lowerS best) (lowerS text) > 80 then
                some (Json.str best)
              else some (Json.str "N/A")
          | none => some (Json.str "N/A")) ∧
    (∀ (score : String → Nat) (xs : List String) (b : String),
        pyMax score xs = some b → b ∈ xs ∧ ∀ y ∈ xs, score y ≤ score b) := by
  refine ⟨?_, ?_, ?_, ?_⟩
  · intro sim text pd f h
    exact fuzzyFold_preserve_not_na sim text fuzzy_match_fields_config pd f h
  · intro sim text pd f h
    exact fuzzyFold_preserve_notmem sim text fuzzy_match_fields_config pd f h
  · intro sim text pd f hmem hna
    exact fuzzyFold_replace sim text fuzzy_match_fields_config pd f hmem (by decide) hna
  · intro score xs b h
    cases xs with
    | nil => exact absurd h (by simp [pyMax])
    | cons x rest =>
        have hb : rest.foldl (fun best y => if score y > score best then y else best) x = b := by
          simpa [pyMax] using h
        constructor
        · rw [← hb]
          exact foldl_max_mem score rest x
        · intro y hy
          rw [← hb]
          exact foldl_max_ge score rest x y hy

/-- Witness for C8: a concrete `"N/A"` field is filled by the top-scoring
known value, and a non-`"N/A"` field is untouched. -/
theorem C8_fuzzy_fill_witness :
    aget (fuzzy_match_fields (fun a _ => if a = "state farm" then 95 else 0)
        "quote text" [("Insurance Company", Json.str "N/A")]) "Insurance Company" =
      some (Json.str "State Farm") ∧
    aget (fuzzy_match_fields (fun a _ => if a = "state farm" then 95 else 0)
        "quote text" [("Insurance Company", Json.str "Geico")]) "Insurance Company" =
      some (Json.str "Geico") := by
  constructor
  · have h := C8_fuzzy_fill.2.2.1 (fun a _ => if a = "state farm" then 95 else 0)
      "quote text" [("Insurance Company", Json.str "N/A")] "Insurance Company"
      (by decide) rfl
    rw [h]
    rfl
  · have h := C8_fuzzy_fill.1 (fun a _ => if a = "state farm" then 95 else 0)
      "quote text" [("Insurance Company", Json.str "Geico")] "Insurance Company"
      (by intro hh; exact Option.noConfusion hh (fun hh2 => Json.noConfusion hh2 (fun hh3 => by exact absurd hh3 (by decide))))
    rw [h]
    rfl

/-! ## C5: checkbox flags — engine semantics

To relate the engine's verdicts to a declarative reading of the checkbox
patterns, `SemRE r w` states that the word `w` is in the language of `r`;
`mtch` is proved sound and complete for it, and `reSearch` is shown to
succeed exactly when some substring is in the pattern's language. -/

/-- The upper-bound side condition of a bounded repetition. -/
def repHiOK (hi : Option Nat) (n : Nat) : Prop := ∀ h, hi = some h → n ≤ h

/-- Declarative language of the regex AST. -/
inductive SemRE : RE → List Char → Prop where
  | eps : SemRE RE.eps []
  | lit (pat : String) (w : List Char) (h : lowerL w = lowerL pat.data) :
      SemRE (RE.lit pat) w
  | cls (p : Char → Bool) (c : Char) (h : p c = true) : SemRE (RE.cls p) [c]
  | rep (lo : Nat) (hi : Option Nat) (p : Char → Bool) (w : List Char)
      (hall : ∀ c ∈ w, p c = true) (hlo : lo ≤ w.length)
      (hhi : repHiOK hi w.length) : SemRE (RE.rep lo hi p) w
  | seqI (a b : RE) (w1 w2 : List Char) : SemRE a w1 → SemRE b w2 →
      SemRE (RE.seq a b) (w1 ++ w2)
  | altL (a b : RE) (w : List Char) : SemRE a w → SemRE (RE.alt a b) w
  | altR (a b : RE) (w : List Char) : SemRE b w → SemRE (RE.alt a b) w
  | grpI (i : Nat) (r : RE) (w : List Char) : SemRE r w → SemRE (RE.grp i r) w

/-- Elements of a prefix no longer than the matching run satisfy the class. -/
theorem take_all_of_le_takeWhile (p : Char → Bool) (s : List Char) (n : Nat)
    (h : n ≤ (s.takeWhile p).length) : ∀ c ∈ s.take n, p c = true := by
  intro c hc
  have h1 : s.take n = (s.takeWhile p).take n := by
    conv_lhs => rw [← List.takeWhile_append_dropWhile (p := p) (l := s)]
    rw [List.take_append_of_le_length h]
  rw [h1] at hc
  exact List.mem_takeWhile_imp (List.mem_of_mem_take hc)

/-- `takeWhile` over an append whose left part satisfies the class. -/
theorem takeWhile_append_all (p : Char → Bool) (w rest : List Char)
    (hall : ∀ c ∈ w, p c = true) :
    (w ++ rest).takeWhile p = w ++ rest.takeWhile p := by
  induction w with
  | nil => rfl
  | cons c t ih =>
      have hc : p c = true := hall c (List.mem_cons_self _ _)
      simp only [List.cons_append, List.takeWhile_cons, hc, if_true]
      rw [ih (fun d hd => hall d (List.mem_cons_of_mem _ hd))]

/-- Soundness of the matcher: every returned split is a language split. -/
theorem mtch_sound (r : RE) : ∀ (s : List Char) (m : List Char × Caps × List Char),
    m ∈ mtch r s → s = m.1 ++ m.2.2 ∧ SemRE r m.1 := by
  induction r with
  | eps =>
      intro s m hm
      simp only [mtch, List.mem_singleton] at hm
      subst hm
      exact ⟨rfl, SemRE.eps⟩
  | lit pat =>
      intro s m hm
      simp only [mtch] at hm
      cases hl : litMatch pat.data s with
      | none => rw [hl] at hm; simp at hm
      | some cr =>
          rw [hl] at hm
          simp only [List.mem_singleton] at hm
          subst hm
          unfold litMatch at hl
          by_cases hc : (s.take pat.data.length).length = pat.data.length ∧
              lowerL (s.take pat.data.length) = lowerL pat.data
          · rw [if_pos hc] at hl
            cases hl
            exact ⟨(List.take_append_drop _ s).symm, SemRE.lit pat _ hc.2⟩
          · rw [if_neg hc] at hl
            cases hl
  | cls p =>
      intro s m hm
      cases s with
      | nil => simp [mtch] at hm
      | cons c t =>
          simp only [mtch] at hm
          by_cases hc : p c = true
          · rw [if_pos hc] at hm
            simp only [List.mem_singleton] at hm
            subst hm
            exact ⟨rfl, SemRE.cls p c hc⟩
          · rw [if_neg hc] at hm
            simp at hm
  | rep lo hi p =>
      intro s m hm
      simp only [mtch, List.mem_map] at hm
      obtain ⟨n, hn, hm⟩ := hm
      subst hm
      unfold repCands at hn
      simp only [List.mem_filter, List.mem_reverse, List.mem_range,
        decide_eq_true_eq, Nat.lt_succ_iff] at hn
      obtain ⟨hle, hlo⟩ := hn
      have hrun : n ≤ (s.takeWhile p).length := by
        cases hi with
        | none => simpa using hle
        | some hh => exact le_trans hle (Nat.min_le_right _ _)
      have hlen : n ≤ s.length := le_trans hrun (by
        simpa using (List.takeWhile_sublist p (l := s)).length_le)
      refine ⟨(List.take_append_drop n s).symm, SemRE.rep lo hi p _
        (take_all_of_le_takeWhile p s n hrun) ?_ ?_⟩
      · rw [List.length_take]
        omega
      · intro hh hhi
        subst hhi
        rw [List.length_take]
        have : n ≤ hh := le_trans hle (Nat.min_le_left _ _)
        omega
  | seq a b iha ihb =>
      intro s m hm
      simp only [mtch, List.mem_flatMap, List.mem_map] at hm
      obtain ⟨m1, hm1, m2, hm2, hm⟩ := hm
      subst hm
      obtain ⟨hs1, hsem1⟩ := iha s m1 hm1
      obtain ⟨hs2, hsem2⟩ := ihb m1.2.2 m2 hm2
      constructor
      · rw [hs1, hs2, List.append_assoc]
      · exact SemRE.seqI a b m1.1 m2.1 hsem1 hsem2
  | alt a b iha ihb =>
      intro s m hm
      simp only [mtch, List.mem_append] at hm
      rcases hm with hm | hm
      · obtain ⟨hs, hsem⟩ := iha s m hm
        exact ⟨hs, SemRE.altL a b m.1 hsem⟩
      · obtain ⟨hs, hsem⟩ := ihb s m hm
        exact ⟨hs, SemRE.altR a b m.1 hsem⟩
  | grp i r ihr =>
      intro s m hm
      simp only [mtch, List.mem_map] at hm
      obtain ⟨m0, hm0, hm⟩ := hm
      subst hm
      obtain ⟨hs, hsem⟩ := ihr s m0 hm0
      exact ⟨hs, SemRE.grpI i r m0.1 hsem⟩

/-- Completeness of the matcher: every language split is returned. -/
theorem mtch_complete (r : RE) (w : List Char) (hw : SemRE r w) :
    ∀ rest : List Char, ∃ caps, (w, caps, rest) ∈ mtch r (w ++ rest) := by
  induction hw with
  | eps =>
      intro rest
      exact ⟨[], by simp [mtch]⟩
  | lit pat w h =>
      intro rest
      refine ⟨[], ?_⟩
      have hlen : w.length = pat.data.length := by
        have := congrArg List.length h
        simpa [lowerL] using this
      simp only [mtch]
      unfold litMatch
      have ht : (w ++ rest).take pat.data.length = w := by
        rw [← hlen]
        exact List.take_left w rest
      have hd : (w ++ rest).drop pat.data.length = rest := by
        rw [← hlen]
        exact List.drop_left w rest
      rw [ht, hd, if_pos ⟨by rw [hlen], h⟩]
      simp
  | cls p c h =>
      intro rest
      exact ⟨[], by simp [mtch, h]⟩
  | rep lo hi p w hall hlo hhi =>
      intro rest
      refine ⟨[], ?_⟩
      simp only [mtch, List.mem_map]
      refine ⟨w.length, ?_, by rw [List.take_left w rest, List.drop_left w rest]⟩
      unfold repCands
      simp only [List.mem_filter, List.mem_reverse, List.mem_range,
        decide_eq_true_eq, Nat.lt_succ_iff]
      constructor
      · rw [takeWhile_append_all p w rest hall]
        cases hi with
        | none => simp
        | some hh =>
            simp only []
            have h1 : w.length ≤ hh := hhi hh rfl
            simp only [List.length_append]
            omega
      · exact hlo
  | seqI a b w1 w2 ha hb iha ihb =>
      intro rest
      obtain ⟨caps2, hc2⟩ := ihb rest
      obtain ⟨caps1, hc1⟩ := iha (w2 ++ rest)
      refine ⟨caps1 ++ caps2, ?_⟩
      simp only [mtch, List.mem_flatMap, List.mem_map, List.append_assoc]
      exact ⟨(w1, caps1, w2 ++ rest), hc1,
        (w2, caps2, rest), hc2, rfl⟩
  | altL a b w ha iha =>
      intro rest
      obtain ⟨caps, hc⟩ := iha rest
      exact ⟨caps, by simp only [mtch, List.mem_append]; exact Or.inl hc⟩
  | altR a b w hb ihb =>
      intro rest
      obtain ⟨caps, hc⟩ := ihb rest
      exact ⟨caps, by simp only [mtch, List.mem_append]; exact Or.inr hc⟩
  | grpI i r w hr ihr =>
      intro rest
      obtain ⟨caps, hc⟩ := ihr rest
      refine ⟨caps ++ [(i, w)], ?_⟩
      simp only [mtch, List.mem_map]
      exact ⟨(w, caps, rest), hc, rfl⟩

/-- A successful match list is inhabited exactly when some split exists. -/
theorem mtch_ne_nil_iff (r : RE) (s : List Char) :
    mtch r s ≠ [] ↔ ∃ w rest, s = w ++ rest ∧ SemRE r w := by
  constructor
  · intro h
    cases hm : mtch r s with
    | nil => exact absurd hm h
    | cons m t =>
        obtain ⟨hs, hsem⟩ := mtch_sound r s m (hm ▸ List.mem_cons_self m t)
        exact ⟨m.1, m.2.2, hs, hsem⟩
  · rintro ⟨w, rest, rfl, hsem⟩
    obtain ⟨caps, hc⟩ := mtch_complete r w hsem rest
    intro hm
    rw [hm] at hc
    exact absurd hc (List.not_mem_nil _)

/-- `searchFrom` succeeds exactly when the pattern's language contains a
substring of the input. -/
theorem searchFrom_isSome_iff (r : RE) : ∀ s : List Char,
    (searchFrom r s).isSome = true ↔
      ∃ pre w rest, s = pre ++ w ++ rest ∧ SemRE r w := by
  intro s
  induction s with
  | nil =>
      constructor
      · intro h
        cases hm : mtch r [] with
        | nil =>
            simp only [searchFrom] at h
            rw [hm] at h
            simp at h
        | cons m tl =>
            obtain ⟨hs, hsem⟩ := mtch_sound r [] m (hm ▸ List.mem_cons_self m tl)
            exact ⟨[], m.1, m.2.2, by rw [List.nil_append, ← hs], hsem⟩
      · rintro ⟨pre, w, rest, hs, hsem⟩
        have h0 := List.append_eq_nil.mp hs.symm
        have h1 := List.append_eq_nil.mp h0.1
        obtain ⟨caps, hc⟩ := mtch_complete r w hsem rest
        rw [h1.2, h0.2] at hc
        simp only [List.nil_append] at hc
        simp only [searchFrom]
        cases hm : mtch r [] with
        | nil =>
            rw [hm] at hc
            exact absurd hc (List.not_mem_nil _)
        | cons m tl => simp
  | cons c t ih =>
      constructor
      · intro h
        cases hm : mtch r (c :: t) with
        | cons m tl =>
            obtain ⟨hs, hsem⟩ := mtch_sound r (c :: t) m (hm ▸ List.mem_cons_self m tl)
            exact ⟨[], m.1, m.2.2, by rw [List.nil_append, ← hs], hsem⟩
        | nil =>
            simp only [searchFrom] at h
            rw [hm] at h
            obtain ⟨pre, w, rest, hs, hsem⟩ := ih.mp h
            exact ⟨c :: pre, w, rest, by simp [hs], hsem⟩
      · rintro ⟨pre, w, rest, hs, hsem⟩
        simp only [searchFrom]
        cases hm : mtch r (c :: t) with
        | cons m tl => simp
        | nil =>
            cases pre with
            | nil =>
                obtain ⟨caps, hc⟩ := mtch_complete r w hsem rest
                rw [List.nil_append] at hs
                rw [← hs, hm] at hc
                exact absurd hc (List.not_mem_nil _)
            | cons c0 pre2 =>
                simp only [List.cons_append, List.cons.injEq] at hs
                exact ih.mpr ⟨pre2, w, rest, hs.2, hsem⟩

/-- A word whose lower-casing is a one-character non-letter is that
character. -/
theorem lowerL_singleton_nonletter (w : List Char) (t : Char)
    (ht : t.toNat < 97 ∨ 122 < t.toNat) (h : lowerL w = [t]) : w = [t] := by
  cases w with
  | nil => simp [lowerL] at h
  | cons c rest =>
      cases rest with
      | cons c2 rest2 => simp [lowerL] at h
      | nil =>
          simp only [lowerL, List.map_cons, List.map_nil, List.cons.injEq,
            and_true] at h
          rw [eq_of_lowerC_nonletter c t ht h]

/-- The declarative content of the checkbox pattern `<label>\s*\[\s*[xX]\s*\]`:
the label (case-insensitively), whitespace, an opening bracket, whitespace,
an `x` or `X`, whitespace, a closing bracket. -/
def CheckboxMatch (label text : String) : Prop :=
  ∃ pre lab s1 s2 c s3 post,
    text.data = pre ++ lab ++ s1 ++ ['['] ++ s2 ++ [c] ++ s3 ++ [']'] ++ post ∧
    lowerL lab = lowerL label.data ∧
    (∀ ch ∈ s1, isSpaceC ch = true) ∧ (∀ ch ∈ s2, isSpaceC ch = true) ∧
    (∀ ch ∈ s3, isSpaceC ch = true) ∧ (c = 'x' ∨ c = 'X')

/-- Language characterization of one checkbox pattern. -/
theorem semCheckbox_iff (label : String) (w : List Char) :
    SemRE (checkboxPat label) w ↔
      ∃ lab s1 s2 c s3,
        w = lab ++ s1 ++ ['['] ++ s2 ++ [c] ++ s3 ++ [']'] ∧
        lowerL lab = lowerL label.data ∧
        (∀ ch ∈ s1, isSpaceC ch = true) ∧ (∀ ch ∈ s2, isSpaceC ch = true) ∧
        (∀ ch ∈ s3, isSpaceC ch = true) ∧ (c = 'x' ∨ c = 'X') := by
  constructor
  · intro h
    have h2 : SemRE (RE.seq (RE.lit label) (RE.seq (RE.rep 0 none isSpaceC)
        (RE.seq (RE.lit "[") (RE.seq (RE.rep 0 none isSpaceC)
        (RE.seq (RE.grp 1 (RE.cls xXC)) (RE.seq (RE.rep 0 none isSpaceC)
        (RE.lit "]"))))))) w := h
    cases h2 with
    | seqI _ _ wlab wr1 hlab hr1 =>
    cases hlab with
    | lit _ _ hlabL =>
    cases hr1 with
    | seqI _ _ ws1 wr2 hws1 hr2 =>
    cases hws1 with
    | rep _ _ _ _ hall1 _ _ =>
    cases hr2 with
    | seqI _ _ wbr1 wr3 hbr1 hr3 =>
    cases hbr1 with
    | lit _ _ hbr1L =>
    cases hr3 with
    | seqI _ _ ws2 wr4 hws2 hr4 =>
    cases hws2 with
    | rep _ _ _ _ hall2 _ _ =>
    cases hr4 with
    | seqI _ _ wx wr5 hx hr5 =>
    cases hx with
    | grpI _ _ _ hx2 =>
    cases hx2 with
    | cls _ cx hcx =>
    cases hr5 with
    | seqI _ _ ws3 wbr2 hws3 hbr2 =>
    cases hws3 with
    | rep _ _ _ _ hall3 _ _ =>
    cases hbr2 with
    | lit _ _ hbr2L =>
    have hb1 : wbr1 = ['['] :=
      lowerL_singleton_nonletter wbr1 '[' (by decide) (by simpa using hbr1L)
    have hb2 : wbr2 = [']'] :=
      lowerL_singleton_nonletter wbr2 ']' (by decide) (by simpa using hbr2L)
    have hcx2 : cx = 'x' ∨ cx = 'X' := by
      have := hcx
      unfold xXC at this
      simpa using this
    refine ⟨wlab, ws1, ws2, cx, ws3, ?_, hlabL, hall1, hall2, hall3, hcx2⟩
    subst hb1 hb2
    simp [List.append_assoc]
  · rintro ⟨lab, s1, s2, c, s3, hw, hlab, h1, h2, h3, hc⟩
    have hsem : SemRE (RE.seq (RE.lit label) (RE.seq (RE.rep 0 none isSpaceC)
        (RE.seq (RE.lit "[") (RE.seq (RE.rep 0 none isSpaceC)
        (RE.seq (RE.grp 1 (RE.cls xXC)) (RE.seq (RE.rep 0 none isSpaceC)
        (RE.lit "]")))))))
        (lab ++ (s1 ++ (['['] ++ (s2 ++ ([c] ++ (s3 ++ [']'])))))) :=
      SemRE.seqI _ _ _ _ (SemRE.lit label lab hlab)
        (SemRE.seqI _ _ _ _
          (SemRE.rep 0 none isSpaceC s1 h1 (Nat.zero_le _)
            (fun _ hh => Option.noConfusion hh))
          (SemRE.seqI _ _ _ _ (SemRE.lit "[" ['['] (by decide))
            (SemRE.seqI _ _ _ _
              (SemRE.rep 0 none isSpaceC s2 h2 (Nat.zero_le _)
                (fun _ hh => Option.noConfusion hh))
              (SemRE.seqI _ _ _ _
                (SemRE.grpI 1 _ [c] (SemRE.cls xXC c (by
                  rcases hc with rfl | rfl <;> decide)))
                (SemRE.seqI _ _ _ _
                  (SemRE.rep 0 none isSpaceC s3 h3 (Nat.zero_le _)
                    (fun _ hh => Option.noConfusion hh))
                  (SemRE.lit "]" [']'] (by decide)))))))
    have hsem2 : SemRE (checkboxPat label)
        (lab ++ (s1 ++ (['['] ++ (s2 ++ ([c] ++ (s3 ++ [']'])))))) := hsem
    have hw2 : w = lab ++ (s1 ++ (['['] ++ (s2 ++ ([c] ++ (s3 ++ [']']))))) := by
      rw [hw]
      simp [List.append_assoc]
    rw [hw2]
    exact hsem2

/-- The engine's verdict on a checkbox pattern coincides with the
declarative reading. -/
theorem checkbox_isSome_iff (label text : String) :
    (reSearch (checkboxPat label) text).isSome = true ↔ CheckboxMatch label text := by
  have hr : reSearch (checkboxPat label) text = searchFrom (checkboxPat label) text.data := rfl
  rw [hr, searchFrom_isSome_iff]
  constructor
  · rintro ⟨pre, w, rest, hs, hsem⟩
    obtain ⟨lab, s1, s2, c, s3, hw, props⟩ := (semCheckbox_iff label w).mp hsem
    refine ⟨pre, lab, s1, s2, c, s3, rest, ?_, props.1, props.2.1, props.2.2.1,
      props.2.2.2.1, props.2.2.2.2⟩
    rw [hs, hw]
    simp [List.append_assoc]
  · rintro ⟨pre, lab, s1, s2, c, s3, post, hs, props⟩
    refine ⟨pre, lab ++ s1 ++ ['['] ++ s2 ++ [c] ++ s3 ++ [']'], post, ?_, ?_⟩
    · rw [hs]
      simp [List.append_assoc]
    · exact (semCheckbox_iff label _).mpr
        ⟨lab, s1, s2, c, s3, rfl, props.1, props.2.1, props.2.2.1,
          props.2.2.2.1, props.2.2.2.2⟩

/-- C5: each simple assignment-type flag is a boolean (never `"N/A"`) and is
`true` exactly when its checkbox pattern `<label> [ x ]` (with
case-insensitive label and `x`) matches the Assignment Type section text;
in the pipeline, `"Assignment Type\nWind [X]\nHail [ ]\n"` yields
`Wind = true` and `Hail = false`. -/
theorem C5_assignment_type_flags :
    (∀ (text label : String),
      label ∈ ["Wind", "Structural", "Hail", "Foundation"] →
      ∃ b : Bool,
        getField2 (Json.obj (extract_assignment_type text)) "Assignment Type" label =
          some (Json.bool b) ∧ (b = true ↔ CheckboxMatch label text)) ∧
    resField2 (ruleBasedParse (fun _ => []) "Assignment Type\nWind [X]\nHail [ ]\n")
      "Assignment Type" "Wind" = some (Json.bool true) ∧
    resField2 (ruleBasedParse (fun _ => []) "Assignment Type\nWind [X]\nHail [ ]\n")
      "Assignment Type" "Hail" = some (Json.bool false) := by
  refine ⟨?_, rfl, rfl⟩
  intro text label hmem
  have hiff := checkbox_isSome_iff label text
  simp only [List.mem_cons, List.mem_singleton] at hmem
  rcases hmem with rfl | rfl | rfl | rfl | hfalse
  · exact ⟨(reSearch (checkboxPat "Wind") text).isSome, rfl, hiff⟩
  · exact ⟨(reSearch (checkboxPat "Structural") text).isSome, rfl, hiff⟩
  · exact ⟨(reSearch (checkboxPat "Hail") text).isSome, rfl, hiff⟩
  · exact ⟨(reSearch (checkboxPat "Foundation") text).isSome, rfl, hiff⟩
  · exact absurd hfalse (List.not_mem_nil label)

/-- Witness for C5 at a concrete text and label. -/
theorem C5_assignment_type_flags_witness :
    ∃ b : Bool,
      getField2 (Json.obj (extract_assignment_type "Wind [x]")) "Assignment Type"
        "Wind" = some (Json.bool b) ∧ (b = true ↔ CheckboxMatch "Wind" "Wind [x]") :=
  C5_assignment_type_flags.1 "Wind [x]" "Wind" (by decide)

/-! ## Case-insensitivity infrastructure for the segmenter and dispatch

`snake_case` is determined by the lower-casing of its input; this lets the
dispatch of a case-variant section header be computed from the canonical
header. -/

/-- Facts about an upper-case basic latin letter and its lower-casing. -/
theorem upper_char_facts (c : Char) (h1 : 65 ≤ c.toNat) (h2 : c.toNat ≤ 90) :
    (isSpaceC c = false ∧ isWordC c = true) ∧
    (isSpaceC (lowerC c) = false ∧ isWordC (lowerC c) = true) := by
  have hrep : c = Char.ofNat c.toNat := (Char.ofNat_toNat c).symm
  generalize hn : c.toNat = n at h1 h2 hrep
  interval_cases n <;> (rw [hrep]; exact ⟨⟨rfl, rfl⟩, ⟨rfl, rfl⟩⟩)

/-- Whitespace-ness is invariant under lower-casing. -/
theorem isSpaceC_lowerC (c : Char) : isSpaceC (lowerC c) = isSpaceC c := by
  rcases lowerC_shift c with h | ⟨h1, h2, _⟩
  · rw [h]
  · have hf := upper_char_facts c h1 h2
    rw [hf.2.1, hf.1.1]

/-- Word-character-ness is invariant under lower-casing. -/
theorem isWordC_lowerC (c : Char) : isWordC (lowerC c) = isWordC c := by
  rcases lowerC_shift c with h | ⟨h1, h2, _⟩
  · rw [h]
  · have hf := upper_char_facts c h1 h2
    rw [hf.2.2, hf.1.2]

/-- Lower-casing is idempotent. -/
theorem lowerC_idem (c : Char) : lowerC (lowerC c) = lowerC c := by
  rcases lowerC_shift c with h | ⟨h1, h2, h3⟩
  · rw [h, h]
  · rw [h3]
    rcases lowerC_shift (Char.ofNat (c.toNat + 32)) with h4 | ⟨h5, h6, _⟩
    · exact h4
    · rw [toNat_ofNat_small (c.toNat + 32) (by omega)] at h5 h6
      omega

/-- The `snake_case` filter class is invariant under lower-casing. -/
theorem snakeFilter_lowerC (c : Char) :
    (isWordC (lowerC c) || isSpaceC (lowerC c)) = (isWordC c || isSpaceC c) := by
  rw [isWordC_lowerC, isSpaceC_lowerC]

/-- `filter` over a class invariant under `lowerC` commutes with `lowerL`. -/
theorem filter_lowerL (p : Char → Bool) (hp : ∀ c, p (lowerC c) = p c)
    (d : List Char) : (lowerL d).filter p = lowerL (d.filter p) := by
  induction d with
  | nil => rfl
  | cons c t ih =>
      simp only [lowerL, List.map_cons, List.filter_cons] at *
      rw [hp c]
      by_cases hc : p c = true
      · simp only [hc, if_true, List.map_cons]
        rw [← ih]
  
      · simp only [hc]
        simp only [Bool.false_eq_true, if_false]
        rw [← ih]
  

/-- `dropWhile` over such a class commutes with `lowerL`. -/
theorem dropWhile_lowerL (p : Char → Bool) (hp : ∀ c, p (lowerC c) = p c)
    (d : List Char) : (lowerL d).dropWhile p = lowerL (d.dropWhile p) := by
  induction d with
  | nil => rfl
  | cons c t ih =>
      simp only [lowerL, List.map_cons, List.dropWhile_cons]
      rw [hp c]
      by_cases hc : p c = true
      · simp only [hc, if_true]
        exact ih
      · simp only [hc]
        simp only [Bool.false_eq_true, if_false, lowerL, List.map_cons]

/-- `lowerL` commutes with `reverse`. -/
theorem lowerL_reverse (d : List Char) : (lowerL d).reverse = lowerL d.reverse := by
  simp [lowerL]

/-- `lowerL` on a cons. -/
theorem lowerL_cons (c : Char) (t : List Char) :
    lowerL (c :: t) = lowerC c :: lowerL t := rfl

/-- `stripL` commutes with `lowerL`. -/
theorem stripL_lowerL (d : List Char) : stripL (lowerL d) = lowerL (stripL d) := by
  unfold stripL
  rw [dropWhile_lowerL isSpaceC isSpaceC_lowerC d, lowerL_reverse,
    dropWhile_lowerL isSpaceC isSpaceC_lowerC, lowerL_reverse]

/-- `snakeCaseAux` only sees the lower-casing of its input. -/
theorem snakeCaseAux_lowerL (flag : Bool) (d : List Char) :
    snakeCaseAux flag (lowerL d) = snakeCaseAux flag d := by
  induction d generalizing flag with
  | nil => rfl
  | cons c t ih =>
      rw [lowerL_cons]
      simp only [snakeCaseAux]
      rw [isSpaceC_lowerC c]
      by_cases hc : isSpaceC c = true
      · simp only [hc, if_true]
        by_cases hf : flag = true
        · simp only [hf, if_true]
          exact ih true
        · simp only [Bool.not_eq_true] at hf
          simp only [hf]
          simp only [Bool.false_eq_true, if_false]
          rw [ih true]
      · simp only [hc]
        simp only [Bool.false_eq_true, if_false]
        rw [lowerC_idem c, ih false]

/-- `snake_case` is determined by the lower-cased input. -/
theorem snake_case_of_lowerS (k hd : String) (hl : lowerS k = lowerS hd) :
    snake_case k = snake_case hd := by
  have hdata : lowerL k.data = lowerL hd.data := congrArg String.data hl
  unfold snake_case
  have key : ∀ d : List Char,
      snakeCaseAux false (stripL (d.filter (fun c => isWordC c || isSpaceC c))) =
      snakeCaseAux false (stripL ((lowerL d).filter (fun c => isWordC c || isSpaceC c))) := by
    intro d
    rw [filter_lowerL _ snakeFilter_lowerC d, stripL_lowerL,
      snakeCaseAux_lowerL]
  rw [congrArg String.mk (key k.data), congrArg String.mk (key hd.data), hdata]

/-! ## C1: the assembled record is never partial -/

/-- An object value carrying the given string fields. -/
def strFieldsShape (fields : List String) (v : Json) : Bool :=
  match v with
  | Json.obj sub => fields.all (fun f => fieldIsStr sub f)
  | _ => false

/-- The assignment-type value shape. -/
def atShape (v : Json) : Bool :=
  match v with
  | Json.obj atd =>
      (["Wind", "Structural", "Hail", "Foundation"].all (fun f => fieldIsBool atd f)) &&
      (match aget atd "Other" with
       | some (Json.obj od) => fieldIsBool od "Checked" && fieldIsStr od "Details"
       | _ => false)
  | _ => false

/-- An array of strings. -/
def strArrShape (v : Json) : Bool :=
  match v with
  | Json.arr xs => xs.all isStrJ
  | _ => false

/-- The entities value shape. -/
def entsShape (v : Json) : Bool :=
  match v with
  | Json.obj ents =>
      ents.all (fun kv =>
        match kv.snd with
        | Json.arr xs => xs.all isStrJ
        | _ => false)
  | _ => false

/-- Well-shapedness of one extracted binding, keyed by its canonical key. -/
def entryOKB (kv : String × Json) : Bool :=
  if kv.fst = "Requesting Party" then
    strFieldsShape ["Insurance Company", "Handler", "Carrier Claim Number"] kv.snd
  else if kv.fst = "Insured Information" then
    strFieldsShape ["Name", "Contact #", "Loss Address", "Public Adjuster",
      "Owner or Tenant"] kv.snd
  else if kv.fst = "Adjuster Information" then
    strFieldsShape ["Adjuster Name", "Adjuster Phone Number", "Adjuster Email",
      "Job Title", "Address", "Policy #"] kv.snd
  else if kv.fst = "Assignment Information" then
    strFieldsShape ["Date of Loss/Occurrence", "Cause of loss", "Facts of Loss",
      "Loss Description", "Residence Occupied During Loss",
      "Was Someone home at time of damage", "Repair or Mitigation Progress",
      "Type", "Inspection type"] kv.snd
  else if kv.fst = "Assignment Type" then atShape kv.snd
  else if kv.fst = "Additional details/Special Instructions" then isStrJ kv.snd
  else if kv.fst = "Attachment(s)" then strArrShape kv.snd
  else false

/-- `extract_attachments` always returns (on success) the single attachments
binding holding an array of strings. -/
theorem extract_attachments_ok_shape (c : String) (data : List (String × Json))
    (h : extract_attachments c = Except.ok data) :
    ∃ xs : List Json, data = [("Attachment(s)", Json.arr xs)] ∧ xs.all isStrJ = true := by
  unfold extract_attachments at h
  cases hs : searchCap1 attachPat c with
  | none =>
      rw [hs] at h
      cases h
      exact ⟨[], rfl, rfl⟩
  | some raw =>
      simp only [hs] at h
      by_cases hc : lowerS (pyStrip raw) ≠ "n/a" ∧ pyStrip raw ≠ ""
      · rw [if_pos hc] at h
        cases hv : validateTokens (splitDelims (pyStrip raw)) with
        | ok kept =>
            rw [hv] at h
            cases h
            refine ⟨kept.map Json.str, rfl, ?_⟩
            simp [List.all_eq_true, isStrJ]
        | error e =>
            rw [hv] at h
            cases h
      · rw [if_neg hc] at h
        cases h
        exact ⟨[], rfl, rfl⟩

/-- Every binding produced by the per-section dispatch is well shaped. -/
theorem dispatch_entryOK (k c : String) :
    ∀ kv ∈ sectionDispatch k c, entryOKB kv = true := by
  intro kv hkv
  unfold sectionDispatch at hkv
  by_cases h1 : snake_case k = "requesting_party"
  · rw [if_pos h1] at hkv
    simp only [extract_requesting_party, List.mem_singleton] at hkv
    subst hkv
    rfl
  rw [if_neg h1] at hkv
  by_cases h2 : snake_case k = "insured_information"
  · rw [if_pos h2] at hkv
    simp only [extract_insured_information, List.mem_singleton] at hkv
    subst hkv
    rfl
  rw [if_neg h2] at hkv
  by_cases h3 : snake_case k = "adjuster_information"
  · rw [if_pos h3] at hkv
    simp only [extract_adjuster_information, List.mem_singleton] at hkv
    subst hkv
    rfl
  rw [if_neg h3] at hkv
  by_cases h4 : snake_case k = "assignment_information"
  · rw [if_pos h4] at hkv
    simp only [extract_assignment_information, List.mem_singleton] at hkv
    subst hkv
    rfl
  rw [if_neg h4] at hkv
  by_cases h5 : snake_case k = "assignment_type"
  · rw [if_pos h5] at hkv
    simp only [extract_assignment_type, List.mem_singleton] at hkv
    subst hkv
    unfold entryOKB atShape
    simp only []
    cases reSearch otherPat c <;> rfl
  rw [if_neg h5] at hkv
  by_cases h6 : snake_case k = "attachments"
  · rw [if_pos h6] at hkv
    cases ha : extract_attachments c with
    | ok data =>
        rw [ha] at hkv
        obtain ⟨xs, hdata, hxs⟩ := extract_attachments_ok_shape c data ha
        subst hdata
        simp only [List.mem_singleton] at hkv
        subst hkv
        unfold entryOKB
        simp only []
        exact hxs
    | error e =>
        rw [ha] at hkv
        revert hkv
        unfold default_section_data
        split_ifs <;> (intro hkv; first
          | (simp only [List.mem_singleton] at hkv; subst hkv; rfl)
          | (exact absurd hkv (List.not_mem_nil kv)))
  rw [if_neg h6] at hkv
  revert hkv
  unfold default_section_data
  split_ifs <;> (intro hkv; first
    | (simp only [List.mem_singleton] at hkv; subst hkv; rfl)
    | (exact absurd hkv (List.not_mem_nil kv)))

/-- `aset` preserves a pointwise property that the new binding satisfies. -/
theorem aset_all {P : String × Json → Prop} (acc : List (String × Json))
    (k : String) (v : Json) (hacc : ∀ kv ∈ acc, P kv) (hnew : P (k, v)) :
    ∀ kv ∈ aset acc k v, P kv := by
  intro kv hkv
  unfold aset at hkv
  by_cases he : acc.any (fun kv2 => kv2.fst == k) = true
  · rw [if_pos he] at hkv
    obtain ⟨kv0, hkv0, hmap⟩ := List.mem_map.mp hkv
    by_cases hk : (kv0.fst == k) = true
    · rw [if_pos hk] at hmap
      subst hmap
      exact hnew
    · rw [if_neg hk] at hmap
      subst hmap
      exact hacc kv0 hkv0
  · rw [if_neg he] at hkv
    rcases List.mem_append.mp hkv with hm | hm
    · exact hacc kv hm
    · rw [List.mem_singleton.mp hm]
      exact hnew

/-- `dictUpdate` preserves a pointwise property satisfied by the update. -/
theorem dictUpdate_all {P : String × Json → Prop} (acc new : List (String × Json))
    (hacc : ∀ kv ∈ acc, P kv) (hnew : ∀ kv ∈ new, P kv) :
    ∀ kv ∈ dictUpdate acc new, P kv := by
  induction new generalizing acc with
  | nil => exact hacc
  | cons kv0 rest ih =>
      have hstep : ∀ kv ∈ aset acc kv0.fst kv0.snd, P kv :=
        aset_all acc kv0.fst kv0.snd hacc (hnew kv0 (List.mem_cons_self _ _))
      exact ih _ hstep (fun kv hkv => hnew kv (List.mem_cons_of_mem _ hkv))

/-- `aset` preserves presence of any key. -/
theorem aget_aset_isSome (acc : List (String × Json)) (k k2 : String) (v : Json)
    (h : (aget acc k2).isSome = true) : (aget (aset acc k v) k2).isSome = true := by
  by_cases hk : k2 = k
  · subst hk
    rw [aget_aset_self]
    rfl
  · rw [aget_aset_ne acc k k2 v hk]
    exact h

/-- `dictUpdate` preserves presence of any key. -/
theorem aget_dictUpdate_isSome (acc new : List (String × Json)) (k2 : String)
    (h : (aget acc k2).isSome = true) :
    (aget (dictUpdate acc new) k2).isSome = true := by
  induction new generalizing acc with
  | nil => exact h
  | cons kv0 rest ih =>
      exact ih _ (aget_aset_isSome acc kv0.fst k2 kv0.snd h)

/-- Updating with a list that binds `k2` makes `k2` present. -/
theorem aget_dictUpdate_isSome_of_mem (acc new : List (String × Json)) (k2 : String)
    (h : ∃ kv ∈ new, kv.fst = k2) :
    (aget (dictUpdate acc new) k2).isSome = true := by
  induction new generalizing acc with
  | nil =>
      obtain ⟨kv, hkv, _⟩ := h
      exact absurd hkv (List.not_mem_nil kv)
  | cons kv0 rest ih =>
      obtain ⟨kv, hkv, hfst⟩ := h
      rcases List.mem_cons.mp hkv with rfl | hm
      · show (aget (dictUpdate (aset acc kv.fst kv.snd) rest) k2).isSome = true
        apply aget_dictUpdate_isSome
        rw [← hfst, aget_aset_self]
        rfl
      · exact ih _ ⟨kv, hm, hfst⟩

/-- The per-entry step of the parse fold. -/
def parseStep (acc : List (String × Json)) (kv : String × String) :
    List (String × Json) :=
  dictUpdate acc (sectionDispatch kv.fst kv.snd)

/-- The parse fold keeps every binding well shaped. -/
theorem parseFold_inv (entries : List (String × String)) (acc : List (String × Json))
    (hacc : ∀ kv ∈ acc, entryOKB kv = true) :
    ∀ kv ∈ entries.foldl parseStep acc, entryOKB kv = true := by
  induction entries generalizing acc with
  | nil => exact hacc
  | cons e rest ih =>
      exact ih _ (dictUpdate_all acc _ hacc (dispatch_entryOK e.fst e.snd))

/-- The parse fold preserves presence of any key. -/
theorem parseFold_isSome (entries : List (String × String))
    (acc : List (String × Json)) (k : String)
    (h : (aget acc k).isSome = true) :
    (aget (entries.foldl parseStep acc) k).isSome = true := by
  induction entries generalizing acc with
  | nil => exact h
  | cons e rest ih =>
      exact ih _ (aget_dictUpdate_isSome acc _ k h)

/-- An entry whose dispatch binds `k` makes `k` present in the fold result. -/
theorem parseFold_isSome_of_entry (entries : List (String × String))
    (acc : List (String × Json)) (k : String)
    (h : ∃ e ∈ entries, ∃ kv ∈ sectionDispatch e.fst e.snd, kv.fst = k) :
    (aget (entries.foldl parseStep acc) k).isSome = true := by
  induction entries generalizing acc with
  | nil =>
      obtain ⟨e, he, _⟩ := h
      exact absurd he (List.not_mem_nil e)
  | cons e0 rest ih =>
      obtain ⟨e, he, hw⟩ := h
      rcases List.mem_cons.mp he with rfl | hm
      · exact parseFold_isSome rest _ k
          (aget_dictUpdate_isSome_of_mem acc _ k hw)
      · exact ih _ ⟨e, hm, hw⟩

/-- The per-header step of the segmenter's fill loop. -/
def fillStep (acc : List (String × String)) (h2 : String) : List (String × String) :=
  if acc.any (fun kv => kv.fst == h2) then acc else acc ++ [(h2, "")]

/-- After the fill loop, every listed header has an exact-key entry. -/
theorem fillFold_has (hs : List String) (acc : List (String × String)) (hd : String)
    (h : hd ∈ hs ∨ ∃ kv ∈ acc, kv.fst = hd) :
    ∃ kv ∈ hs.foldl fillStep acc, kv.fst = hd := by
  induction hs generalizing acc with
  | nil =>
      rcases h with h | h
      · exact absurd h (List.not_mem_nil hd)
      · exact h
  | cons h2 rest ih =>
      have hsub : ∀ kv ∈ acc, kv ∈ fillStep acc h2 := by
        intro kv hkv
        unfold fillStep
        by_cases he : acc.any (fun kv2 => kv2.fst == h2) = true
        · rw [if_pos he]; exact hkv
        · rw [if_neg he]; exact List.mem_append_left _ hkv
      rcases h with h | h
      · rcases List.mem_cons.mp h with rfl | hm
        · apply ih
          right
          unfold fillStep
          by_cases he : acc.any (fun kv2 => kv2.fst == hd) = true
          · rw [if_pos he]
            obtain ⟨kv, hkv, hbeq⟩ := List.any_eq_true.mp he
            exact ⟨kv, hkv, by simpa using hbeq⟩
          · rw [if_neg he]
            exact ⟨(hd, ""), List.mem_append_right _ (List.mem_singleton_self _), rfl⟩
        · exact ih _ (Or.inl hm)
      · obtain ⟨kv, hkv, hfst⟩ := h
        exact ih _ (Or.inr ⟨kv, hsub kv hkv, hfst⟩)

/-- Every configured header appears as an exact key of the segmenter's
output. -/
theorem split_has_headers (text : String) :
    ∀ hd ∈ section_headers, ∃ kv ∈ split_into_sections text, kv.fst = hd := by
  intro hd hmem
  unfold split_into_sections
  exact fillFold_has section_headers _ hd (Or.inl hmem)

/-- The dispatch of an exact configured header binds that header's key. -/
theorem dispatch_exact_key (hd : String) (hmem : hd ∈ section_headers) (c : String) :
    ∃ kv ∈ sectionDispatch hd c, kv.fst = hd := by
  simp only [section_headers, List.mem_cons, List.mem_singleton] at hmem
  rcases hmem with rfl | rfl | rfl | rfl | rfl | rfl | rfl | hfalse
  · exact ⟨_, List.mem_singleton_self _, rfl⟩
  · exact ⟨_, List.mem_singleton_self _, rfl⟩
  · exact ⟨_, List.mem_singleton_self _, rfl⟩
  · exact ⟨_, List.mem_singleton_self _, rfl⟩
  · exact ⟨_, List.mem_singleton_self _, rfl⟩
  · exact ⟨_, List.mem_singleton_self _, rfl⟩
  · show ∃ kv ∈ sectionDispatch "Attachment(s)" c, kv.fst = "Attachment(s)"
    have hred : sectionDispatch "Attachment(s)" c =
        (match extract_attachments c with
         | Except.ok data => data
         | Except.error _ => default_section_data "Attachment(s)") := rfl
    rw [hred]
    cases ha : extract_attachments c with
    | ok data =>
        obtain ⟨xs, hdata, _⟩ := extract_attachments_ok_shape c data ha
        subst hdata
        exact ⟨_, List.mem_singleton_self _, rfl⟩
    | error e =>
        exact ⟨_, List.mem_singleton_self _, rfl⟩
  · exact absurd hfalse (List.not_mem_nil hd)

/-- A present key's value inherits the fold invariant. -/
theorem aget_some_entryOK (d : List (String × Json))
    (hinv : ∀ kv ∈ d, entryOKB kv = true) (k : String) (v : Json)
    (hg : aget d k = some v) : entryOKB (k, v) = true := by
  unfold aget at hg
  cases hf : d.find? (fun kv => kv.fst == k) with
  | none => rw [hf] at hg; cases hg
  | some kv =>
      rw [hf] at hg
      have hv : kv.snd = v := by cases hg; rfl
      have hmem := List.mem_of_find?_eq_some hf
      have hfst : kv.fst = k := by simpa using List.find?_some hf
      subst hv
      subst hfst
      exact hinv kv hmem

/-- Bridge from a shaped value to the validator's object conjunct. -/
theorem strObjField_of_shape (d : List (String × Json)) (k : String)
    (fields : List String) (v : Json) (hg : aget d k = some v)
    (hs : strFieldsShape fields v = true) : strObjField d k fields = true := by
  unfold strObjField
  rw [hg]
  cases v with
  | obj sub => exact hs
  | str s => simp [strFieldsShape] at hs
  | bool b => simp [strFieldsShape] at hs
  | arr xs => simp [strFieldsShape] at hs

/-- Bridge for the assignment-type conjunct. -/
theorem atConjunct_of (d : List (String × Json)) (v : Json)
    (hg : aget d "Assignment Type" = some v) (hs : atShape v = true) :
    (match aget d "Assignment Type" with
     | some (Json.obj atd) =>
         (["Wind", "Structural", "Hail", "Foundation"].all (fun f => fieldIsBool atd f)) &&
         (match aget atd "Other" with
          | some (Json.obj od) => fieldIsBool od "Checked" && fieldIsStr od "Details"
          | _ => false)
     | _ => false) = true := by
  rw [hg]
  cases v with
  | obj atd => exact hs
  | str s => simp [atShape] at hs
  | bool b => simp [atShape] at hs
  | arr xs => simp [atShape] at hs

/-- Bridge for the additional-details conjunct. -/
theorem adConjunct_of (d : List (String × Json)) (v : Json)
    (hg : aget d "Additional details/Special Instructions" = some v)
    (hs : isStrJ v = true) :
    fieldIsStr d "Additional details/Special Instructions" = true := by
  unfold fieldIsStr
  rw [hg]
  cases v with
  | str s => rfl
  | bool b => simp [isStrJ] at hs
  | arr xs => simp [isStrJ] at hs
  | obj kvs => simp [isStrJ] at hs

/-- Bridge for the attachments conjunct. -/
theorem attachConjunct_of (d : List (String × Json)) (v : Json)
    (hg : aget d "Attachment(s)" = some v) (hs : strArrShape v = true) :
    (match aget d "Attachment(s)" with
     | some (Json.arr xs) => xs.all isStrJ
     | _ => false) = true := by
  rw [hg]
  cases v with
  | arr xs => exact hs
  | str s => simp [strArrShape] at hs
  | bool b => simp [strArrShape] at hs
  | obj kvs => simp [strArrShape] at hs

/-- Bridge for the entities conjunct. -/
theorem entsConjunct_of (d : List (String × Json)) (v : Json)
    (hg : aget d "Entities" = some v) (hs : entsShape v = true) :
    (match aget d "Entities" with
     | some (Json.obj ents) =>
         ents.all (fun kv =>
           match kv.snd with
           | Json.arr xs => xs.all isStrJ
           | _ => false)
     | _ => false) = true := by
  rw [hg]
  cases v with
  | obj ents => exact hs
  | str s => simp [entsShape] at hs
  | bool b => simp [entsShape] at hs
  | arr xs => simp [entsShape] at hs

/-- The entities object built from the collaborator's output is shaped. -/
theorem entsShape_built (ents : List (String × List String)) :
    entsShape (Json.obj (ents.map (fun le => (le.fst, Json.arr (le.snd.map Json.str))))) = true := by
  unfold entsShape
  rw [List.all_eq_true]
  intro kv hkv
  obtain ⟨le, _, hle⟩ := List.mem_map.mp hkv
  subst hle
  simp only []
  rw [List.all_eq_true]
  intro x hx
  obtain ⟨sv, _, hsv⟩ := List.mem_map.mp hx
  subst hsv
  rfl

/-- A shaped, all-headers-present extraction dictionary, with the entities
object attached, passes `validate_json`. -/
theorem validate_built (d1 : List (String × Json))
    (hinv : ∀ kv ∈ d1, entryOKB kv = true)
    (hpres : ∀ hd ∈ section_headers, (aget d1 hd).isSome = true)
    (ents : List (String × List String)) :
    validate_json (Json.obj (aset d1 "Entities"
      (Json.obj (ents.map (fun le =>
        (le.fst, Json.arr (le.snd.map Json.str))))))) = true := by
  have hkey : ∀ hd ∈ section_headers,
      ∃ v, aget d1 hd = some v ∧ entryOKB (hd, v) = true := by
    intro hd hmem
    obtain ⟨v, hv⟩ := Option.isSome_iff_exists.mp (hpres hd hmem)
    exact ⟨v, hv, aget_some_entryOK d1 hinv hd v hv⟩
  obtain ⟨v1, hg1, ho1⟩ := hkey "Requesting Party" (by simp [section_headers])
  obtain ⟨v2, hg2, ho2⟩ := hkey "Insured Information" (by simp [section_headers])
  obtain ⟨v3, hg3, ho3⟩ := hkey "Adjuster Information" (by simp [section_headers])
  obtain ⟨v4, hg4, ho4⟩ := hkey "Assignment Information" (by simp [section_headers])
  obtain ⟨v5, hg5, ho5⟩ := hkey "Assignment Type" (by simp [section_headers])
  obtain ⟨v6, hg6, ho6⟩ :=
    hkey "Additional details/Special Instructions" (by simp [section_headers])
  obtain ⟨v7, hg7, ho7⟩ := hkey "Attachment(s)" (by simp [section_headers])
  have hs1 : strFieldsShape ["Insurance Company", "Handler", "Carrier Claim Number"]
      v1 = true := ho1
  have hs2 : strFieldsShape ["Name", "Contact #", "Loss Address", "Public Adjuster",
      "Owner or Tenant"] v2 = true := ho2
  have hs3 : strFieldsShape ["Adjuster Name", "Adjuster Phone Number",
      "Adjuster Email", "Job Title", "Address", "Policy #"] v3 = true := ho3
  have hs4 : strFieldsShape ["Date of Loss/Occurrence", "Cause of loss",
      "Facts of Loss", "Loss Description", "Residence Occupied During Loss",
      "Was Someone home at time of damage", "Repair or Mitigation Progress",
      "Type", "Inspection type"] v4 = true := ho4
  have hs5 : atShape v5 = true := ho5
  have hs6 : isStrJ v6 = true := ho6
  have hs7 : strArrShape v7 = true := ho7
  have hne1 : ("Requesting Party" : String) ≠ "Entities" := by decide
  have hne2 : ("Insured Information" : String) ≠ "Entities" := by decide
  have hne3 : ("Adjuster Information" : String) ≠ "Entities" := by decide
  have hne4 : ("Assignment Information" : String) ≠ "Entities" := by decide
  have hne5 : ("Assignment Type" : String) ≠ "Entities" := by decide
  have hne6 : ("Additional details/Special Instructions" : String) ≠ "Entities" := by
    decide
  have hne7 : ("Attachment(s)" : String) ≠ "Entities" := by decide
  have hE := aget_aset_self d1 "Entities"
    (Json.obj (ents.map (fun le => (le.fst, Json.arr (le.snd.map Json.str)))))
  have hgen : ∀ k, k ≠ "Entities" →
      aget (aset d1 "Entities" (Json.obj (ents.map (fun le =>
        (le.fst, Json.arr (le.snd.map Json.str)))))) k = aget d1 k :=
    fun k hk => aget_aset_ne d1 "Entities" k _ hk
  have hg1a := (hgen "Requesting Party" hne1).trans hg1
  have hg2a := (hgen "Insured Information" hne2).trans hg2
  have hg3a := (hgen "Adjuster Information" hne3).trans hg3
  have hg4a := (hgen "Assignment Information" hne4).trans hg4
  have hg5a := (hgen "Assignment Type" hne5).trans hg5
  have hg6a := (hgen "Additional details/Special Instructions" hne6).trans hg6
  have hg7a := (hgen "Attachment(s)" hne7).trans hg7
  have h1 := strObjField_of_shape _ _ _ _ hg1a hs1
  have h2 := strObjField_of_shape _ _ _ _ hg2a hs2
  have h3 := strObjField_of_shape _ _ _ _ hg3a hs3
  have h4 := strObjField_of_shape _ _ _ _ hg4a hs4
  have h5 := atConjunct_of _ _ hg5a hs5
  have h6 := adConjunct_of _ _ hg6a hs6
  have h7 := attachConjunct_of _ _ hg7a hs7
  have h8 := entsConjunct_of _ _ hE (entsShape_built ents)
  simp only [validate_json]
  rw [h1, h2, h3, h4, h5, h6, h7, h8]
  rfl

/-- The parse pipeline, with its intermediate lets spelled out. -/
theorem ruleBasedParse_def (ef : String → List (String × List String))
    (text : String) :
    ruleBasedParse ef text =
      validationGate (Json.obj (aset
        (if (aget ((split_into_sections text).foldl parseStep [])
              "Additional details/Special Instructions").isSome
         then (split_into_sections text).foldl parseStep []
         else dictUpdate ((split_into_sections text).foldl parseStep [])
           (default_section_data "Additional details/Special Instructions"))
        "Entities"
        (Json.obj ((ef text).map (fun le =>
          (le.fst, Json.arr (le.snd.map Json.str))))))) := rfl

/-- `RuleBasedParser.parse` always passes its own validation gate: it
returns the assembled record, which `validate_json` accepts. -/
theorem ruleBasedParse_ok (ef : String → List (String × List String))
    (text : String) :
    ruleBasedParse ef text = Except.ok (Json.obj (aset
      ((split_into_sections text).foldl parseStep [])
      "Entities" (Json.obj ((ef text).map (fun le =>
        (le.fst, Json.arr (le.snd.map Json.str))))))) ∧
    validate_json (Json.obj (aset
      ((split_into_sections text).foldl parseStep [])
      "Entities" (Json.obj ((ef text).map (fun le =>
        (le.fst, Json.arr (le.snd.map Json.str))))))) = true := by
  have hinv1 : ∀ kv ∈ (split_into_sections text).foldl parseStep [],
      entryOKB kv = true :=
    parseFold_inv _ [] (fun kv hkv => absurd hkv (List.not_mem_nil kv))
  have hpres : ∀ hd ∈ section_headers,
      (aget ((split_into_sections text).foldl parseStep []) hd).isSome = true := by
    intro hd hmem
    obtain ⟨kv, hkv, hfst⟩ := split_has_headers text hd hmem
    refine parseFold_isSome_of_entry _ [] hd ⟨kv, hkv, ?_⟩
    rw [hfst]
    exact dispatch_exact_key hd hmem kv.snd
  have hval := validate_built _ hinv1 hpres (ef text)
  refine ⟨?_, hval⟩
  rw [ruleBasedParse_def]
  rw [if_pos (hpres "Additional details/Special Instructions"
    (by simp [section_headers]))]
  unfold validationGate
  rw [if_pos hval]

set_option maxHeartbeats 4000000 in
/-- C1: whenever `RuleBasedParser.parse` returns a record instead of
raising, the record passes the full assignment-schema check: the four
section objects with all their declared string fields, `Assignment Type`
with its four boolean flags and `Other` object, the additional-details
string, the attachments array of strings and the entities object are all
present with their declared types — the record is never partial. On the
empty text with no entities extracted, every field holds its sentinel:
`"N/A"` for strings, `false` for the flags, and the empty array/object for
attachments and entities. -/
theorem C1_record_never_partial :
    (∀ (ef : String → List (String × List String)) (text : String) (record : Json),
        ruleBasedParse ef text = Except.ok record → validate_json record = true) ∧
    ruleBasedParse (fun _ => []) "" = Except.ok (Json.obj
      [("Requesting Party", Json.obj [("Insurance Company", Json.str "N/A"),
          ("Handler", Json.str "N/A"), ("Carrier Claim Number", Json.str "N/A")]),
       ("Insured Information", Json.obj [("Name", Json.str "N/A"),
          ("Contact #", Json.str "N/A"), ("Loss Address", Json.str "N/A"),
          ("Public Adjuster", Json.str "N/A"), ("Owner or Tenant", Json.str "N/A")]),
       ("Adjuster Information", Json.obj [("Adjuster Name", Json.str "N/A"),
          ("Adjuster Phone Number", Json.str "N/A"),
          ("Adjuster Email", Json.str "N/A"), ("Job Title", Json.str "N/A"),
          ("Address", Json.str "N/A"), ("Policy #", Json.str "N/A")]),
       ("Assignment Information", Json.obj
          [("Date of Loss/Occurrence", Json.str "N/A"),
           ("Cause of loss", Json.str "N/A"), ("Facts of Loss", Json.str "N/A"),
           ("Loss Description", Json.str "N/A"),
           ("Residence Occupied During Loss", Json.str "N/A"),
           ("Was Someone home at time of damage", Json.str "N/A"),
           ("Repair or Mitigation Progress", Json.str "N/A"),
           ("Type", Json.str "N/A"), ("Inspection type", Json.str "N/A")]),
       ("Assignment Type", Json.obj [("Wind", Json.bool false),
          ("Structural", Json.bool false), ("Hail", Json.bool false),
          ("Foundation", Json.bool false),
          ("Other", Json.obj [("Checked", Json.bool false),
             ("Details", Json.str "N/A")])]),
       ("Additional details/Special Instructions", Json.str "N/A"),
       ("Attachment(s)", Json.arr []),
       ("Entities", Json.obj [])]) := by
  constructor
  · intro ef text record h
    obtain ⟨heq, hval⟩ := ruleBasedParse_ok ef text
    rw [heq] at h
    injection h with h2
    rw [← h2]
    exact hval
  · rfl

set_option maxHeartbeats 4000000 in
/-- C1 witness: the all-sentinel record returned on the empty text is
accepted by the validator. -/
theorem C1_record_never_partial_witness :
    validate_json (Json.obj
      [("Requesting Party", Json.obj [("Insurance Company", Json.str "N/A"),
          ("Handler", Json.str "N/A"), ("Carrier Claim Number", Json.str "N/A")]),
       ("Insured Information", Json.obj [("Name", Json.str "N/A"),
          ("Contact #", Json.str "N/A"), ("Loss Address", Json.str "N/A"),
          ("Public Adjuster", Json.str "N/A"), ("Owner or Tenant", Json.str "N/A")]),
       ("Adjuster Information", Json.obj [("Adjuster Name", Json.str "N/A"),
          ("Adjuster Phone Number", Json.str "N/A"),
          ("Adjuster Email", Json.str "N/A"), ("Job Title", Json.str "N/A"),
          ("Address", Json.str "N/A"), ("Policy #", Json.str "N/A")]),
       ("Assignment Information", Json.obj
          [("Date of Loss/Occurrence", Json.str "N/A"),
           ("Cause of loss", Json.str "N/A"), ("Facts of Loss", Json.str "N/A"),
           ("Loss Description", Json.str "N/A"),
           ("Residence Occupied During Loss", Json.str "N/A"),
           ("Was Someone home at time of damage", Json.str "N/A"),
           ("Repair or Mitigation Progress", Json.str "N/A"),
           ("Type", Json.str "N/A"), ("Inspection type", Json.str "N/A")]),
       ("Assignment Type", Json.obj [("Wind", Json.bool false),
          ("Structural", Json.bool false), ("Hail", Json.bool false),
          ("Foundation", Json.bool false),
          ("Other", Json.obj [("Checked", Json.bool false),
             ("Details", Json.str "N/A")])]),
       ("Additional details/Special Instructions", Json.str "N/A"),
       ("Attachment(s)", Json.arr []),
       ("Entities", Json.obj [])]) = true :=
  C1_record_never_partial.1 (fun _ => []) "" _ rfl

/-- A key recognized by the section pattern from a non-attachment header
line: it lower-cases to some configured header other than `Attachment(s)`. -/
def sectionKeyOK (k : String) : Prop :=
  ∃ hd ∈ section_headers, lowerS k = lowerS hd ∧
    lowerS k ≠ lowerS "Attachment(s)"

/-- Lower-casing commutes with `dropLast`. -/
theorem lowerL_dropLast (l : List Char) :
    lowerL l.dropLast = (lowerL l).dropLast := by
  induction l with
  | nil => rfl
  | cons c rest ih =>
      cases rest with
      | nil => rfl
      | cons c2 r2 =>
          show lowerC c :: lowerL ((c2 :: r2).dropLast) =
            lowerC c :: (lowerL (c2 :: r2)).dropLast
          rw [ih]

/-- A line recognized as a header lower-cases (after optional colon
removal) to one of the configured headers. -/
theorem headerGroup_cases (line g : String) (h : headerGroup line = some g) :
    ∃ hd ∈ section_headers, lowerS g = lowerS hd ∧
      (lowerS line = lowerS hd ∨ lowerS line = lowerS hd ++ ":") := by
  unfold headerGroup at h
  by_cases h1 : section_headers.any (fun hd => lowerS line == lowerS hd) = true
  · rw [if_pos h1] at h
    injection h with h2
    subst h2
    obtain ⟨hd, hmem, hbeq⟩ := List.any_eq_true.mp h1
    have hline : lowerS line = lowerS hd := by simpa using hbeq
    exact ⟨hd, hmem, hline, Or.inl hline⟩
  · rw [if_neg h1] at h
    by_cases h2 : section_headers.any (fun hd => lowerS line == lowerS hd ++ ":") = true
    · rw [if_pos h2] at h
      injection h with h3
      obtain ⟨hd, hmem, hbeq⟩ := List.any_eq_true.mp h2
      have hline : lowerS line = lowerS hd ++ ":" := by simpa using hbeq
      refine ⟨hd, hmem, ?_, Or.inr hline⟩
      rw [← h3]
      show String.mk (lowerL line.data.dropLast) = lowerS hd
      rw [lowerL_dropLast]
      have hdata : lowerL line.data = (lowerS hd).data ++ [':'] :=
        congrArg String.data hline
      rw [hdata, List.dropLast_concat]
    · rw [if_neg h2] at h
      cases h

/-- `sset` preserves a pointwise property that the new binding satisfies. -/
theorem sset_all {P : String × String → Prop} (acc : List (String × String))
    (k v : String) (hacc : ∀ kv ∈ acc, P kv) (hnew : P (k, v)) :
    ∀ kv ∈ sset acc k v, P kv := by
  intro kv hkv
  unfold sset at hkv
  by_cases he : acc.any (fun kv2 => kv2.fst == k) = true
  · rw [if_pos he] at hkv
    obtain ⟨kv0, hkv0, hmap⟩ := List.mem_map.mp hkv
    by_cases hk : (kv0.fst == k) = true
    · rw [if_pos hk] at hmap
      subst hmap
      exact hnew
    · rw [if_neg hk] at hmap
      subst hmap
      exact hacc kv0 hkv0
  · rw [if_neg he] at hkv
    rcases List.mem_append.mp hkv with hm | hm
    · exact hacc kv hm
    · rw [List.mem_singleton.mp hm]
      exact hnew

/-- The line loop only ever records recognized non-attachment keys, when no
line is recognized as the `Attachment(s)` header. -/
theorem splitFold_keys (lines : List String) :
    ∀ st : SplitState,
    (∀ l ∈ lines, ∀ g, headerGroup (pyStrip l) = some g →
      lowerS g ≠ lowerS "Attachment(s)") →
    (∀ kv ∈ st.sections, sectionKeyOK kv.fst) →
    (∀ c, st.current = some c → sectionKeyOK c) →
    (∀ kv ∈ (lines.foldl splitStep st).sections, sectionKeyOK kv.fst) ∧
    (∀ c, (lines.foldl splitStep st).current = some c → sectionKeyOK c) := by
  induction lines with
  | nil =>
      intro st _ hsec hcur
      exact ⟨hsec, hcur⟩
  | cons l rest ih =>
      intro st hlines hsec hcur
      simp only [List.foldl_cons]
      have hstep : (∀ kv ∈ (splitStep st l).sections, sectionKeyOK kv.fst) ∧
          (∀ c, (splitStep st l).current = some c → sectionKeyOK c) := by
        unfold splitStep
        by_cases hline : pyStrip l = ""
        · rw [if_pos hline]
          exact ⟨hsec, hcur⟩
        · rw [if_neg hline]
          cases hg : headerGroup (pyStrip l) with
          | none =>
              cases hc : st.current with
              | some cur =>
                  constructor
                  · exact hsec
                  · intro c hcc
                    cases hcc
                    exact hcur _ hc
              | none =>
                  constructor
                  · exact hsec
                  · intro c hcc
                    rw [hc] at hcc
                    cases hcc
          | some g =>
              have hgood : sectionKeyOK g := by
                obtain ⟨hd, hmem, hgl, _⟩ := headerGroup_cases _ _ hg
                exact ⟨hd, hmem, hgl, hlines l (List.mem_cons_self _ _) g hg⟩
              have hsecs : ∀ kv ∈ (match st.current with
                  | some cur => sset st.sections cur (pyStrip (joinNL st.buf))
                  | none => st.sections), sectionKeyOK kv.fst := by
                cases hc : st.current with
                | some cur => exact sset_all st.sections cur _ hsec (hcur cur hc)
                | none => exact hsec
              constructor
              · exact sset_all _ g "" hsecs hgood
              · intro c hcc
                cases hcc
                exact hgood
      exact ih (splitStep st l)
        (fun l2 hl2 => hlines l2 (List.mem_cons_of_mem _ hl2))
        hstep.1 hstep.2

/-- Every entry after the fill loop is an original entry or a fill entry
`(header, "")`. -/
theorem fillFold_mem (hs : List String) (acc : List (String × String)) :
    ∀ kv ∈ hs.foldl fillStep acc, kv ∈ acc ∨ ∃ hd ∈ hs, kv = (hd, "") := by
  induction hs generalizing acc with
  | nil =>
      intro kv hkv
      exact Or.inl hkv
  | cons h2 rest ih =>
      intro kv hkv
      rw [List.foldl_cons] at hkv
      rcases ih (fillStep acc h2) kv hkv with hm | ⟨hd, hmem, hkv2⟩
      · unfold fillStep at hm
        by_cases he : acc.any (fun kv2 => kv2.fst == h2) = true
        · rw [if_pos he] at hm
          exact Or.inl hm
        · rw [if_neg he] at hm
          rcases List.mem_append.mp hm with hm2 | hm2
          · exact Or.inl hm2
          · exact Or.inr ⟨h2, List.mem_cons_self _ _, List.mem_singleton.mp hm2⟩
      · exact Or.inr ⟨hd, List.mem_cons_of_mem _ hmem, hkv2⟩

/-- When no line is recognized as the `Attachment(s)` header, every
segmenter entry is either keyed by a recognized non-attachment header or is
a fill entry `(header, "")`. -/
theorem split_mem (text : String)
    (h : ∀ l ∈ pyLines text, ∀ g, headerGroup (pyStrip l) = some g →
      lowerS g ≠ lowerS "Attachment(s)") :
    ∀ kv ∈ split_into_sections text,
      sectionKeyOK kv.fst ∨ ∃ hd ∈ section_headers, kv = (hd, "") := by
  intro kv hkv
  unfold split_into_sections at hkv
  obtain ⟨hsecF, hcurF⟩ := splitFold_keys (pyLines text) ⟨[], none, []⟩ h
    (fun kv2 hkv2 => absurd hkv2 (List.not_mem_nil kv2))
    (fun c hc => by cases hc)
  rcases fillFold_mem section_headers _ kv hkv with hm | hfill
  · left
    cases hc : ((pyLines text).foldl splitStep ⟨[], none, []⟩).current with
    | some cur =>
        simp only [hc] at hm
        by_cases hb : ((pyLines text).foldl splitStep ⟨[], none, []⟩).buf.isEmpty
        · rw [if_pos hb] at hm
          exact hsecF kv hm
        · rw [if_neg hb] at hm
          exact sset_all _ cur _ hsecF (hcurF cur hc) kv hm
    | none =>
        simp only [hc] at hm
        exact hsecF kv hm
  · right
    exact hfill

/-- A lookup over a dictionary whose `k`-bindings all carry `v`, when `k`
is bound, yields `v` (string dictionaries). -/
theorem sget_eq_of (d : List (String × String)) (k v : String)
    (h1 : ∃ kv ∈ d, kv.fst = k)
    (h2 : ∀ kv ∈ d, kv.fst = k → kv.snd = v) : sget d k = some v := by
  unfold sget
  cases hf : d.find? (fun kv => kv.fst == k) with
  | none =>
      obtain ⟨kv, hkv, hfst⟩ := h1
      have := List.find?_eq_none.mp hf kv hkv
      exact absurd (by simp [hfst]) this
  | some kv =>
      have hmem := List.mem_of_find?_eq_some hf
      have hfst : kv.fst = k := by simpa using List.find?_some hf
      show some kv.snd = some v
      rw [h2 kv hmem hfst]

/-- A lookup over a dictionary whose `k`-bindings all carry `v`, when `k`
is bound, yields `v` (JSON dictionaries). -/
theorem aget_eq_of (d : List (String × Json)) (k : String) (v : Json)
    (hall : ∀ kv ∈ d, kv.fst = k → kv.snd = v)
    (hs : (aget d k).isSome = true) : aget d k = some v := by
  unfold aget at hs ⊢
  cases hf : d.find? (fun kv => kv.fst == k) with
  | none =>
      rw [hf] at hs
      simp at hs
  | some kv =>
      have hmem := List.mem_of_find?_eq_some hf
      have hfst : kv.fst = k := by simpa using List.find?_some hf
      show some kv.snd = some v
      rw [hall kv hmem hfst]

/-- The parse fold preserves a fixed value for all bindings of `k` when
every dispatched binding of `k` carries that value. -/
theorem parseFold_val (entries : List (String × String)) :
    ∀ acc : List (String × Json), ∀ k : String, ∀ v : Json,
    (∀ kv ∈ acc, kv.fst = k → kv.snd = v) →
    (∀ e ∈ entries, ∀ kv ∈ sectionDispatch e.fst e.snd,
      kv.fst = k → kv.snd = v) →
    ∀ kv ∈ entries.foldl parseStep acc, kv.fst = k → kv.snd = v := by
  induction entries with
  | nil =>
      intro acc k v hacc _
      exact hacc
  | cons e rest ih =>
      intro acc k v hacc hent
      simp only [List.foldl_cons]
      refine ih _ k v ?_ (fun e2 he2 => hent e2 (List.mem_cons_of_mem _ he2))
      exact dictUpdate_all acc _ hacc (hent e (List.mem_cons_self _ _))

/-- A section whose snake-cased key is not `attachments` never binds
`Attachment(s)` to anything but the empty array. -/
theorem dispatch_attach_val (k c : String)
    (hk : snake_case k ≠ "attachments") :
    ∀ kv ∈ sectionDispatch k c,
      kv.fst = "Attachment(s)" → kv.snd = Json.arr [] := by
  intro kv hkv
  unfold sectionDispatch at hkv
  by_cases h1 : snake_case k = "requesting_party"
  · rw [if_pos h1] at hkv
    simp only [extract_requesting_party, List.mem_singleton] at hkv
    subst hkv
    intro hfst
    simp at hfst
  rw [if_neg h1] at hkv
  by_cases h2 : snake_case k = "insured_information"
  · rw [if_pos h2] at hkv
    simp only [extract_insured_information, List.mem_singleton] at hkv
    subst hkv
    intro hfst
    simp at hfst
  rw [if_neg h2] at hkv
  by_cases h3 : snake_case k = "adjuster_information"
  · rw [if_pos h3] at hkv
    simp only [extract_adjuster_information, List.mem_singleton] at hkv
    subst hkv
    intro hfst
    simp at hfst
  rw [if_neg h3] at hkv
  by_cases h4 : snake_case k = "assignment_information"
  · rw [if_pos h4] at hkv
    simp only [extract_assignment_information, List.mem_singleton] at hkv
    subst hkv
    intro hfst
    simp at hfst
  rw [if_neg h4] at hkv
  by_cases h5 : snake_case k = "assignment_type"
  · rw [if_pos h5] at hkv
    simp only [extract_assignment_type, List.mem_singleton] at hkv
    subst hkv
    intro hfst
    simp at hfst
  rw [if_neg h5] at hkv
  rw [if_neg hk] at hkv
  revert hkv
  unfold default_section_data
  split_ifs <;> (intro hkv; first
    | (simp only [List.mem_singleton] at hkv; subst hkv; intro hfst; first
        | rfl
        | simp at hfst)
    | (exact absurd hkv (List.not_mem_nil kv)))

/-- When no line is recognized as the `Attachment(s)` header, every
segmenter entry's dispatch binds `Attachment(s)` only to the empty array. -/
theorem split_dispatch_attach (text : String)
    (h : ∀ l ∈ pyLines text, ∀ g, headerGroup (pyStrip l) = some g →
      lowerS g ≠ lowerS "Attachment(s)") :
    ∀ e ∈ split_into_sections text, ∀ kv ∈ sectionDispatch e.fst e.snd,
      kv.fst = "Attachment(s)" → kv.snd = Json.arr [] := by
  intro e he kv hkv hfst
  rcases split_mem text h e he with ⟨hd, hmem, hl, hne⟩ | ⟨hd, hmem, hkv2⟩
  · have hhd : hd ≠ "Attachment(s)" := by
      intro hEq
      rw [hEq] at hl
      exact hne hl
    have hsc : snake_case e.fst = snake_case hd := snake_case_of_lowerS _ _ hl
    have hscne : snake_case e.fst ≠ "attachments" := by
      rw [hsc]
      simp only [section_headers, List.mem_cons, List.mem_singleton] at hmem
      rcases hmem with rfl | rfl | rfl | rfl | rfl | rfl | rfl | hf
      · decide
      · decide
      · decide
      · decide
      · decide
      · decide
      · exact absurd rfl hhd
      · exact absurd hf (List.not_mem_nil _)
    exact dispatch_attach_val e.fst e.snd hscne kv hkv hfst
  · subst hkv2
    simp only [section_headers, List.mem_cons, List.mem_singleton] at hmem
    rcases hmem with rfl | rfl | rfl | rfl | rfl | rfl | rfl | hf
    · exact dispatch_attach_val _ _ (by decide) kv hkv hfst
    · exact dispatch_attach_val _ _ (by decide) kv hkv hfst
    · exact dispatch_attach_val _ _ (by decide) kv hkv hfst
    · exact dispatch_attach_val _ _ (by decide) kv hkv hfst
    · exact dispatch_attach_val _ _ (by decide) kv hkv hfst
    · exact dispatch_attach_val _ _ (by decide) kv hkv hfst
    · have hred : sectionDispatch (("Attachment(s)", "") : String × String).fst
          (("Attachment(s)", "") : String × String).snd
          = [("Attachment(s)", Json.arr [])] := rfl
      rw [hred] at hkv
      rw [List.mem_singleton.mp hkv]
    · exact absurd hf (List.not_mem_nil _)

/-- C7: for every input text in which no line is recognized by the section
pattern as the `Attachment(s)` header, the segmenter still produces an
entry for every configured header, the `Attachment(s)` entry carries the
empty body, and the parse succeeds with `Attachment(s)` equal to the empty
array — no error is raised. -/
theorem C7_missing_attachment_header
    (ef : String → List (String × List String)) (text : String)
    (h : ∀ l ∈ pyLines text, ∀ g, headerGroup (pyStrip l) = some g →
      lowerS g ≠ lowerS "Attachment(s)") :
    (∀ hd ∈ section_headers, ∃ kv ∈ split_into_sections text, kv.fst = hd) ∧
    sget (split_into_sections text) "Attachment(s)" = some "" ∧
    ∃ kvs, ruleBasedParse ef text = Except.ok (Json.obj kvs) ∧
      aget kvs "Attachment(s)" = some (Json.arr []) := by
  refine ⟨split_has_headers text, ?_, ?_⟩
  · refine sget_eq_of _ _ ""
      (split_has_headers text "Attachment(s)" (by simp [section_headers])) ?_
    intro kv hkv hfst
    rcases split_mem text h kv hkv with ⟨hd, hmem, hl, hne⟩ | ⟨hd, hmem, hkv2⟩
    · rw [hfst] at hne
      exact absurd rfl hne
    · rw [hkv2]
  · obtain ⟨heq, hval⟩ := ruleBasedParse_ok ef text
    refine ⟨_, heq, ?_⟩
    have hne : ("Attachment(s)" : String) ≠ "Entities" := by decide
    rw [aget_aset_ne _ "Entities" "Attachment(s)" _ hne]
    refine aget_eq_of _ _ _ ?_ ?_
    · exact parseFold_val (split_into_sections text) [] "Attachment(s)"
        (Json.arr []) (fun kv hkv => absurd hkv (List.not_mem_nil kv))
        (split_dispatch_attach text h)
    · obtain ⟨kv, hkv, hfst⟩ :=
        split_has_headers text "Attachment(s)" (by simp [section_headers])
      refine parseFold_isSome_of_entry _ [] _ ⟨kv, hkv, ?_⟩
      rw [hfst]
      exact dispatch_exact_key _ (by simp [section_headers]) kv.snd

/-- C7 witness: the text `"hello"` has no attachment header; all headers
are segmented in, the attachment body is empty, and the parse returns the
empty attachments array. -/
theorem C7_missing_attachment_header_witness :
    (∀ hd ∈ section_headers,
      ∃ kv ∈ split_into_sections "hello", kv.fst = hd) ∧
    sget (split_into_sections "hello") "Attachment(s)" = some "" ∧
    ∃ kvs, ruleBasedParse (fun _ => []) "hello" = Except.ok (Json.obj kvs) ∧
      aget kvs "Attachment(s)" = some (Json.arr []) := by
  refine C7_missing_attachment_header (fun _ => []) "hello" ?_
  intro l hl g hg
  rw [show pyLines "hello" = ["hello"] from rfl, List.mem_singleton] at hl
  subst hl
  rw [show headerGroup (pyStrip "hello") = none from rfl] at hg
  cases hg

/-! ## Idempotence of the normalizers -/

/-- A `pAndThen` with an empty prefix parse is empty. -/
theorem pAndThen_nil_left {α β : Type} (p : DirP α) (f : α → DirP β)
    (s : List Char) (h : p s = []) : pAndThen p f s = [] := by
  unfold pAndThen
  rw [h]
  rfl

/-- A `pAndThen` all of whose continuations are empty is empty. -/
theorem pAndThen_eq_nil {α β : Type} (p : DirP α) (f : α → DirP β)
    (s : List Char) (h : ∀ ar ∈ p s, f ar.fst ar.snd = []) :
    pAndThen p f s = [] := by
  unfold pAndThen
  rw [List.eq_nil_iff_forall_not_mem]
  intro x hx
  obtain ⟨ar, har, hin⟩ := List.mem_flatMap.mp hx
  rw [h ar har] at hin
  exact absurd hin (List.not_mem_nil x)

/-- Membership in a `pAndThen` factors through the prefix parse. -/
theorem mem_pAndThen {α β : Type} (p : DirP α) (f : α → DirP β)
    (s : List Char) (pr : β × List Char) (h : pr ∈ pAndThen p f s) :
    ∃ ar ∈ p s, pr ∈ f ar.fst ar.snd := List.mem_flatMap.mp h

/-- A failing literal directive. -/
theorem pLitC_fail (ch x : Char) (r : List Char)
    (h : ¬ lowerC x = lowerC ch) : pLitC ch (x :: r) = [] := by
  show (if lowerC x = lowerC ch then [((), r)] else []) = []
  rw [if_neg h]

/-- A digit never matches a lower-case-fixed non-letter literal. -/
theorem digit_not_lower_eq (x : Char) (hx : isDigitC x = true) (ch : Char)
    (hl : lowerC ch = ch) (hnl : ch.toNat < 97 ∨ 122 < ch.toNat)
    (hd : isDigitC ch = false) : ¬ lowerC x = lowerC ch := by
  intro h
  rw [hl] at h
  have h2 := eq_of_lowerC_nonletter x ch hnl h
  rw [h2] at hx
  rw [hx] at hd
  exact absurd hd (by simp)

/-- A digit never matches the literal `T`. -/
theorem digit_not_lower_T (x : Char) (hx : isDigitC x = true) :
    ¬ lowerC x = lowerC 'T' := by
  intro h
  rw [show lowerC 'T' = 't' from by decide] at h
  rcases eq_of_lowerC_letter x 't' 'T' (by decide) h with rfl | rfl
  · exact absurd hx (by decide)
  · exact absurd hx (by decide)

/-- A digit never matches a lower-case letter. -/
theorem digit_not_lower_letter (x : Char) (hx : isDigitC x = true)
    (l u : Char) (hu : u.toNat + 32 = l.toNat) (hdl : isDigitC l = false)
    (hdu : isDigitC u = false) : ¬ lowerC x = l := by
  intro h
  rcases eq_of_lowerC_letter x l u hu h with rfl | rfl
  · rw [hx] at hdl
    exact absurd hdl (by simp)
  · rw [hx] at hdu
    exact absurd hdu (by simp)

/-- Digits are not whitespace. -/
theorem isSpaceC_of_digit (x : Char) (hx : isDigitC x = true) :
    isSpaceC x = false := by
  cases h : isSpaceC x
  · rfl
  · exfalso
    simp [isSpaceC] at h
    rcases h with ((((rfl | rfl) | rfl) | rfl) | rfl) | rfl <;> exact absurd hx (by decide)

/-- The whitespace directive fails on a non-space head. -/
theorem pWS1_fail (x : Char) (hx : isSpaceC x = false) (r : List Char) :
    pWS1 (x :: r) = [] := by
  show ((List.range ((((x :: r).takeWhile isSpaceC)).length + 1)).reverse).filterMap
    (fun n => if 1 ≤ n then some ((), (x :: r).drop n) else none) = []
  rw [List.takeWhile_cons_of_neg (by simp [hx])]
  rfl

/-- `digitChar` of a digit value is a digit character. -/
theorem isDigitC_digitChar (n : Nat) (h : n < 10) :
    isDigitC (Nat.digitChar n) = true := by
  interval_cases n <;> decide

/-- `digitVal` inverts `digitChar` on digit values. -/
theorem digitVal_digitChar (n : Nat) (h : n < 10) :
    digitVal (Nat.digitChar n) = n := by
  interval_cases n <;> decide

/-- The final step of `Nat.toDigitsCore`. -/
theorem toDigitsCore_last (fuel n : Nat) (ds : List Char) (h : n < 10) :
    Nat.toDigitsCore 10 (fuel + 1) n ds = Nat.digitChar (n % 10) :: ds := by
  have h0 : n / 10 = 0 := Nat.div_eq_of_lt h
  simp [Nat.toDigitsCore, h0]

/-- A non-final step of `Nat.toDigitsCore`. -/
theorem toDigitsCore_step (fuel n : Nat) (ds : List Char) (h : 10 ≤ n) :
    Nat.toDigitsCore 10 (fuel + 1) n ds =
      Nat.toDigitsCore 10 fuel (n / 10) (Nat.digitChar (n % 10) :: ds) := by
  have h0 : ¬ n / 10 = 0 := by omega
  simp [Nat.toDigitsCore, h0]

/-- One-digit decimal rendering. -/
theorem toString_data_1 (n : Nat) (h2 : n < 10) :
    (toString n).data = [Nat.digitChar (n % 10)] := by
  show Nat.toDigitsCore 10 (n + 1) n [] = [Nat.digitChar (n % 10)]
  exact toDigitsCore_last n n [] h2

/-- Two-digit decimal rendering. -/
theorem toString_data_2 (n : Nat) (h1 : 10 ≤ n) (h2 : n < 100) :
    (toString n).data = [Nat.digitChar (n / 10 % 10), Nat.digitChar (n % 10)] := by
  show Nat.toDigitsCore 10 (n + 1) n [] = _
  rw [toDigitsCore_step n n [] h1]
  obtain ⟨k, rfl⟩ : ∃ k, n = k + 1 := ⟨n - 1, by omega⟩
  rw [toDigitsCore_last k ((k + 1) / 10) _ (by omega)]

/-- Three-digit decimal rendering. -/
theorem toString_data_3 (n : Nat) (h1 : 100 ≤ n) (h2 : n < 1000) :
    (toString n).data = [Nat.digitChar (n / 10 / 10 % 10),
      Nat.digitChar (n / 10 % 10), Nat.digitChar (n % 10)] := by
  show Nat.toDigitsCore 10 (n + 1) n [] = _
  rw [toDigitsCore_step n n [] (by omega)]
  obtain ⟨k, rfl⟩ : ∃ k, n = k + 1 := ⟨n - 1, by omega⟩
  rw [toDigitsCore_step k ((k + 1) / 10) _ (by omega)]
  obtain ⟨k2, rfl⟩ : ∃ j, k = j + 1 := ⟨k - 1, by omega⟩
  rw [toDigitsCore_last k2 ((k2 + 1 + 1) / 10 / 10) _ (by omega)]

/-- Four-digit decimal rendering. -/
theorem toString_data_4 (n : Nat) (h1 : 1000 ≤ n) (h2 : n < 10000) :
    (toString n).data = [Nat.digitChar (n / 10 / 10 / 10 % 10),
      Nat.digitChar (n / 10 / 10 % 10), Nat.digitChar (n / 10 % 10),
      Nat.digitChar (n % 10)] := by
  show Nat.toDigitsCore 10 (n + 1) n [] = _
  rw [toDigitsCore_step n n [] (by omega)]
  obtain ⟨k, rfl⟩ : ∃ k, n = k + 1 := ⟨n - 1, by omega⟩
  rw [toDigitsCore_step k ((k + 1) / 10) _ (by omega)]
  obtain ⟨k2, rfl⟩ : ∃ j, k = j + 1 := ⟨k - 1, by omega⟩
  rw [toDigitsCore_step k2 ((k2 + 1 + 1) / 10 / 10) _ (by omega)]
  obtain ⟨k3, rfl⟩ : ∃ j, k2 = j + 1 := ⟨k2 - 1, by omega⟩
  rw [toDigitsCore_last k3 ((k3 + 1 + 1 + 1) / 10 / 10 / 10) _ (by omega)]

/-- String concatenation at the character level. -/
theorem data_append (s t : String) : (s ++ t).data = s.data ++ t.data := rfl

/-- `pad2` of a month is two digit characters parsed by `%m` as the month
itself, followed only by single-digit leftovers. -/
theorem pMonth2_pad (m : Nat) (h1 : 1 ≤ m) (h2 : m ≤ 12) (rest : List Char) :
    ∃ ps, pMonth2 ((pad2 m).data ++ rest) = (m, rest) :: ps ∧
      ∀ pr ∈ ps, ∃ x xs, pr.snd = x :: xs ∧ isDigitC x = true := by
  interval_cases m <;>
    (refine ⟨_, rfl, ?_⟩
     intro pr hpr
     simp [pad2, toString, Nat.repr, Nat.toDigits, Nat.toDigitsCore,
       Nat.digitChar, List.asString] at hpr
     try (subst hpr; exact ⟨_, _, rfl, rfl⟩))

/-- `pad2` of a day is two digit characters parsed by `%d` as the day
itself, followed only by single-digit leftovers. -/
theorem pDay2_pad (d : Nat) (h1 : 1 ≤ d) (h2 : d ≤ 31) (rest : List Char) :
    ∃ ps, pDay2 ((pad2 d).data ++ rest) = (d, rest) :: ps ∧
      ∀ pr ∈ ps, ∃ x xs, pr.snd = x :: xs ∧ isDigitC x = true := by
  interval_cases d <;>
    (refine ⟨_, rfl, ?_⟩
     intro pr hpr
     simp [pad2, toString, Nat.repr, Nat.toDigits, Nat.toDigitsCore,
       Nat.digitChar, List.asString] at hpr
     try (subst hpr; exact ⟨_, _, rfl, rfl⟩))

/-- The two characters of `pad2` are digits. -/
theorem pad2_digits (n : Nat) (h1 : 1 ≤ n) (h2 : n ≤ 31) :
    ∃ x1 x2, (pad2 n).data = [x1, x2] ∧ isDigitC x1 = true ∧
      isDigitC x2 = true := by
  interval_cases n <;> exact ⟨_, _, rfl, rfl, rfl⟩

/-- The ten-digit phone rendering is a fixed point of the formatter. -/
theorem format_phone_fixed10 (ds : List Char)
    (hdig : ∀ c ∈ ds, isDigitC c = true) (hlen : ds.length = 10) :
    format_phone_number ("(" ++ String.mk (ds.take 3) ++ ") " ++
      String.mk ((ds.drop 3).take 3) ++ "-" ++ String.mk (ds.drop 6)) =
    "(" ++ String.mk (ds.take 3) ++ ") " ++
      String.mk ((ds.drop 3).take 3) ++ "-" ++ String.mk (ds.drop 6) := by
  have hdata : ("(" ++ String.mk (ds.take 3) ++ ") " ++
      String.mk ((ds.drop 3).take 3) ++ "-" ++ String.mk (ds.drop 6)).data =
      '(' :: (ds.take 3 ++ (')' :: ' ' :: ((ds.drop 3).take 3 ++
        ('-' :: ds.drop 6)))) := by
    simp [data_append, show ("(" : String).data = ['('] from rfl,
      show (") " : String).data = [')', ' '] from rfl,
      show ("-" : String).data = ['-'] from rfl, List.append_assoc]
  have hfil : ('(' :: (ds.take 3 ++ (')' :: ' ' :: ((ds.drop 3).take 3 ++
      ('-' :: ds.drop 6))))).filter isDigitC = ds := by
    rw [List.filter_cons_of_neg (by decide), List.filter_append,
      List.filter_cons_of_neg (by decide), List.filter_cons_of_neg (by decide),
      List.filter_append, List.filter_cons_of_neg (by decide)]
    rw [List.filter_eq_self.mpr (fun c hc => hdig c (List.take_subset _ _ hc)),
      List.filter_eq_self.mpr (fun c hc =>
        hdig c (List.drop_subset _ _ (List.take_subset _ _ hc))),
      List.filter_eq_self.mpr (fun c hc => hdig c (List.drop_subset _ _ hc))]
    rw [show ds.drop 6 = (ds.drop 3).drop 3 by rw [List.drop_drop]]
    rw [List.take_append_drop, List.take_append_drop]
  simp only [format_phone_number]
  rw [hdata, hfil, if_pos hlen]

/-- The eleven-digit phone rendering is a fixed point of the formatter. -/
theorem format_phone_fixed11 (ds : List Char)
    (hdig : ∀ c ∈ ds, isDigitC c = true) (hlen : ds.length = 11)
    (h1 : ds.take 1 = ['1']) :
    format_phone_number ("+1 (" ++ String.mk ((ds.drop 1).take 3) ++ ") " ++
      String.mk ((ds.drop 4).take 3) ++ "-" ++ String.mk (ds.drop 7)) =
    "+1 (" ++ String.mk ((ds.drop 1).take 3) ++ ") " ++
      String.mk ((ds.drop 4).take 3) ++ "-" ++ String.mk (ds.drop 7) := by
  have hdata : ("+1 (" ++ String.mk ((ds.drop 1).take 3) ++ ") " ++
      String.mk ((ds.drop 4).take 3) ++ "-" ++ String.mk (ds.drop 7)).data =
      '+' :: '1' :: ' ' :: '(' :: ((ds.drop 1).take 3 ++ (')' :: ' ' ::
        ((ds.drop 4).take 3 ++ ('-' :: ds.drop 7)))) := by
    simp [data_append, show ("+1 (" : String).data = ['+', '1', ' ', '('] from rfl,
      show (") " : String).data = [')', ' '] from rfl,
      show ("-" : String).data = ['-'] from rfl, List.append_assoc]
  have hfil : ('+' :: '1' :: ' ' :: '(' :: ((ds.drop 1).take 3 ++ (')' :: ' ' ::
      ((ds.drop 4).take 3 ++ ('-' :: ds.drop 7))))).filter isDigitC = ds := by
    rw [List.filter_cons_of_neg (by decide), List.filter_cons_of_pos (by decide),
      List.filter_cons_of_neg (by decide), List.filter_cons_of_neg (by decide),
      List.filter_append, List.filter_cons_of_neg (by decide),
      List.filter_cons_of_neg (by decide), List.filter_append,
      List.filter_cons_of_neg (by decide)]
    rw [List.filter_eq_self.mpr (fun c hc =>
        hdig c (List.drop_subset _ _ (List.take_subset _ _ hc))),
      List.filter_eq_self.mpr (fun c hc =>
        hdig c (List.drop_subset _ _ (List.take_subset _ _ hc))),
      List.filter_eq_self.mpr (fun c hc => hdig c (List.drop_subset _ _ hc))]
    rw [show ds.drop 7 = (ds.drop 4).drop 3 by rw [List.drop_drop],
      List.take_append_drop,
      show ds.drop 4 = (ds.drop 1).drop 3 by rw [List.drop_drop],
      List.take_append_drop]
    conv_rhs => rw [← List.take_append_drop 1 ds]
    rw [h1]
    rfl
  simp only [format_phone_number]
  rw [hdata, hfil, hlen]
  rw [if_neg (by omega), if_pos ⟨rfl, h1⟩]

/-- `format_phone_number` is idempotent. -/
theorem format_phone_number_idem (s : String) :
    format_phone_number (format_phone_number s) = format_phone_number s := by
  by_cases h10 : (s.data.filter isDigitC).length = 10
  · have hout : format_phone_number s =
        "(" ++ String.mk ((s.data.filter isDigitC).take 3) ++ ") " ++
        String.mk (((s.data.filter isDigitC).drop 3).take 3) ++ "-" ++
        String.mk ((s.data.filter isDigitC).drop 6) := by
      simp only [format_phone_number]
      rw [if_pos h10]
    rw [hout]
    exact format_phone_fixed10 (s.data.filter isDigitC)
      (fun c hc => List.of_mem_filter hc) h10
  · by_cases h11 : (s.data.filter isDigitC).length = 11 ∧
        (s.data.filter isDigitC).take 1 = ['1']
    · have hout : format_phone_number s =
          "+1 (" ++ String.mk (((s.data.filter isDigitC).drop 1).take 3) ++ ") " ++
          String.mk (((s.data.filter isDigitC).drop 4).take 3) ++ "-" ++
          String.mk ((s.data.filter isDigitC).drop 7) := by
        simp only [format_phone_number]
        rw [if_neg h10, if_pos h11]
      rw [hout]
      exact format_phone_fixed11 (s.data.filter isDigitC)
        (fun c hc => List.of_mem_filter hc) h11.1 h11.2
    · have hout : format_phone_number s = s := by
        simp only [format_phone_number]
        rw [if_neg h10, if_neg h11]
      rw [hout]
      exact hout

/-- Digit characters have value at most 9. -/
theorem digitVal_le (c : Char) (h : isDigitC c = true) : digitVal c ≤ 9 := by
  unfold isDigitC at h
  simp only [Char.isDigit, Bool.and_eq_true, decide_eq_true_eq] at h
  have h3 : c.toNat ≤ ('9' : Char).toNat := h.2
  have h4 : ('9' : Char).toNat = 57 := rfl
  unfold digitVal
  rw [h4] at h3
  rw [show (Char.toNat '0') = 48 from rfl]
  omega

/-- `%Y` on four digit characters. -/
theorem pYear4_cons4 (a b c d : Char) (r : List Char)
    (ha : isDigitC a = true) (hb : isDigitC b = true) (hc : isDigitC c = true)
    (hd : isDigitC d = true) :
    pYear4 (a :: b :: c :: d :: r) =
      [(digitVal a * 1000 + digitVal b * 100 + digitVal c * 10 + digitVal d, r)] := by
  show (if isDigitC a = true ∧ isDigitC b = true ∧ isDigitC c = true ∧
      isDigitC d = true then
      [(digitVal a * 1000 + digitVal b * 100 + digitVal c * 10 + digitVal d, r)]
    else []) = _
  rw [if_pos ⟨ha, hb, hc, hd⟩]

/-- `%Y` fails when one of the first four characters is not a digit. -/
theorem pYear4_fail4 (a b c d : Char) (r : List Char)
    (h : ¬(isDigitC a = true ∧ isDigitC b = true ∧ isDigitC c = true ∧
      isDigitC d = true)) :
    pYear4 (a :: b :: c :: d :: r) = [] := by
  show (if isDigitC a = true ∧ isDigitC b = true ∧ isDigitC c = true ∧
      isDigitC d = true then
      [(digitVal a * 1000 + digitVal b * 100 + digitVal c * 10 + digitVal d, r)]
    else []) = _
  rw [if_neg h]

/-- `%Y` values are at most 9999. -/
theorem pYear4_le (s : List Char) : ∀ pr ∈ pYear4 s, pr.fst ≤ 9999 := by
  intro pr hpr
  unfold pYear4 at hpr
  revert hpr
  split
  · split
    · rename_i a b c d r hcond
      intro hpr
      rw [List.mem_singleton] at hpr
      subst hpr
      obtain ⟨h1, h2, h3, h4⟩ := hcond
      have := digitVal_le a h1
      have := digitVal_le b h2
      have := digitVal_le c h3
      have := digitVal_le d h4
      simp only []
      omega
    · intro hpr
      exact absurd hpr (List.not_mem_nil pr)
  · intro hpr
    exact absurd hpr (List.not_mem_nil pr)

/-- A match from `strptimeRun` is valid. -/
theorem strptimeRun_valid (f : FmtP) (s : String) (t : Tm)
    (h : strptimeRun f s = some t) : tmValid t = true := by
  unfold strptimeRun at h
  cases hf : (f s.data).find? (fun r => r.snd.isEmpty) with
  | none => rw [hf] at h; cases h
  | some r =>
      simp only [hf] at h
      by_cases hv : tmValid r.fst = true
      · rw [if_pos hv] at h
        injection h with h2
        rw [← h2]
        exact hv
      · rw [if_neg hv] at h
        cases h

/-- A match from `strptimeRun` comes from the format's parse list. -/
theorem strptimeRun_mem (f : FmtP) (s : String) (t : Tm)
    (h : strptimeRun f s = some t) : ∃ r ∈ f s.data, r.fst = t := by
  unfold strptimeRun at h
  cases hf : (f s.data).find? (fun r => r.snd.isEmpty) with
  | none => rw [hf] at h; cases h
  | some r =>
      simp only [hf] at h
      by_cases hv : tmValid r.fst = true
      · rw [if_pos hv] at h
        injection h with h2
        exact ⟨r, List.mem_of_find?_eq_some hf, h2⟩
      · rw [if_neg hv] at h
        cases h

/-- An empty parse list fails `strptime`. -/
theorem strptimeRun_nil (f : FmtP) (s : String) (h : f s.data = []) :
    strptimeRun f s = none := by
  unfold strptimeRun
  rw [h]
  rfl

/-- A failing format advances the `parse_date` loop. -/
theorem parseDateGo_none (f : FmtP) (fs : List FmtP) (s : String)
    (h : strptimeRun f s = none) :
    parseDateGo (f :: fs) s = parseDateGo fs s := by
  simp only [parseDateGo, h]

/-- A succeeding format stops the `parse_date` loop. -/
theorem parseDateGo_some (f : FmtP) (fs : List FmtP) (s : String) (t : Tm)
    (h : strptimeRun f s = some t) :
    parseDateGo (f :: fs) s = renderYmd t.year t.month t.day := by
  simp only [parseDateGo, h]

/-- `parse_date` either returns the input or renders some format's match. -/
theorem parseDateGo_cases (fs : List FmtP) (s : String) :
    parseDateGo fs s = s ∨ ∃ f ∈ fs, ∃ t, strptimeRun f s = some t ∧
      parseDateGo fs s = renderYmd t.year t.month t.day := by
  induction fs with
  | nil => exact Or.inl rfl
  | cons f rest ih =>
      cases hf : strptimeRun f s with
      | some t =>
          right
          exact ⟨f, List.mem_cons_self _ _, t, hf, parseDateGo_some f rest s t hf⟩
      | none =>
          rw [parseDateGo_none f rest s hf]
          rcases ih with h | ⟨f2, hf2, t, ht, hgo⟩
          · exact Or.inl h
          · exact Or.inr ⟨f2, List.mem_cons_of_mem _ hf2, t, ht, hgo⟩

/-- A literal whose first character disagrees never matches. -/
theorem litMatch_head_ne (p0 : Char) (pr : List Char) (x : Char) (r : List Char)
    (h : ¬ lowerC x = lowerC p0) : litMatch (p0 :: pr) (x :: r) = none := by
  have hc2 : ¬((((x :: r).take (p0 :: pr).length).length = (p0 :: pr).length) ∧
      lowerL ((x :: r).take (p0 :: pr).length) = lowerL (p0 :: pr)) := by
    intro hcp
    obtain ⟨h1, h2⟩ := hcp
    rw [show ((p0 :: pr).length) = pr.length + 1 from rfl, List.take_succ_cons,
      lowerL_cons, lowerL_cons] at h2
    injection h2 with h3 _
    exact h h3
  show (if (((x :: r).take (p0 :: pr).length).length = (p0 :: pr).length ∧
      lowerL ((x :: r).take (p0 :: pr).length) = lowerL (p0 :: pr)) then
      some ((x :: r).take (p0 :: pr).length, (x :: r).drop (p0 :: pr).length)
    else none) = none
  rw [if_neg hc2]

/-- Name alternation fails when every name's first character disagrees. -/
theorem pNameFrom_head_ne (names : List String) (x : Char) (r : List Char)
    (h : ∀ nm ∈ names, ∃ p0 pr2, nm.data = p0 :: pr2 ∧ ¬ lowerC x = lowerC p0) :
    pNameFrom names (x :: r) = [] := by
  unfold pNameFrom
  rw [List.eq_nil_iff_forall_not_mem]
  intro pr hmem
  obtain ⟨p, hp, hin⟩ := List.mem_flatMap.mp hmem
  have hsnd : p.snd ∈ names := by
    have := List.mem_map_of_mem Prod.snd hp
    rwa [List.enum_map_snd] at this
  obtain ⟨p0, pr2, hdata, hne⟩ := h p.snd hsnd
  rw [hdata, litMatch_head_ne p0 pr2 x r hne] at hin
  exact absurd hin (List.not_mem_nil pr)

/-- `%B` fails on a digit head. -/
theorem pMonthName_digit (x : Char) (hx : isDigitC x = true) (r : List Char) :
    pMonthName (x :: r) = [] := by
  apply pNameFrom_head_ne
  intro nm hmem
  simp only [monthNames, List.mem_cons, List.mem_singleton] at hmem
  rcases hmem with rfl | rfl | rfl | rfl | rfl | rfl | rfl | rfl | rfl | rfl | rfl | rfl | hf
  · exact ⟨'j', "anuary".data, rfl, by
      rw [show lowerC 'j' = 'j' from by decide]
      exact digit_not_lower_letter x hx 'j' 'J' (by decide) (by decide) (by decide)⟩
  · exact ⟨'f', "ebruary".data, rfl, by
      rw [show lowerC 'f' = 'f' from by decide]
      exact digit_not_lower_letter x hx 'f' 'F' (by decide) (by decide) (by decide)⟩
  · exact ⟨'m', "arch".data, rfl, by
      rw [show lowerC 'm' = 'm' from by decide]
      exact digit_not_lower_letter x hx 'm' 'M' (by decide) (by decide) (by decide)⟩
  · exact ⟨'a', "pril".data, rfl, by
      rw [show lowerC 'a' = 'a' from by decide]
      exact digit_not_lower_letter x hx 'a' 'A' (by decide) (by decide) (by decide)⟩
  · exact ⟨'m', "ay".data, rfl, by
      rw [show lowerC 'm' = 'm' from by decide]
      exact digit_not_lower_letter x hx 'm' 'M' (by decide) (by decide) (by decide)⟩
  · exact ⟨'j', "une".data, rfl, by
      rw [show lowerC 'j' = 'j' from by decide]
      exact digit_not_lower_letter x hx 'j' 'J' (by decide) (by decide) (by decide)⟩
  · exact ⟨'j', "uly".data, rfl, by
      rw [show lowerC 'j' = 'j' from by decide]
      exact digit_not_lower_letter x hx 'j' 'J' (by decide) (by decide) (by decide)⟩
  · exact ⟨'a', "ugust".data, rfl, by
      rw [show lowerC 'a' = 'a' from by decide]
      exact digit_not_lower_letter x hx 'a' 'A' (by decide) (by decide) (by decide)⟩
  · exact ⟨'s', "eptember".data, rfl, by
      rw [show lowerC 's' = 's' from by decide]
      exact digit_not_lower_letter x hx 's' 'S' (by decide) (by decide) (by decide)⟩
  · exact ⟨'o', "ctober".data, rfl, by
      rw [show lowerC 'o' = 'o' from by decide]
      exact digit_not_lower_letter x hx 'o' 'O' (by decide) (by decide) (by decide)⟩
  · exact ⟨'n', "ovember".data, rfl, by
      rw [show lowerC 'n' = 'n' from by decide]
      exact digit_not_lower_letter x hx 'n' 'N' (by decide) (by decide) (by decide)⟩
  · exact ⟨'d', "ecember".data, rfl, by
      rw [show lowerC 'd' = 'd' from by decide]
      exact digit_not_lower_letter x hx 'd' 'D' (by decide) (by decide) (by decide)⟩
  · exact absurd hf (List.not_mem_nil _)

/-- `%b` fails on a digit head. -/
theorem pMonthAbbrev_digit (x : Char) (hx : isDigitC x = true) (r : List Char) :
    pMonthAbbrev (x :: r) = [] := by
  apply pNameFrom_head_ne
  intro nm hmem
  simp only [monthAbbrevs, List.mem_cons, List.mem_singleton] at hmem
  rcases hmem with rfl | rfl | rfl | rfl | rfl | rfl | rfl | rfl | rfl | rfl | rfl | rfl | hf
  · exact ⟨'j', "an".data, rfl, by
      rw [show lowerC 'j' = 'j' from by decide]
      exact digit_not_lower_letter x hx 'j' 'J' (by decide) (by decide) (by decide)⟩
  · exact ⟨'f', "eb".data, rfl, by
      rw [show lowerC 'f' = 'f' from by decide]
      exact digit_not_lower_letter x hx 'f' 'F' (by decide) (by decide) (by decide)⟩
  · exact ⟨'m', "ar".data, rfl, by
      rw [show lowerC 'm' = 'm' from by decide]
      exact digit_not_lower_letter x hx 'm' 'M' (by decide) (by decide) (by decide)⟩
  · exact ⟨'a', "pr".data, rfl, by
      rw [show lowerC 'a' = 'a' from by decide]
      exact digit_not_lower_letter x hx 'a' 'A' (by decide) (by decide) (by decide)⟩
  · exact ⟨'m', "ay".data, rfl, by
      rw [show lowerC 'm' = 'm' from by decide]
      exact digit_not_lower_letter x hx 'm' 'M' (by decide) (by decide) (by decide)⟩
  · exact ⟨'j', "un".data, rfl, by
      rw [show lowerC 'j' = 'j' from by decide]
      exact digit_not_lower_letter x hx 'j' 'J' (by decide) (by decide) (by decide)⟩
  · exact ⟨'j', "ul".data, rfl, by
      rw [show lowerC 'j' = 'j' from by decide]
      exact digit_not_lower_letter x hx 'j' 'J' (by decide) (by decide) (by decide)⟩
  · exact ⟨'a', "ug".data, rfl, by
      rw [show lowerC 'a' = 'a' from by decide]
      exact digit_not_lower_letter x hx 'a' 'A' (by decide) (by decide) (by decide)⟩
  · exact ⟨'s', "ep".data, rfl, by
      rw [show lowerC 's' = 's' from by decide]
      exact digit_not_lower_letter x hx 's' 'S' (by decide) (by decide) (by decide)⟩
  · exact ⟨'o', "ct".data, rfl, by
      rw [show lowerC 'o' = 'o' from by decide]
      exact digit_not_lower_letter x hx 'o' 'O' (by decide) (by decide) (by decide)⟩
  · exact ⟨'n', "ov".data, rfl, by
      rw [show lowerC 'n' = 'n' from by decide]
      exact digit_not_lower_letter x hx 'n' 'N' (by decide) (by decide) (by decide)⟩
  · exact ⟨'d', "ec".data, rfl, by
      rw [show lowerC 'd' = 'd' from by decide]
      exact digit_not_lower_letter x hx 'd' 'D' (by decide) (by decide) (by decide)⟩
  · exact absurd hf (List.not_mem_nil _)

/-- Membership in a guarded singleton implies membership in the branch. -/
theorem mem_ite_nil {α : Type} {c : Prop} [Decidable c] {l : List α} {a : α}
    (h : a ∈ (if c then l else [])) : a ∈ l := by
  by_cases hc : c
  · rwa [if_pos hc] at h
  · rw [if_neg hc] at h
    exact absurd h (List.not_mem_nil a)

/-- `%m` leaves either the tail after two characters or after one. -/
theorem pMonth2_rest2 (x y : Char) (r : List Char) :
    ∀ pr ∈ pMonth2 (x :: y :: r), pr.snd = r ∨ pr.snd = y :: r := by
  intro pr hpr
  rcases List.mem_append.mp hpr with hm | hm
  · rcases List.mem_append.mp hm with hm2 | hm2
    · have h3 : pr ∈ [(10 + digitVal y, r)] := mem_ite_nil hm2
      rw [List.mem_singleton] at h3
      rw [h3]
      exact Or.inl rfl
    · have h3 : pr ∈ [(digitVal y, r)] := mem_ite_nil hm2
      rw [List.mem_singleton] at h3
      rw [h3]
      exact Or.inl rfl
  · have h3 : pr ∈ [(digitVal x, y :: r)] := mem_ite_nil hm
    rw [List.mem_singleton] at h3
    rw [h3]
    exact Or.inr rfl

/-- `%d` leaves either the tail after two characters or after one. -/
theorem pDay2_rest2 (x y : Char) (r : List Char) :
    ∀ pr ∈ pDay2 (x :: y :: r), pr.snd = r ∨ pr.snd = y :: r := by
  intro pr hpr
  rcases List.mem_append.mp hpr with hm | hm
  · rcases List.mem_append.mp hm with hm2 | hm2
    · rcases List.mem_append.mp hm2 with hm3 | hm3
      · have h3 : pr ∈ [(30 + digitVal y, r)] := mem_ite_nil hm3
        rw [List.mem_singleton] at h3
        rw [h3]
        exact Or.inl rfl
      · have h3 : pr ∈ [(digitVal x * 10 + digitVal y, r)] := mem_ite_nil hm3
        rw [List.mem_singleton] at h3
        rw [h3]
        exact Or.inl rfl
    · have h3 : pr ∈ [(digitVal y, r)] := mem_ite_nil hm2
      rw [List.mem_singleton] at h3
      rw [h3]
      exact Or.inl rfl
  · have h3 : pr ∈ [(digitVal x, y :: r)] := mem_ite_nil hm
    rw [List.mem_singleton] at h3
    rw [h3]
    exact Or.inr rfl

/-- A matching literal directive consumes exactly its character. -/
theorem pAndThen_litC_same {β : Type} (ch : Char) (K : Unit → DirP β)
    (rest : List Char) :
    pAndThen (pLitC ch) K (ch :: rest) = K () rest := by
  unfold pAndThen
  rw [show pLitC ch (ch :: rest) = [((), rest)] from by
    show (if lowerC ch = lowerC ch then [((), rest)] else []) = _
    rw [if_pos rfl]]
  simp

/-- A two-digit numeric directive followed by an unmatchable literal fails
(`%m` case). -/
theorem month_lit_fail {β : Type} (x1 x2 x3 : Char) (rr : List Char) (ch : Char)
    (h2 : ¬ lowerC x2 = lowerC ch) (h3 : ¬ lowerC x3 = lowerC ch)
    (G : Nat → Unit → DirP β) :
    pAndThen pMonth2 (fun mv => pAndThen (pLitC ch) (G mv))
      (x1 :: x2 :: x3 :: rr) = [] := by
  apply pAndThen_eq_nil
  intro ar har
  rcases pMonth2_rest2 x1 x2 (x3 :: rr) ar har with hr | hr
  · rw [hr]
    exact pAndThen_nil_left _ _ _ (pLitC_fail ch x3 rr h3)
  · rw [hr]
    exact pAndThen_nil_left _ _ _ (pLitC_fail ch x2 (x3 :: rr) h2)

/-- A two-digit numeric directive followed by an unmatchable literal fails
(`%d` case). -/
theorem day_lit_fail {β : Type} (x1 x2 x3 : Char) (rr : List Char) (ch : Char)
    (h2 : ¬ lowerC x2 = lowerC ch) (h3 : ¬ lowerC x3 = lowerC ch)
    (G : Nat → Unit → DirP β) :
    pAndThen pDay2 (fun dv => pAndThen (pLitC ch) (G dv))
      (x1 :: x2 :: x3 :: rr) = [] := by
  apply pAndThen_eq_nil
  intro ar har
  rcases pDay2_rest2 x1 x2 (x3 :: rr) ar har with hr | hr
  · rw [hr]
    exact pAndThen_nil_left _ _ _ (pLitC_fail ch x3 rr h3)
  · rw [hr]
    exact pAndThen_nil_left _ _ _ (pLitC_fail ch x2 (x3 :: rr) h2)

/-- `%d` followed by whitespace fails on non-space continuations. -/
theorem day_ws_fail {β : Type} (x1 x2 x3 : Char) (rr : List Char)
    (h2 : isSpaceC x2 = false) (h3 : isSpaceC x3 = false)
    (G : Nat → Unit → DirP β) :
    pAndThen pDay2 (fun dv => pAndThen pWS1 (G dv))
      (x1 :: x2 :: x3 :: rr) = [] := by
  apply pAndThen_eq_nil
  intro ar har
  rcases pDay2_rest2 x1 x2 (x3 :: rr) ar har with hr | hr
  · rw [hr]
    exact pAndThen_nil_left _ _ _ (pWS1_fail x3 h3 rr)
  · rw [hr]
    exact pAndThen_nil_left _ _ _ (pWS1_fail x2 h2 (x3 :: rr))

/-- `%m-%Y` fails on a `mm-dd` tail (the year has only two digits left). -/
theorem month_dash_year_nil (m1 m2 e1 e2 : Char) (hm2 : isDigitC m2 = true)
    (H : Nat → Nat → DirP Tm) :
    pAndThen pMonth2 (fun mv => pAndThen (pLitC '-') (fun _ =>
      pAndThen pYear4 (H mv))) (m1 :: m2 :: '-' :: e1 :: e2 :: []) = [] := by
  apply pAndThen_eq_nil
  intro ar har
  rcases pMonth2_rest2 m1 m2 ('-' :: e1 :: e2 :: []) ar har with hr | hr
  · rw [hr, pAndThen_litC_same]
    exact pAndThen_nil_left _ _ _ rfl
  · rw [hr]
    exact pAndThen_nil_left _ _ _ (pLitC_fail '-' m2 _
      (digit_not_lower_eq m2 hm2 '-' (by decide) (by decide) (by decide)))

/-- `%d-%Y` fails on a `dd`-like tail (the year has only two digits left). -/
theorem day_dash_year_nil (m1 m2 e1 e2 : Char) (hm2 : isDigitC m2 = true)
    (H : Nat → Nat → DirP Tm) :
    pAndThen pDay2 (fun dv => pAndThen (pLitC '-') (fun _ =>
      pAndThen pYear4 (H dv))) (m1 :: m2 :: '-' :: e1 :: e2 :: []) = [] := by
  apply pAndThen_eq_nil
  intro ar har
  rcases pDay2_rest2 m1 m2 ('-' :: e1 :: e2 :: []) ar har with hr | hr
  · rw [hr, pAndThen_litC_same]
    exact pAndThen_nil_left _ _ _ rfl
  · rw [hr]
    exact pAndThen_nil_left _ _ _ (pLitC_fail '-' m2 _
      (digit_not_lower_eq m2 hm2 '-' (by decide) (by decide) (by decide)))

/-- A postcondition of every continuation holds for every `pAndThen`
result. -/
theorem pAndThen_post {α β : Type} (p : DirP α) (f : α → DirP β)
    (s : List Char) (P : β × List Char → Prop)
    (h : ∀ ar ∈ p s, ∀ pr ∈ f ar.fst ar.snd, P pr) :
    ∀ pr ∈ pAndThen p f s, P pr := by
  intro pr hpr
  obtain ⟨ar, har, hin⟩ := List.mem_flatMap.mp hpr
  exact h ar har pr hin

/-- Evaluating a `pAndThen` whose prefix parse is known. -/
theorem pAndThen_cons {α β : Type} (p : DirP α) (f : α → DirP β)
    (s : List Char) (v : α) (rest : List Char) (tl : List (α × List Char))
    (hp : p s = (v, rest) :: tl) :
    pAndThen p f s = f v rest ++ tl.flatMap (fun ar => f ar.fst ar.snd) := by
  unfold pAndThen
  rw [hp, List.flatMap_cons]

/-- Months have at most 31 days. -/
theorem daysInMonth_le (y m : Nat) (h1 : 1 ≤ m) (h2 : m ≤ 12) :
    daysInMonth y m ≤ 31 := by
  interval_cases m
  · exact Nat.le_refl 31
  · show (if isLeapYear y then 29 else 28) ≤ 31
    split <;> omega
  · exact Nat.le_refl 31
  · show (30 : Nat) ≤ 31
    omega
  · exact Nat.le_refl 31
  · show (30 : Nat) ≤ 31
    omega
  · exact Nat.le_refl 31
  · exact Nat.le_refl 31
  · show (30 : Nat) ≤ 31
    omega
  · exact Nat.le_refl 31
  · show (30 : Nat) ≤ 31
    omega
  · exact Nat.le_refl 31

/-- Every configured format only ever produces four-digit years. -/
theorem strptimeRun_year_le (f : FmtP) (hf : f ∈ date_formats) (s : String)
    (t : Tm) (h : strptimeRun f s = some t) : t.year ≤ 9999 := by
  obtain ⟨r, hr, hrt⟩ := strptimeRun_mem f s t h
  subst hrt
  simp only [date_formats, List.mem_cons, List.mem_singleton] at hf
  rcases hf with rfl | rfl | rfl | rfl | rfl | rfl | rfl | rfl | rfl | rfl |
    rfl | rfl | rfl | rfl | rfl | rfl | rfl | hfalse
  · -- fmt_mdY
    refine pAndThen_post _ _ _ (fun pr => pr.fst.year ≤ 9999) ?_ r hr
    repeat (intro _ _; refine pAndThen_post _ _ _ _ ?_)
    intro aY hY pr hpr
    rw [List.mem_singleton.mp hpr]
    exact pYear4_le _ aY hY
  · -- fmt_dmY
    refine pAndThen_post _ _ _ (fun pr => pr.fst.year ≤ 9999) ?_ r hr
    repeat (intro _ _; refine pAndThen_post _ _ _ _ ?_)
    intro aY hY pr hpr
    rw [List.mem_singleton.mp hpr]
    exact pYear4_le _ aY hY
  · -- fmt_Ymd
    refine pAndThen_post _ _ _ (fun pr => pr.fst.year ≤ 9999) ?_ r hr
    intro aY hY
    have hy := pYear4_le _ aY hY
    refine pAndThen_post _ _ _ _ ?_
    repeat (intro _ _; refine pAndThen_post _ _ _ _ ?_)
    intro _ _ pr hpr
    rw [List.mem_singleton.mp hpr]
    exact hy
  · -- fmt_BdY
    refine pAndThen_post _ _ _ (fun pr => pr.fst.year ≤ 9999) ?_ r hr
    repeat (intro _ _; refine pAndThen_post _ _ _ _ ?_)
    intro aY hY pr hpr
    rw [List.mem_singleton.mp hpr]
    exact pYear4_le _ aY hY
  · -- fmt_bdY
    refine pAndThen_post _ _ _ (fun pr => pr.fst.year ≤ 9999) ?_ r hr
    repeat (intro _ _; refine pAndThen_post _ _ _ _ ?_)
    intro aY hY pr hpr
    rw [List.mem_singleton.mp hpr]
    exact pYear4_le _ aY hY
  · -- fmt_dBY
    refine pAndThen_post _ _ _ (fun pr => pr.fst.year ≤ 9999) ?_ r hr
    repeat (intro _ _; refine pAndThen_post _ _ _ _ ?_)
    intro aY hY pr hpr
    rw [List.mem_singleton.mp hpr]
    exact pYear4_le _ aY hY
  · -- fmt_dbY
    refine pAndThen_post _ _ _ (fun pr => pr.fst.year ≤ 9999) ?_ r hr
    repeat (intro _ _; refine pAndThen_post _ _ _ _ ?_)
    intro aY hY pr hpr
    rw [List.mem_singleton.mp hpr]
    exact pYear4_le _ aY hY
  · -- fmt_Ymd_slash
    refine pAndThen_post _ _ _ (fun pr => pr.fst.year ≤ 9999) ?_ r hr
    intro aY hY
    have hy := pYear4_le _ aY hY
    refine pAndThen_post _ _ _ _ ?_
    repeat (intro _ _; refine pAndThen_post _ _ _ _ ?_)
    intro _ _ pr hpr
    rw [List.mem_singleton.mp hpr]
    exact hy
  · -- fmt_dmY_dash
    refine pAndThen_post _ _ _ (fun pr => pr.fst.year ≤ 9999) ?_ r hr
    repeat (intro _ _; refine pAndThen_post _ _ _ _ ?_)
    intro aY hY pr hpr
    rw [List.mem_singleton.mp hpr]
    exact pYear4_le _ aY hY
  · -- fmt_Ymd_dot
    refine pAndThen_post _ _ _ (fun pr => pr.fst.year ≤ 9999) ?_ r hr
    intro aY hY
    have hy := pYear4_le _ aY hY
    refine pAndThen_post _ _ _ _ ?_
    repeat (intro _ _; refine pAndThen_post _ _ _ _ ?_)
    intro _ _ pr hpr
    rw [List.mem_singleton.mp hpr]
    exact hy
  · -- fmt_dmY_dot
    refine pAndThen_post _ _ _ (fun pr => pr.fst.year ≤ 9999) ?_ r hr
    repeat (intro _ _; refine pAndThen_post _ _ _ _ ?_)
    intro aY hY pr hpr
    rw [List.mem_singleton.mp hpr]
    exact pYear4_le _ aY hY
  · -- fmt_mdY_dash
    refine pAndThen_post _ _ _ (fun pr => pr.fst.year ≤ 9999) ?_ r hr
    repeat (intro _ _; refine pAndThen_post _ _ _ _ ?_)
    intro aY hY pr hpr
    rw [List.mem_singleton.mp hpr]
    exact pYear4_le _ aY hY
  · -- fmt_Ymd_compact
    refine pAndThen_post _ _ _ (fun pr => pr.fst.year ≤ 9999) ?_ r hr
    intro aY hY
    have hy := pYear4_le _ aY hY
    refine pAndThen_post _ _ _ _ ?_
    repeat (intro _ _; refine pAndThen_post _ _ _ _ ?_)
    intro _ _ pr hpr
    rw [List.mem_singleton.mp hpr]
    exact hy
  · -- fmtBadDirective
    exact absurd hr (List.not_mem_nil r)
  · exact absurd hr (List.not_mem_nil r)
  · -- fmt_YmdHMS
    refine pAndThen_post _ _ _ (fun pr => pr.fst.year ≤ 9999) ?_ r hr
    intro aY hY
    have hy := pYear4_le _ aY hY
    refine pAndThen_post _ _ _ _ ?_
    repeat (intro _ _; refine pAndThen_post _ _ _ _ ?_)
    intro _ _ pr hpr
    rw [List.mem_singleton.mp hpr]
    exact hy
  · -- fmt_YmdHMSfZ
    refine pAndThen_post _ _ _ (fun pr => pr.fst.year ≤ 9999) ?_ r hr
    intro aY hY
    have hy := pYear4_le _ aY hY
    refine pAndThen_post _ _ _ _ ?_
    repeat (intro _ _; refine pAndThen_post _ _ _ _ ?_)
    intro _ _ pr hpr
    rw [List.mem_singleton.mp hpr]
    exact hy
  · exact absurd hfalse (List.not_mem_nil f)

/-- `%Y-%m-%d` reparses the canonical rendering of a four-digit date. -/
theorem strptimeRun_Ymd_success (y m d : Nat) (a b c dd : Char)
    (hda : isDigitC a = true) (hdb : isDigitC b = true)
    (hdc : isDigitC c = true) (hdd : isDigitC dd = true)
    (hval : digitVal a * 1000 + digitVal b * 100 + digitVal c * 10 +
      digitVal dd = y)
    (hm1 : 1 ≤ m) (hm2 : m ≤ 12) (hd1 : 1 ≤ d) (hd31 : d ≤ 31)
    (s : String)
    (hs : s.data = a :: b :: c :: dd ::
      ('-' :: ((pad2 m).data ++ ('-' :: (pad2 d).data))))
    (hvalid : tmValid (tmOfYmd y m d) = true) :
    strptimeRun fmt_Ymd s = some (tmOfYmd y m d) := by
  obtain ⟨psm, hpmE, _⟩ := pMonth2_pad m hm1 hm2 ('-' :: (pad2 d).data)
  obtain ⟨psd, hpdE, _⟩ := pDay2_pad d hd1 hd31 []
  rw [List.append_nil] at hpdE
  have E1 : pAndThen pDay2 (fun dv => pPure (tmOfYmd y m dv)) (pad2 d).data =
      (tmOfYmd y m d, ([] : List Char)) ::
        psd.flatMap (fun ar => pPure (tmOfYmd y m ar.fst) ar.snd) := by
    rw [pAndThen_cons _ _ _ _ _ _ hpdE]
    rfl
  have E2 : pAndThen (pLitC '-') (fun _ =>
      pAndThen pDay2 (fun dv => pPure (tmOfYmd y m dv))) ('-' :: (pad2 d).data) =
      (tmOfYmd y m d, ([] : List Char)) ::
        psd.flatMap (fun ar => pPure (tmOfYmd y m ar.fst) ar.snd) := by
    rw [pAndThen_litC_same]
    exact E1
  have E3 : pAndThen pMonth2 (fun mv => pAndThen (pLitC '-') (fun _ =>
      pAndThen pDay2 (fun dv => pPure (tmOfYmd y mv dv))))
      ((pad2 m).data ++ ('-' :: (pad2 d).data)) =
      (tmOfYmd y m d, ([] : List Char)) ::
        (psd.flatMap (fun ar => pPure (tmOfYmd y m ar.fst) ar.snd) ++
         psm.flatMap (fun ar => pAndThen (pLitC '-') (fun _ =>
           pAndThen pDay2 (fun dv => pPure (tmOfYmd y ar.fst dv))) ar.snd)) := by
    rw [pAndThen_cons _ _ _ _ _ _ hpmE]
    show pAndThen (pLitC '-') (fun _ =>
      pAndThen pDay2 (fun dv => pPure (tmOfYmd y m dv))) ('-' :: (pad2 d).data)
      ++ _ = _
    rw [E2, List.cons_append]
  have E4 : pAndThen (pLitC '-') (fun _ => pAndThen pMonth2 (fun mv =>
      pAndThen (pLitC '-') (fun _ =>
        pAndThen pDay2 (fun dv => pPure (tmOfYmd y mv dv)))))
      ('-' :: ((pad2 m).data ++ ('-' :: (pad2 d).data))) =
      (tmOfYmd y m d, ([] : List Char)) ::
        (psd.flatMap (fun ar => pPure (tmOfYmd y m ar.fst) ar.snd) ++
         psm.flatMap (fun ar => pAndThen (pLitC '-') (fun _ =>
           pAndThen pDay2 (fun dv => pPure (tmOfYmd y ar.fst dv))) ar.snd)) := by
    rw [pAndThen_litC_same]
    exact E3
  have e1 : pYear4 (a :: b :: c :: dd ::
      ('-' :: ((pad2 m).data ++ ('-' :: (pad2 d).data)))) =
      [(y, '-' :: ((pad2 m).data ++ ('-' :: (pad2 d).data)))] := by
    rw [pYear4_cons4 _ _ _ _ _ hda hdb hdc hdd, hval]
  have E5 : fmt_Ymd (a :: b :: c :: dd ::
      ('-' :: ((pad2 m).data ++ ('-' :: (pad2 d).data)))) =
      (tmOfYmd y m d, ([] : List Char)) ::
        (psd.flatMap (fun ar => pPure (tmOfYmd y m ar.fst) ar.snd) ++
         psm.flatMap (fun ar => pAndThen (pLitC '-') (fun _ =>
           pAndThen pDay2 (fun dv => pPure (tmOfYmd y ar.fst dv))) ar.snd)) := by
    unfold fmt_Ymd
    rw [pAndThen_cons _ _ _ _ _ _ e1]
    simp only [List.flatMap_nil, List.append_nil]
    show pAndThen (pLitC '-') (fun _ => pAndThen pMonth2 (fun mv =>
      pAndThen (pLitC '-') (fun _ =>
        pAndThen pDay2 (fun dv => pPure (tmOfYmd y mv dv)))))
      ('-' :: ((pad2 m).data ++ ('-' :: (pad2 d).data))) = _
    exact E4
  unfold strptimeRun
  rw [hs, E5, List.find?_cons_of_pos _ (by rfl)]
  show (if tmValid (tmOfYmd y m d) = true then some (tmOfYmd y m d) else none) =
    some (tmOfYmd y m d)
  rw [if_pos hvalid]

/-- A four-digit-year canonical rendering reparses to itself. -/
theorem parse_date_fixed_big (y m d : Nat) (hy1 : 1000 ≤ y) (hy2 : y ≤ 9999)
    (hm1 : 1 ≤ m) (hm2 : m ≤ 12) (hd1 : 1 ≤ d)
    (hdm : d ≤ daysInMonth y m) :
    parse_date (renderYmd y m d) = renderYmd y m d := by
  have hd31 : d ≤ 31 := le_trans hdm (daysInMonth_le y m hm1 hm2)
  have hys := toString_data_4 y hy1 (by omega)
  have hda := isDigitC_digitChar (y / 10 / 10 / 10 % 10) (by omega)
  have hdb := isDigitC_digitChar (y / 10 / 10 % 10) (by omega)
  have hdc := isDigitC_digitChar (y / 10 % 10) (by omega)
  have hdd := isDigitC_digitChar (y % 10) (by omega)
  have hval : digitVal (Nat.digitChar (y / 10 / 10 / 10 % 10)) * 1000 +
      digitVal (Nat.digitChar (y / 10 / 10 % 10)) * 100 +
      digitVal (Nat.digitChar (y / 10 % 10)) * 10 +
      digitVal (Nat.digitChar (y % 10)) = y := by
    rw [digitVal_digitChar _ (by omega), digitVal_digitChar _ (by omega),
      digitVal_digitChar _ (by omega), digitVal_digitChar _ (by omega)]
    omega
  have hout : (renderYmd y m d).data =
      Nat.digitChar (y / 10 / 10 / 10 % 10) ::
      Nat.digitChar (y / 10 / 10 % 10) :: Nat.digitChar (y / 10 % 10) ::
      Nat.digitChar (y % 10) ::
      ('-' :: ((pad2 m).data ++ ('-' :: (pad2 d).data))) := by
    show ((((toString y ++ "-") ++ pad2 m) ++ "-") ++ pad2 d).data = _
    rw [data_append, data_append, data_append, data_append, hys]
    simp [List.append_assoc, show ("-" : String).data = ['-'] from rfl]
  have hf1 : strptimeRun fmt_mdY (renderYmd y m d) = none := by
    apply strptimeRun_nil
    rw [hout]
    unfold fmt_mdY
    exact month_lit_fail _ _ _ _ '/'
      (digit_not_lower_eq _ hdb '/' (by decide) (by decide) (by decide))
      (digit_not_lower_eq _ hdc '/' (by decide) (by decide) (by decide)) _
  have hf2 : strptimeRun fmt_dmY (renderYmd y m d) = none := by
    apply strptimeRun_nil
    rw [hout]
    unfold fmt_dmY
    exact day_lit_fail _ _ _ _ '/'
      (digit_not_lower_eq _ hdb '/' (by decide) (by decide) (by decide))
      (digit_not_lower_eq _ hdc '/' (by decide) (by decide) (by decide)) _
  have hvalid : tmValid (tmOfYmd y m d) = true := by
    simp only [tmValid, tmOfYmd, Bool.and_eq_true, decide_eq_true_eq]
    omega
  have hsucc := strptimeRun_Ymd_success y m d _ _ _ _ hda hdb hdc hdd hval
    hm1 hm2 hd1 hd31 (renderYmd y m d) hout hvalid
  unfold parse_date date_formats
  rw [parseDateGo_none _ _ _ hf1, parseDateGo_none _ _ _ hf2,
    parseDateGo_some _ _ _ _ hsucc]
  rfl

/-- Every configured format fails on a one-digit-year rendering. -/
theorem parseDate_small1 (s : String) (g1 m1 m2 e1 e2 : Char)
    (hg1 : isDigitC g1 = true) (hm1d : isDigitC m1 = true)
    (hm2d : isDigitC m2 = true)
    (hs : s.data = g1 :: '-' :: m1 :: m2 :: '-' :: e1 :: e2 :: []) :
    parse_date s = s := by
  have hY4 : pYear4 s.data = [] := by
    rw [hs]
    exact pYear4_fail4 _ _ _ _ _ (by
      intro hcon
      exact absurd hcon.2.1 (by decide))
  have hf1 : strptimeRun fmt_mdY s = none := by
    apply strptimeRun_nil
    rw [hs]
    unfold fmt_mdY
    exact month_lit_fail _ _ _ _ '/' (by decide)
      (digit_not_lower_eq _ hm1d '/' (by decide) (by decide) (by decide)) _
  have hf2 : strptimeRun fmt_dmY s = none := by
    apply strptimeRun_nil
    rw [hs]
    unfold fmt_dmY
    exact day_lit_fail _ _ _ _ '/' (by decide)
      (digit_not_lower_eq _ hm1d '/' (by decide) (by decide) (by decide)) _
  have hf3 : strptimeRun fmt_Ymd s = none := by
    apply strptimeRun_nil
    unfold fmt_Ymd
    exact pAndThen_nil_left _ _ _ hY4
  have hf4 : strptimeRun fmt_BdY s = none := by
    apply strptimeRun_nil
    rw [hs]
    unfold fmt_BdY
    exact pAndThen_nil_left _ _ _ (pMonthName_digit g1 hg1 _)
  have hf5 : strptimeRun fmt_bdY s = none := by
    apply strptimeRun_nil
    rw [hs]
    unfold fmt_bdY
    exact pAndThen_nil_left _ _ _ (pMonthAbbrev_digit g1 hg1 _)
  have hf6 : strptimeRun fmt_dBY s = none := by
    apply strptimeRun_nil
    rw [hs]
    unfold fmt_dBY
    exact day_ws_fail _ _ _ _ (by decide) (isSpaceC_of_digit m1 hm1d) _
  have hf7 : strptimeRun fmt_dbY s = none := by
    apply strptimeRun_nil
    rw [hs]
    unfold fmt_dbY
    exact day_ws_fail _ _ _ _ (by decide) (isSpaceC_of_digit m1 hm1d) _
  have hf8 : strptimeRun fmt_Ymd_slash s = none := by
    apply strptimeRun_nil
    unfold fmt_Ymd_slash
    exact pAndThen_nil_left _ _ _ hY4
  have hf9 : strptimeRun fmt_dmY_dash s = none := by
    apply strptimeRun_nil
    rw [hs]
    unfold fmt_dmY_dash
    apply pAndThen_eq_nil
    intro ar har
    rcases pDay2_rest2 g1 '-' (m1 :: m2 :: '-' :: e1 :: e2 :: []) ar har with hr | hr
    · rw [hr]
      exact pAndThen_nil_left _ _ _ (pLitC_fail '-' m1 _
        (digit_not_lower_eq m1 hm1d '-' (by decide) (by decide) (by decide)))
    · rw [hr, pAndThen_litC_same]
      exact month_dash_year_nil m1 m2 e1 e2 hm2d _
  have hf10 : strptimeRun fmt_Ymd_dot s = none := by
    apply strptimeRun_nil
    unfold fmt_Ymd_dot
    exact pAndThen_nil_left _ _ _ hY4
  have hf11 : strptimeRun fmt_dmY_dot s = none := by
    apply strptimeRun_nil
    rw [hs]
    unfold fmt_dmY_dot
    exact day_lit_fail _ _ _ _ '.' (by decide)
      (digit_not_lower_eq _ hm1d '.' (by decide) (by decide) (by decide)) _
  have hf12 : strptimeRun fmt_mdY_dash s = none := by
    apply strptimeRun_nil
    rw [hs]
    unfold fmt_mdY_dash
    apply pAndThen_eq_nil
    intro ar har
    rcases pMonth2_rest2 g1 '-' (m1 :: m2 :: '-' :: e1 :: e2 :: []) ar har with hr | hr
    · rw [hr]
      exact pAndThen_nil_left _ _ _ (pLitC_fail '-' m1 _
        (digit_not_lower_eq m1 hm1d '-' (by decide) (by decide) (by decide)))
    · rw [hr, pAndThen_litC_same]
      exact day_dash_year_nil m1 m2 e1 e2 hm2d _
  have hf13 : strptimeRun fmt_Ymd_compact s = none := by
    apply strptimeRun_nil
    unfold fmt_Ymd_compact
    exact pAndThen_nil_left _ _ _ hY4
  have hf14 : strptimeRun fmtBadDirective s = none := strptimeRun_nil _ _ rfl
  have hf15 : strptimeRun fmt_YmdHMS s = none := by
    apply strptimeRun_nil
    unfold fmt_YmdHMS
    exact pAndThen_nil_left _ _ _ hY4
  have hf16 : strptimeRun fmt_YmdHMSfZ s = none := by
    apply strptimeRun_nil
    unfold fmt_YmdHMSfZ
    exact pAndThen_nil_left _ _ _ hY4
  unfold parse_date date_formats
  rw [parseDateGo_none _ _ _ hf1, parseDateGo_none _ _ _ hf2,
    parseDateGo_none _ _ _ hf3, parseDateGo_none _ _ _ hf4,
    parseDateGo_none _ _ _ hf5, parseDateGo_none _ _ _ hf6,
    parseDateGo_none _ _ _ hf7, parseDateGo_none _ _ _ hf8,
    parseDateGo_none _ _ _ hf9, parseDateGo_none _ _ _ hf10,
    parseDateGo_none _ _ _ hf11, parseDateGo_none _ _ _ hf12,
    parseDateGo_none _ _ _ hf13, parseDateGo_none _ _ _ hf14,
    parseDateGo_none _ _ _ hf14, parseDateGo_none _ _ _ hf15,
    parseDateGo_none _ _ _ hf16]
  rfl

/-- Every configured format fails on a two-digit-year rendering. -/
theorem parseDate_small2 (s : String) (g1 g2 m1 m2 e1 e2 : Char)
    (hg1 : isDigitC g1 = true) (hg2 : isDigitC g2 = true)
    (_hm1d : isDigitC m1 = true) (hm2d : isDigitC m2 = true)
    (hs : s.data = g1 :: g2 :: '-' :: m1 :: m2 :: '-' :: e1 :: e2 :: []) :
    parse_date s = s := by
  have hY4 : pYear4 s.data = [] := by
    rw [hs]
    exact pYear4_fail4 _ _ _ _ _ (by
      intro hcon
      exact absurd hcon.2.2.1 (by decide))
  have hf1 : strptimeRun fmt_mdY s = none := by
    apply strptimeRun_nil
    rw [hs]
    unfold fmt_mdY
    exact month_lit_fail _ _ _ _ '/'
      (digit_not_lower_eq _ hg2 '/' (by decide) (by decide) (by decide))
      (by decide) _
  have hf2 : strptimeRun fmt_dmY s = none := by
    apply strptimeRun_nil
    rw [hs]
    unfold fmt_dmY
    exact day_lit_fail _ _ _ _ '/'
      (digit_not_lower_eq _ hg2 '/' (by decide) (by decide) (by decide))
      (by decide) _
  have hf3 : strptimeRun fmt_Ymd s = none := by
    apply strptimeRun_nil
    unfold fmt_Ymd
    exact pAndThen_nil_left _ _ _ hY4
  have hf4 : strptimeRun fmt_BdY s = none := by
    apply strptimeRun_nil
    rw [hs]
    unfold fmt_BdY
    exact pAndThen_nil_left _ _ _ (pMonthName_digit g1 hg1 _)
  have hf5 : strptimeRun fmt_bdY s = none := by
    apply strptimeRun_nil
    rw [hs]
    unfold fmt_bdY
    exact pAndThen_nil_left _ _ _ (pMonthAbbrev_digit g1 hg1 _)
  have hf6 : strptimeRun fmt_dBY s = none := by
    apply strptimeRun_nil
    rw [hs]
    unfold fmt_dBY
    exact day_ws_fail _ _ _ _ (isSpaceC_of_digit g2 hg2) (by decide) _
  have hf7 : strptimeRun fmt_dbY s = none := by
    apply strptimeRun_nil
    rw [hs]
    unfold fmt_dbY
    exact day_ws_fail _ _ _ _ (isSpaceC_of_digit g2 hg2) (by decide) _
  have hf8 : strptimeRun fmt_Ymd_slash s = none := by
    apply strptimeRun_nil
    unfold fmt_Ymd_slash
    exact pAndThen_nil_left _ _ _ hY4
  have hf9 : strptimeRun fmt_dmY_dash s = none := by
    apply strptimeRun_nil
    rw [hs]
    unfold fmt_dmY_dash
    apply pAndThen_eq_nil
    intro ar har
    rcases pDay2_rest2 g1 g2 ('-' :: m1 :: m2 :: '-' :: e1 :: e2 :: []) ar har
      with hr | hr
    · rw [hr, pAndThen_litC_same]
      exact month_dash_year_nil m1 m2 e1 e2 hm2d _
    · rw [hr]
      exact pAndThen_nil_left _ _ _ (pLitC_fail '-' g2 _
        (digit_not_lower_eq g2 hg2 '-' (by decide) (by decide) (by decide)))
  have hf10 : strptimeRun fmt_Ymd_dot s = none := by
    apply strptimeRun_nil
    unfold fmt_Ymd_dot
    exact pAndThen_nil_left _ _ _ hY4
  have hf11 : strptimeRun fmt_dmY_dot s = none := by
    apply strptimeRun_nil
    rw [hs]
    unfold fmt_dmY_dot
    exact day_lit_fail _ _ _ _ '.'
      (digit_not_lower_eq _ hg2 '.' (by decide) (by decide) (by decide))
      (by decide) _
  have hf12 : strptimeRun fmt_mdY_dash s = none := by
    apply strptimeRun_nil
    rw [hs]
    unfold fmt_mdY_dash
    apply pAndThen_eq_nil
    intro ar har
    rcases pMonth2_rest2 g1 g2 ('-' :: m1 :: m2 :: '-' :: e1 :: e2 :: []) ar har
      with hr | hr
    · rw [hr, pAndThen_litC_same]
      exact day_dash_year_nil m1 m2 e1 e2 hm2d _
    · rw [hr]
      exact pAndThen_nil_left _ _ _ (pLitC_fail '-' g2 _
        (digit_not_lower_eq g2 hg2 '-' (by decide) (by decide) (by decide)))
  have hf13 : strptimeRun fmt_Ymd_compact s = none := by
    apply strptimeRun_nil
    unfold fmt_Ymd_compact
    exact pAndThen_nil_left _ _ _ hY4
  have hf14 : strptimeRun fmtBadDirective s = none := strptimeRun_nil _ _ rfl
  have hf15 : strptimeRun fmt_YmdHMS s = none := by
    apply strptimeRun_nil
    unfold fmt_YmdHMS
    exact pAndThen_nil_left _ _ _ hY4
  have hf16 : strptimeRun fmt_YmdHMSfZ s = none := by
    apply strptimeRun_nil
    unfold fmt_YmdHMSfZ
    exact pAndThen_nil_left _ _ _ hY4
  unfold parse_date date_formats
  rw [parseDateGo_none _ _ _ hf1, parseDateGo_none _ _ _ hf2,
    parseDateGo_none _ _ _ hf3, parseDateGo_none _ _ _ hf4,
    parseDateGo_none _ _ _ hf5, parseDateGo_none _ _ _ hf6,
    parseDateGo_none _ _ _ hf7, parseDateGo_none _ _ _ hf8,
    parseDateGo_none _ _ _ hf9, parseDateGo_none _ _ _ hf10,
    parseDateGo_none _ _ _ hf11, parseDateGo_none _ _ _ hf12,
    parseDateGo_none _ _ _ hf13, parseDateGo_none _ _ _ hf14,
    parseDateGo_none _ _ _ hf14, parseDateGo_none _ _ _ hf15,
    parseDateGo_none _ _ _ hf16]
  rfl

/-- Every configured format fails on a three-digit-year rendering. -/
theorem parseDate_small3 (s : String) (g1 g2 g3 m1 m2 e1 e2 : Char)
    (hg1 : isDigitC g1 = true) (hg2 : isDigitC g2 = true)
    (hg3 : isDigitC g3 = true)
    (_hm1d : isDigitC m1 = true) (_hm2d : isDigitC m2 = true)
    (hs : s.data = g1 :: g2 :: g3 :: '-' :: m1 :: m2 :: '-' :: e1 :: e2 :: []) :
    parse_date s = s := by
  have hY4 : pYear4 s.data = [] := by
    rw [hs]
    exact pYear4_fail4 _ _ _ _ _ (by
      intro hcon
      exact absurd hcon.2.2.2 (by decide))
  have hf1 : strptimeRun fmt_mdY s = none := by
    apply strptimeRun_nil
    rw [hs]
    unfold fmt_mdY
    exact month_lit_fail _ _ _ _ '/'
      (digit_not_lower_eq _ hg2 '/' (by decide) (by decide) (by decide))
      (digit_not_lower_eq _ hg3 '/' (by decide) (by decide) (by decide)) _
  have hf2 : strptimeRun fmt_dmY s = none := by
    apply strptimeRun_nil
    rw [hs]
    unfold fmt_dmY
    exact day_lit_fail _ _ _ _ '/'
      (digit_not_lower_eq _ hg2 '/' (by decide) (by decide) (by decide))
      (digit_not_lower_eq _ hg3 '/' (by decide) (by decide) (by decide)) _
  have hf3 : strptimeRun fmt_Ymd s = none := by
    apply strptimeRun_nil
    unfold fmt_Ymd
    exact pAndThen_nil_left _ _ _ hY4
  have hf4 : strptimeRun fmt_BdY s = none := by
    apply strptimeRun_nil
    rw [hs]
    unfold fmt_BdY
    exact pAndThen_nil_left _ _ _ (pMonthName_digit g1 hg1 _)
  have hf5 : strptimeRun fmt_bdY s = none := by
    apply strptimeRun_nil
    rw [hs]
    unfold fmt_bdY
    exact pAndThen_nil_left _ _ _ (pMonthAbbrev_digit g1 hg1 _)
  have hf6 : strptimeRun fmt_dBY s = none := by
    apply strptimeRun_nil
    rw [hs]
    unfold fmt_dBY
    exact day_ws_fail _ _ _ _ (isSpaceC_of_digit g2 hg2)
      (isSpaceC_of_digit g3 hg3) _
  have hf7 : strptimeRun fmt_dbY s = none := by
    apply strptimeRun_nil
    rw [hs]
    unfold fmt_dbY
    exact day_ws_fail _ _ _ _ (isSpaceC_of_digit g2 hg2)
      (isSpaceC_of_digit g3 hg3) _
  have hf8 : strptimeRun fmt_Ymd_slash s = none := by
    apply strptimeRun_nil
    unfold fmt_Ymd_slash
    exact pAndThen_nil_left _ _ _ hY4
  have hf9 : strptimeRun fmt_dmY_dash s = none := by
    apply strptimeRun_nil
    rw [hs]
    unfold fmt_dmY_dash
    exact day_lit_fail _ _ _ _ '-'
      (digit_not_lower_eq _ hg2 '-' (by decide) (by decide) (by decide))
      (digit_not_lower_eq _ hg3 '-' (by decide) (by decide) (by decide)) _
  have hf10 : strptimeRun fmt_Ymd_dot s = none := by
    apply strptimeRun_nil
    unfold fmt_Ymd_dot
    exact pAndThen_nil_left _ _ _ hY4
  have hf11 : strptimeRun fmt_dmY_dot s = none := by
    apply strptimeRun_nil
    rw [hs]
    unfold fmt_dmY_dot
    exact day_lit_fail _ _ _ _ '.'
      (digit_not_lower_eq _ hg2 '.' (by decide) (by decide) (by decide))
      (digit_not_lower_eq _ hg3 '.' (by decide) (by decide) (by decide)) _
  have hf12 : strptimeRun fmt_mdY_dash s = none := by
    apply strptimeRun_nil
    rw [hs]
    unfold fmt_mdY_dash
    exact month_lit_fail _ _ _ _ '-'
      (digit_not_lower_eq _ hg2 '-' (by decide) (by decide) (by decide))
      (digit_not_lower_eq _ hg3 '-' (by decide) (by decide) (by decide)) _
  have hf13 : strptimeRun fmt_Ymd_compact s = none := by
    apply strptimeRun_nil
    unfold fmt_Ymd_compact
    exact pAndThen_nil_left _ _ _ hY4
  have hf14 : strptimeRun fmtBadDirective s = none := strptimeRun_nil _ _ rfl
  have hf15 : strptimeRun fmt_YmdHMS s = none := by
    apply strptimeRun_nil
    unfold fmt_YmdHMS
    exact pAndThen_nil_left _ _ _ hY4
  have hf16 : strptimeRun fmt_YmdHMSfZ s = none := by
    apply strptimeRun_nil
    unfold fmt_YmdHMSfZ
    exact pAndThen_nil_left _ _ _ hY4
  unfold parse_date date_formats
  rw [parseDateGo_none _ _ _ hf1, parseDateGo_none _ _ _ hf2,
    parseDateGo_none _ _ _ hf3, parseDateGo_none _ _ _ hf4,
    parseDateGo_none _ _ _ hf5, parseDateGo_none _ _ _ hf6,
    parseDateGo_none _ _ _ hf7, parseDateGo_none _ _ _ hf8,
    parseDateGo_none _ _ _ hf9, parseDateGo_none _ _ _ hf10,
    parseDateGo_none _ _ _ hf11, parseDateGo_none _ _ _ hf12,
    parseDateGo_none _ _ _ hf13, parseDateGo_none _ _ _ hf14,
    parseDateGo_none _ _ _ hf14, parseDateGo_none _ _ _ hf15,
    parseDateGo_none _ _ _ hf16]
  rfl

/-- A short-year canonical rendering reparses to itself: every format
fails and `parse_date` returns it unchanged. -/
theorem parse_date_fixed_small (y m d : Nat) (hy1 : 1 ≤ y) (hylt : y < 1000)
    (hm1 : 1 ≤ m) (hm2 : m ≤ 12) (hd1 : 1 ≤ d) (hd31 : d ≤ 31) :
    parse_date (renderYmd y m d) = renderYmd y m d := by
  obtain ⟨m1, m2, hpm, hm1d, hm2d⟩ := pad2_digits m hm1 (by omega)
  obtain ⟨e1, e2, hpd, _, _⟩ := pad2_digits d hd1 hd31
  by_cases hA : y < 10
  · have hys := toString_data_1 y hA
    refine parseDate_small1 _ (Nat.digitChar (y % 10)) m1 m2 e1 e2
      (isDigitC_digitChar _ (by omega)) hm1d hm2d ?_
    show ((((toString y ++ "-") ++ pad2 m) ++ "-") ++ pad2 d).data = _
    rw [data_append, data_append, data_append, data_append, hys, hpm, hpd]
    rfl
  · by_cases hB : y < 100
    · have hys := toString_data_2 y (by omega) hB
      refine parseDate_small2 _ (Nat.digitChar (y / 10 % 10))
        (Nat.digitChar (y % 10)) m1 m2 e1 e2
        (isDigitC_digitChar _ (by omega)) (isDigitC_digitChar _ (by omega))
        hm1d hm2d ?_
      show ((((toString y ++ "-") ++ pad2 m) ++ "-") ++ pad2 d).data = _
      rw [data_append, data_append, data_append, data_append, hys, hpm, hpd]
      rfl
    · have hys := toString_data_3 y (by omega) (by omega)
      refine parseDate_small3 _ (Nat.digitChar (y / 10 / 10 % 10))
        (Nat.digitChar (y / 10 % 10)) (Nat.digitChar (y % 10)) m1 m2 e1 e2
        (isDigitC_digitChar _ (by omega)) (isDigitC_digitChar _ (by omega))
        (isDigitC_digitChar _ (by omega)) hm1d hm2d ?_
      show ((((toString y ++ "-") ++ pad2 m) ++ "-") ++ pad2 d).data = _
      rw [data_append, data_append, data_append, data_append, hys, hpm, hpd]
      rfl

/-- The canonical rendering of a valid date with a four-digit-bounded year
is a fixed point of `parse_date`. -/
theorem parse_date_render_fixed (y m d : Nat) (hy1 : 1 ≤ y) (hy2 : y ≤ 9999)
    (hm1 : 1 ≤ m) (hm2 : m ≤ 12) (hd1 : 1 ≤ d)
    (hdm : d ≤ daysInMonth y m) :
    parse_date (renderYmd y m d) = renderYmd y m d := by
  by_cases hbig : 1000 ≤ y
  · exact parse_date_fixed_big y m d hbig hy2 hm1 hm2 hd1 hdm
  · exact parse_date_fixed_small y m d hy1 (by omega) hm1 hm2 hd1
      (le_trans hdm (daysInMonth_le y m hm1 hm2))

/-- C9: date normalization and phone normalization are idempotent — for
every input string, re-applying `parse_date` or `format_phone_number` to
its own output returns that output unchanged, both when the first
application produced a canonical form and when it returned the input
unmodified. -/
theorem C9_normalization_idempotent :
    (∀ s, parse_date (parse_date s) = parse_date s) ∧
    (∀ s, format_phone_number (format_phone_number s) = format_phone_number s) := by
  constructor
  · intro s
    rcases parseDateGo_cases date_formats s with h | ⟨f, hf, t, ht, hgo⟩
    · show parse_date (parseDateGo date_formats s) = parseDateGo date_formats s
      rw [h]
      exact h
    · show parse_date (parseDateGo date_formats s) = parseDateGo date_formats s
      rw [hgo]
      have hv := strptimeRun_valid f s t ht
      have hy9 := strptimeRun_year_le f hf s t ht
      simp only [tmValid, Bool.and_eq_true, decide_eq_true_eq] at hv
      refine parse_date_render_fixed t.year t.month t.day ?_ hy9 ?_ ?_ ?_ ?_ <;>
        omega
  · intro s
    exact format_phone_number_idem s
